import Mathlib

/-! CARP failover engine (`sys/netinet/ip_carp.c`).

A shallow embedding of the parts of `ip_carp.c` that decide the election,
authentication and load-sharing properties of the protocol, followed by the
theorems about them.  Kernel objects reached through pointers are addressed by
their position in the list that owns them.
-/

namespace Carp

/-! ## Constants and small types -/

/-- Largest value of a C `int`. -/
def INT_MAX : Int := 2147483647

/-- Smallest value of a C `int`. -/
def INT_MIN : Int := -2147483648

/-- Modelled from the spec: `CARP_VERSION` of `netinet/ip_carp.h` is not under
src/; the protocol version carried by every advertisement. -/
def CARP_VERSION : Nat := 2

/-- Modelled from the spec: `CARP_KEY_LEN` of `netinet/ip_carp.h` is not under
src/; the fixed width of the shared key. -/
def CARP_KEY_LEN : Nat := 20

/-- The size of `vhe_pad`, `#define CARP_HMAC_PAD 64`. -/
def CARP_HMAC_PAD : Nat := 64

/-- Length of a link-layer address (`ETHER_ADDR_LEN`). -/
def ETHER_ADDR_LEN : Nat := 6

/-- The index of the context that includes link-local addresses. -/
def HMAC_ORIG : Nat := 0

/-- The index of the context that excludes link-local addresses. -/
def HMAC_NOV6LL : Nat := 1

/-- The number of authenticator contexts of an entry. -/
def HMAC_MAX : Nat := 2

/-- Modelled from the spec: `CARP_BAL_NONE` of `netinet/ip_carp.h` is not under
src/; load-balancing mode NONE. -/
def CARP_BAL_NONE : Nat := 0

/-- Modelled from the spec: `CARP_BAL_IP` of `netinet/ip_carp.h` is not under
src/; load-balancing mode IP. -/
def CARP_BAL_IP : Nat := 1

/-- The address family argument (`sa_family_t`) as far as the code tells the
values apart: `0`, `AF_INET`, `AF_INET6`. -/
inductive sa_family where
  | AF_UNSPEC
  | AF_INET
  | AF_INET6
deriving DecidableEq, Repr

/-- The `state` field of `struct carp_vhost_entry`:
`enum { INIT = 0, BACKUP, MASTER }`. -/
inductive carp_state where
  | INIT
  | BACKUP
  | MASTER
deriving DecidableEq, Repr

/-- The link state values `carp_set_state` assigns to `if_link_state`. -/
inductive link_state where
  | LINK_STATE_INVALID
  | LINK_STATE_DOWN
  | LINK_STATE_UP
deriving DecidableEq, Repr

/-- The interface types the code tells apart (`if_type`). -/
inductive if_type where
  | IFT_ETHER
  | IFT_CARP
  | IFT_OTHER
deriving DecidableEq, Repr

/-- A `struct timeval`. -/
structure timeval where
  tv_sec : Int
  tv_usec : Int
deriving DecidableEq, Repr

/-- Modelled from the spec: the `timercmp` macro of `sys/time.h` is not under
src/; `timercmp(a, b, <)`, the lexicographic comparison of (seconds,
microseconds). -/
def timercmp_lt (a b : timeval) : Bool :=
  if a.tv_sec = b.tv_sec then decide (a.tv_usec < b.tv_usec) else decide (a.tv_sec < b.tv_sec)

/-- Modelled from the spec: the `timercmp` macro of `sys/time.h` is not under
src/; `timercmp(a, b, >)`. -/
def timercmp_gt (a b : timeval) : Bool :=
  if a.tv_sec = b.tv_sec then decide (a.tv_usec > b.tv_usec) else decide (a.tv_sec > b.tv_sec)

/-- Modelled from the spec: the `timercmp` macro of `sys/time.h` is not under
src/; `timercmp(a, b, ==)`. -/
def timercmp_eq (a b : timeval) : Bool :=
  if a.tv_sec = b.tv_sec then decide (a.tv_usec = b.tv_usec) else decide (a.tv_sec = b.tv_sec)

/-- Modelled from the spec: `struct timeout` and `timeout_add_tv` /
`timeout_del` of `sys/timeout.h` are not under src/.  A timer is either not
pending (`none`) or pending with the delay it was last armed with; arming
replaces whatever was pending. -/
abbrev timeout := Option timeval

/-- Modelled from the spec: `timeout_add_tv` of `sys/timeout.h` is not under
src/; the timer is pending with the given delay afterwards. -/
def timeout_add_tv (_to : timeout) (tv : timeval) : timeout := some tv

/-- Modelled from the spec: `timeout_del` of `sys/timeout.h` is not under src/;
the timer is not pending afterwards. -/
def timeout_del (_to : timeout) : timeout := none

/-! ## SHA1 and byte strings -/

/-- Modelled from the spec: `SHA1_CTX` of `crypto/sha1.h` is not under src/.  A
context is represented by the byte string it has absorbed. -/
abbrev SHA1_CTX := List Nat

/-- Modelled from the spec: `SHA1Init` of `crypto/sha1.h` is not under src/; the
context that has absorbed nothing. -/
def SHA1Init : SHA1_CTX := []

/-- Modelled from the spec: `SHA1Update` of `crypto/sha1.h` is not under src/;
the context absorbs the bytes. -/
def SHA1Update (c : SHA1_CTX) (data : List Nat) : SHA1_CTX := c ++ data

/-- Modelled from the spec: `timingsafe_bcmp` of libkern is not under src/; it
returns 0 when the first `n` bytes agree and 1 otherwise. -/
def timingsafe_bcmp (a b : List Nat) (n : Nat) : Nat :=
  if a.take n = b.take n then 0 else 1

/-- Modelled from the spec: `memcmp` of libkern is not under src/; the sign of
the result is that of the first differing byte among the first `n`. -/
def memcmp : List Nat → List Nat → Nat → Int
  | _, _, 0 => 0
  | a :: as, b :: bs, n + 1 => if a = b then memcmp as bs n else (a : Int) - (b : Int)
  | _, _, _ + 1 => 0

/-- The four bytes an `in_addr` occupies in memory (network byte order), given
the host-order value `ntohl(s_addr)`. -/
def in_addr_bytes (a : Nat) : List Nat :=
  [a / 16777216 % 256, a / 65536 % 256, a / 256 % 256, a % 256]

/-- The eight bytes of a replay counter in memory.  The counter is kept as the
number whose image these bytes are; the same image is used for
`vhe_replay_cookie` and for `carp_counter`. -/
def counter_bytes (c : Nat) : List Nat :=
  (List.range 8).map (fun i => c / 256 ^ i % 256)

/-! ## Data model -/

/-- An element of `if_addrlist`, by address family.  An IPv4 address is kept as
`ntohl(s_addr)`, an IPv6 address as its 16 bytes. -/
inductive ifaddr where
  | inet (addr : Nat)
  | inet6 (addr6 : List Nat)
  | other
deriving DecidableEq, Repr

/-- The `struct carp_vhost_entry`. -/
structure carp_vhost_entry where
  vhe_leader : Bool
  vhid : Int
  advskew : Int
  state : carp_state
  ad_tmo : timeout
  md_tmo : timeout
  md6_tmo : timeout
  vhe_replay_cookie : Nat
  vhe_pad : List Nat
  vhe_sha1 : SHA1_CTX × SHA1_CTX
  vhe_enaddr : List Nat
deriving DecidableEq, Repr

/-- The `struct carp_softc`, with the fields of its embedded `struct ifnet`
(`sc_if`) and `struct arpcom` (`sc_ac`) that the code reads or writes.
`if_groups` holds the positions of the interface groups in the group table. -/
structure carp_softc where
  if_flags_up : Bool
  if_flags_running : Bool
  if_link_state : link_state
  if_ierrors : Nat
  if_oerrors : Nat
  if_groups : List Nat
  if_addrlist : List ifaddr
  ac_enaddr : List Nat
  sc_carpdevidx : Nat
  sc_suppress : Bool
  sc_bow_out : Bool
  sc_demote_cnt : Int
  sc_sendad_errors : Int
  sc_sendad_success : Int
  sc_curlladdr : List Nat
  carp_vhosts : List carp_vhost_entry
  sc_vhe_count : Int
  sc_vhids : List Nat
  sc_advskews : List Nat
  sc_balancing : Nat
  sc_naddrs : Int
  sc_naddrs6 : Int
  sc_advbase : Int
  sc_key : List Nat
  sc_hashkey : List Nat
  sc_lsmask : Nat
  sc_lscount : Int
  sc_delayed_arp : Int
  sc_realmac : Bool
  sc_peer : Nat
  cur_vhe : Option Nat
deriving DecidableEq, Repr

/-- The fields of a received `struct carp_header` that `carp_proto_input_c`
reads. -/
structure carp_header where
  carp_version : Nat
  carp_vhid : Nat
  carp_demote : Nat
  carp_advbase : Nat
  carp_advskew : Nat
  carp_counter : Nat
  carp_md : List Nat
deriving DecidableEq, Repr

/-- Apply `f` to the entry at position `k` of the list of entries. -/
def modify_vhe (sc : carp_softc) (k : Nat) (f : carp_vhost_entry → carp_vhost_entry) :
    carp_softc :=
  { sc with carp_vhosts := sc.carp_vhosts.modify f k }

/-- Read `vhe_sha1[ctx]`. -/
def vhe_sha1_get (p : SHA1_CTX × SHA1_CTX) (ctx : Nat) : SHA1_CTX :=
  if ctx = HMAC_ORIG then p.1 else p.2

/-- One step of the `TAILQ_FOREACH` of the IPv4 selection pass of
`carp_hmac_prepare_ctx`: the state is `(cur, found)`. -/
def carp_hmac_inet_step (last : Nat) (st : Nat × Nat) (ifa : ifaddr) : Nat × Nat :=
  match ifa with
  | ifaddr.inet a => if last < a ∧ a < st.1 then (a, st.2 + 1) else st
  | _ => st

/-- One pass over `if_addrlist` of the IPv4 loop of `carp_hmac_prepare_ctx`:
`cur.s_addr = 0xffffffff; found = 0;` then the `TAILQ_FOREACH`. -/
def carp_hmac_inet_pass (last : Nat) (addrs : List ifaddr) : Nat × Nat :=
  addrs.foldl (carp_hmac_inet_step last) (4294967295, 0)

/-- The IPv4 `do ... while (found)` loop of `carp_hmac_prepare_ctx`, started
with `cur`; `none` when the fuel runs out before the loop ends. -/
def carp_hmac_inet_loop : Nat → Nat → List ifaddr → SHA1_CTX → Option SHA1_CTX
  | 0, _, _, _ => none
  | fuel + 1, cur, addrs, c =>
    let last := cur
    let r := carp_hmac_inet_pass last addrs
    if r.2 ≠ 0 then
      carp_hmac_inet_loop fuel r.1 addrs (SHA1Update c (in_addr_bytes r.1))
    else some c

/-- The first statement of `carp_prepare_ad`: a replay cookie that is still zero
is drawn with `arc4random_buf`, which delivers `rnd`. -/
def carp_prepare_ad_cookie (vhe : carp_vhost_entry) (rnd : Nat) : carp_vhost_entry :=
  if vhe.vhe_replay_cookie = 0 then { vhe with vhe_replay_cookie := rnd } else vhe

section Authenticator

variable (SHA1Final : SHA1_CTX → List Nat)

/-- The function `carp_hmac_generate(vhe, counter, md, ctx)`: the digest left in
`md`.  The three size tests of the source compare constants and never hold. -/
def carp_hmac_generate (vhe : carp_vhost_entry) (counter : Nat) (md : List Nat) (ctx : Nat) :
    List Nat :=
  if ctx ≥ HMAC_MAX then md
  else
    -- fetch first half of inner hash
    let sha1ctx := vhe_sha1_get vhe.vhe_sha1 ctx
    let sha1ctx := SHA1Update sha1ctx (counter_bytes counter)
    let md := SHA1Final sha1ctx
    -- outer hash
    let sha1ctx := SHA1Init
    let sha1ctx := SHA1Update sha1ctx vhe.vhe_pad
    let sha1ctx := SHA1Update sha1ctx (md.take 20)
    SHA1Final sha1ctx

/-- The loop of `carp_hmac_verify` from index `i` on, with `n` indices left. -/
def carp_hmac_verify_from (vhe : carp_vhost_entry) (counter : Nat) (md : List Nat) :
    Nat → Nat → List Nat → Nat
  | 0, _, _ => 1
  | n + 1, i, md2 =>
    let md2 := carp_hmac_generate SHA1Final vhe counter md2 i
    if timingsafe_bcmp md md2 20 = 0 then 0
    else carp_hmac_verify_from vhe counter md n (i + 1) md2

/-- The function `carp_hmac_verify(vhe, counter, md)`; `md2` starts out
uninitialised, any content will do as every pass overwrites it. -/
def carp_hmac_verify (vhe : carp_vhost_entry) (counter : Nat) (md : List Nat) : Nat :=
  carp_hmac_verify_from SHA1Final vhe counter md HMAC_MAX 0 []

/-- The function `carp_prepare_ad(m, vhe, ch)`: the entry and the header after the
call.  `rnd` is what `arc4random_buf` delivers when the cookie is still zero.
The size test of the source compares two equal constants and never holds. -/
def carp_prepare_ad (vhe : carp_vhost_entry) (ch : carp_header) (rnd : Nat) :
    carp_vhost_entry × carp_header :=
  let vhe := carp_prepare_ad_cookie vhe rnd
  let ch := { ch with carp_counter := vhe.vhe_replay_cookie }
  (vhe, { ch with carp_md := carp_hmac_generate SHA1Final vhe ch.carp_counter ch.carp_md
                    HMAC_NOV6LL })

end Authenticator

/-! ## The interfaces, the groups and the counters -/

/-- An interface of the system other than the carp interfaces themselves, as
`if_get` returns it: the fields of `struct ifnet` / `struct arpcom` the code
reads. -/
structure ifnet where
  if_xname : List Nat
  if_index : Nat
  if_type : if_type
  if_flags_simplex : Bool
  ac_enaddr : List Nat
  if_groups : List Nat
deriving DecidableEq, Repr

/-- An interface group (`struct ifg_group`): whether its name is `IFG_ALL`, and
its demotion counter. -/
structure ifg_group where
  ifg_all : Bool
  ifg_carp_demoted : Int
deriving DecidableEq, Repr

/-- The counters of `struct carpstats` that the embedded code increments. -/
structure carpstats where
  carps_badvhid : Nat
  carps_badver : Nat
  carps_badauth : Nat
  carps_preempt : Nat
  carps_onomem : Nat
  carps_opackets : Nat
  carps_opackets6 : Nat
deriving DecidableEq, Repr

/-- The names of the counters of `struct carpstats` that the embedded code
increments. -/
inductive carps_counter where
  | carps_badvhid
  | carps_badver
  | carps_badauth
  | carps_preempt
  | carps_onomem
  | carps_opackets
  | carps_opackets6
deriving DecidableEq, Repr

/-- The outcome of `ip_output` / `ip6_output` as far as `carp_send_ad` tells the
error codes apart. -/
inductive output_error where
  | ok
  | ENOBUFS
  | EHOSTDOWN
  | other
deriving DecidableEq, Repr

/-- What the collaborators outside `ip_carp.c` answer during one call of
`carp_send_ad`: whether `MGETHDR` fails, what `arc4random_buf` delivers, the
result of `ip_output`, and the same for the IPv6 half together with the
outcome of its mbuf bounds test. -/
structure send_env where
  mgethdr_fails : Bool
  rnd : Nat
  ip_output_error : output_error
  mgethdr6_fails : Bool
  rnd6 : Nat
  m_data_beyond6 : Bool
  ip6_output_error : output_error
deriving DecidableEq, Repr

/-- The answers when every collaborator succeeds. -/
def send_env_ok : send_env :=
  { mgethdr_fails := false, rnd := 1, ip_output_error := output_error.ok,
    mgethdr6_fails := false, rnd6 := 1, m_data_beyond6 := false,
    ip6_output_error := output_error.ok }

/-- The global state the embedded code works on: the interfaces `if_get` can
return (`ifnetlist`), every carp coordinator (a coordinator is on the
`if_carp` list of the interface whose index its `sc_carpdevidx` holds), the
interface groups, `carpcounters`, `carp_opts[CARPCTL_PREEMPT]`,
`carp_send_all_recur`, and the answers of the outside collaborators to the
calls of `carp_send_ad` still to come (all succeed once the list is used
up). -/
structure carp_world where
  ifnetlist : List ifnet
  softcs : List carp_softc
  ifgroups : List ifg_group
  carpstat : carpstats
  carp_opts_preempt : Bool
  carp_send_all_recur : Int
  env : List send_env
deriving DecidableEq, Repr

/-- The macro `carpstat_inc(c)`: counter `c` of `carpcounters` goes up by one. -/
def carpstat_inc (w : carp_world) (c : carps_counter) : carp_world :=
  { w with carpstat :=
      match c with
      | carps_counter.carps_badvhid =>
        { w.carpstat with carps_badvhid := w.carpstat.carps_badvhid + 1 }
      | carps_counter.carps_badver =>
        { w.carpstat with carps_badver := w.carpstat.carps_badver + 1 }
      | carps_counter.carps_badauth =>
        { w.carpstat with carps_badauth := w.carpstat.carps_badauth + 1 }
      | carps_counter.carps_preempt =>
        { w.carpstat with carps_preempt := w.carpstat.carps_preempt + 1 }
      | carps_counter.carps_onomem =>
        { w.carpstat with carps_onomem := w.carpstat.carps_onomem + 1 }
      | carps_counter.carps_opackets =>
        { w.carpstat with carps_opackets := w.carpstat.carps_opackets + 1 }
      | carps_counter.carps_opackets6 =>
        { w.carpstat with carps_opackets6 := w.carpstat.carps_opackets6 + 1 } }

/-- The answers of the outside collaborators for the call of `carp_send_ad`
that starts now are used up. -/
def env_pop (w : carp_world) : carp_world := { w with env := w.env.tail }

/-- A pointer to a `struct ifnet`: the interface of the carp coordinator at
position `j`, or the interface at position `i` of `ifnetlist`. -/
inductive ifref where
  | carp (j : Nat)
  | phys (i : Nat)
deriving DecidableEq, Repr

/-- Modelled from the spec: `if_get` of `net/if.c` is not under src/; the
interface with the given index, if there is one. -/
def if_get (w : carp_world) (idx : Nat) : Option ifnet :=
  w.ifnetlist.find? (fun i => i.if_index = idx)

/-- Modelled from the spec: the `IN_MULTICAST` macro of `netinet/in.h` is not under
src/; the address (as `ntohl` gives it) lies in 224.0.0.0/4. -/
def IN_MULTICAST (a : Nat) : Bool := a / 268435456 = 14

/-- Apply `f` to the coordinator at position `j`. -/
def modify_sc (w : carp_world) (j : Nat) (f : carp_softc → carp_softc) : carp_world :=
  { w with softcs := w.softcs.modify f j }

/-- The entry at position `k` of the coordinator at position `j`. -/
def get_vhe (w : carp_world) (j k : Nat) : Option carp_vhost_entry :=
  match w.softcs[j]? with
  | none => none
  | some sc => sc.carp_vhosts[k]?

/-! ## Load mask and entry state -/

/-- The `SRPL_FOREACH_LOCKED` of `carp_update_lsmask`, with the mask and the
count so far. -/
def carp_update_lsmask_loop : List carp_vhost_entry → Nat → Int → Nat × Int
  | [], mask, count => (mask, count)
  | vhe :: rest, mask, count =>
    let mask := if vhe.state = carp_state.MASTER ∧ count < 32 ∧ count ≥ 0
      then mask ||| (1 <<< count.toNat) else mask
    if count = INT_MAX then (mask, count)
    else carp_update_lsmask_loop rest mask (count + 1)

/-- The function `carp_update_lsmask(sc)`. -/
def carp_update_lsmask (sc : carp_softc) : carp_softc :=
  if sc.sc_balancing = CARP_BAL_NONE then sc
  else
    let r := carp_update_lsmask_loop sc.carp_vhosts 0 0
    { sc with sc_lsmask := r.1, sc_lscount := r.2 }

/-- The `SRPL_FOREACH_LOCKED` of `carp_set_state` that derives the link state. -/
def carp_set_state_link : List carp_vhost_entry → link_state → link_state
  | [], ls => ls
  | vhe0 :: rest, ls =>
    if vhe0.state = carp_state.MASTER then link_state.LINK_STATE_UP
    else if vhe0.state = carp_state.BACKUP then
      carp_set_state_link rest link_state.LINK_STATE_DOWN
    else carp_set_state_link rest ls

/-- The function `carp_set_state(vhe, state)` for the entry at position `k`.  The
`KASSERT(vhe->state != state)`, the log line and `if_link_state_change` leave
the coordinator as it is. -/
def carp_set_state (sc : carp_softc) (k : Nat) (state : carp_state) : carp_softc :=
  let sc := modify_vhe sc k (fun vhe => { vhe with state := state })
  let sc := carp_update_lsmask sc
  { sc with if_link_state :=
      carp_set_state_link sc.carp_vhosts link_state.LINK_STATE_INVALID }

/-- The function `carp_set_state_all(sc, state)`. -/
def carp_set_state_all (sc : carp_softc) (state : carp_state) : carp_softc :=
  (List.range sc.carp_vhosts.length).foldl
    (fun sc k =>
      match sc.carp_vhosts[k]? with
      | none => sc
      | some vhe => if vhe.state = state then sc else carp_set_state sc k state)
    sc

/-- The delay `carp_setrun` computes in the BACKUP case from `sc_advbase` and
the entry's `advskew`, the two clamps at zero included. -/
def carp_setrun_backup_tv (advbase advskew : Int) : timeval :=
  let sec := 3 * advbase
  let usec :=
    if advbase = 0 ∧ advskew = 0 then Int.tdiv (3 * 1000000) 256
    else if advbase = 0 then Int.tdiv (3 * advskew * 1000000) 256
    else Int.tdiv (advskew * 1000000) 256
  let usec := if usec < 0 then 0 else usec
  let sec := if sec < 0 then 0 else sec
  { tv_sec := sec, tv_usec := usec }

/-- The delay `carp_setrun` computes in the MASTER case from `sc_advbase` and
the entry's `advskew`, the two clamps at zero included. -/
def carp_setrun_master_tv (advbase advskew : Int) : timeval :=
  let sec := advbase
  let usec :=
    if advbase = 0 ∧ advskew = 0 then Int.tdiv (1 * 1000000) 256
    else Int.tdiv (advskew * 1000000) 256
  let usec := if usec < 0 then 0 else usec
  let sec := if sec < 0 then 0 else sec
  { tv_sec := sec, tv_usec := usec }

/-- The timer calls of the BACKUP case of `carp_setrun` on the entry:
`timeout_del(&vhe->ad_tmo)`, then the `switch (af)` that arms `md_tmo` and
`md6_tmo` with the delay `tv`. -/
def carp_setrun_backup_arm (sc_naddrs sc_naddrs6 : Int) (tv : timeval) (af : sa_family)
    (vhe : carp_vhost_entry) : carp_vhost_entry :=
  let vhe := { vhe with ad_tmo := timeout_del vhe.ad_tmo }
  match af with
  | sa_family.AF_INET => { vhe with md_tmo := timeout_add_tv vhe.md_tmo tv }
  | sa_family.AF_INET6 => { vhe with md6_tmo := timeout_add_tv vhe.md6_tmo tv }
  | sa_family.AF_UNSPEC =>
    let vhe := if sc_naddrs ≠ 0
      then { vhe with md_tmo := timeout_add_tv vhe.md_tmo tv } else vhe
    if sc_naddrs6 ≠ 0
      then { vhe with md6_tmo := timeout_add_tv vhe.md6_tmo tv } else vhe

/-- The test of `carp_setrun` that decides whether the coordinator runs:
`sc_if.if_flags & IFF_UP && vhe->vhid > 0 && (sc_naddrs || sc_naddrs6) &&
!sc_suppress`. -/
def carp_setrun_ready (sc : carp_softc) (vhe : carp_vhost_entry) : Bool :=
  sc.if_flags_up && decide (vhe.vhid > 0) &&
    (decide (sc.sc_naddrs ≠ 0) || decide (sc.sc_naddrs6 ≠ 0)) && !sc.sc_suppress

/-- The body of `carp_setrun(vhe, af)` for the entry at position `k`; `ifp` is
what `if_get(sc->sc_carpdevidx)` returned and `self` stands for the call
`carp_setrun(vhe, 0)` the INIT case makes. -/
def carp_setrun_body (self : carp_softc → carp_softc) (ifp : Option ifnet)
    (sc : carp_softc) (k : Nat) (af : sa_family) : carp_softc :=
  match sc.carp_vhosts[k]? with
  | none => sc
  | some vhe =>
    match ifp with
    | none => carp_set_state_all { sc with if_flags_running := false } carp_state.INIT
    | some ifp =>
      let sc := { sc with
        sc_realmac := decide (memcmp ifp.ac_enaddr sc.ac_enaddr ETHER_ADDR_LEN = 0) }
      if carp_setrun_ready sc vhe then
        let sc := { sc with if_flags_running := true }
        match vhe.state with
        | carp_state.INIT => self (carp_set_state sc k carp_state.BACKUP)
        | carp_state.BACKUP =>
          let tv := carp_setrun_backup_tv sc.sc_advbase vhe.advskew
          let sc := if vhe.vhe_leader then { sc with sc_delayed_arp := -1 } else sc
          modify_vhe sc k (carp_setrun_backup_arm sc.sc_naddrs sc.sc_naddrs6 tv af)
        | carp_state.MASTER =>
          let tv := carp_setrun_master_tv sc.sc_advbase vhe.advskew
          modify_vhe sc k (fun vhe => { vhe with ad_tmo := timeout_add_tv vhe.ad_tmo tv })
      else { sc with if_flags_running := false }

/-- The function `carp_setrun(vhe, af)` on the coordinator that owns the entry.
The call it makes to itself in the INIT case finds the entry in BACKUP, so
one level of nesting is all that can happen. -/
def carp_setrun_sc (ifp : Option ifnet) (sc : carp_softc) (k : Nat) (af : sa_family) :
    carp_softc :=
  carp_setrun_body
    (fun sc1 => carp_setrun_body (fun sc2 => sc2) ifp sc1 k sa_family.AF_UNSPEC)
    ifp sc k af

/-- The function `carp_setrun(vhe, af)` for the entry at position `k` of the
coordinator at position `j`. -/
def carp_setrun (w : carp_world) (j k : Nat) (af : sa_family) : carp_world :=
  modify_sc w j (fun sc => carp_setrun_sc (if_get w sc.sc_carpdevidx) sc k af)

/-! ## Demotion counters -/

/-- The `TAILQ_FOREACH` of `carp_group_demote_count` over the groups of the
interface, with the count so far. -/
def carp_group_demote_count_loop (groups : List ifg_group) : List Nat → Int → Int
  | [], count => count
  | g :: rest, count =>
    match groups[g]? with
    | none => carp_group_demote_count_loop groups rest count
    | some grp =>
      if count + grp.ifg_carp_demoted > INT_MAX ∨ count + grp.ifg_carp_demoted < INT_MIN
      then 255
      else carp_group_demote_count_loop groups rest (count + grp.ifg_carp_demoted)

/-- The function `carp_group_demote_count(sc)`. -/
def carp_group_demote_count (w : carp_world) (sc : carp_softc) : Int :=
  let count := carp_group_demote_count_loop w.ifgroups sc.if_groups 0
  let count :=
    if count = 0 ∧ sc.sc_demote_cnt ≠ 0 then
      if sc.sc_demote_cnt > 255 then 255 else sc.sc_demote_cnt
    else count
  if count > 255 then 255 else count

/-- The saturating update `carp_group_demote_adj` applies to a counter `*dm`. -/
def carp_demote_clamp (dm adj : Int) : Int :=
  if adj > 0 ∧ dm > INT_MAX - adj then INT_MAX
  else if adj < 0 ∧ dm < INT_MIN - adj then 0
  else if dm + adj ≥ 0 then dm + adj
  else 0

/-- The `TAILQ_FOREACH` of `carp_group_demote_adj` over the groups of the
interface: the group table and `need_ad` afterwards. -/
def carp_group_demote_adj_loop (adj : Int) :
    List Nat → List ifg_group → Bool → List ifg_group × Bool
  | [], groups, need_ad => (groups, need_ad)
  | g :: rest, groups, need_ad =>
    match groups[g]? with
    | none => carp_group_demote_adj_loop adj rest groups need_ad
    | some grp =>
      if grp.ifg_all then carp_group_demote_adj_loop adj rest groups need_ad
      else
        let dm := carp_demote_clamp grp.ifg_carp_demoted adj
        carp_group_demote_adj_loop adj rest
          (groups.set g { grp with ifg_carp_demoted := dm })
          (if adj > 0 ∧ dm = 1 then true else need_ad)

/-- The body of `carp_group_demote_adj(ifp, adj, reason)`; `send_ad_all` stands
for `carp_send_ad_all`. -/
def carp_group_demote_adj_body (send_ad_all : carp_world → carp_world)
    (w : carp_world) (ifp : ifref) (adj : Int) : carp_world :=
  -- if (ifp->if_type == IFT_CARP)
  let w := match ifp with
    | ifref.carp j =>
      modify_sc w j (fun sc => { sc with sc_demote_cnt := carp_demote_clamp sc.sc_demote_cnt adj })
    | ifref.phys _ => w
  let if_groups := match ifp with
    | ifref.carp j => (w.softcs[j]?.map (fun sc => sc.if_groups)).getD []
    | ifref.phys i => (w.ifnetlist[i]?.map (fun p => p.if_groups)).getD []
  let r := carp_group_demote_adj_loop adj if_groups w.ifgroups false
  let w := { w with ifgroups := r.1 }
  if r.2 then send_ad_all w else w

/-! ## Sending advertisements -/

/-- The bookkeeping `carp_send_ad` does after `ip_output` / `ip6_output`
returned, for the coordinator at position `j`: `failed` says whether the error
branch is taken and `enobufs` whether the error was `ENOBUFS`; `demote_adj`
stands for `carp_group_demote_adj(&sc->sc_if, adj, ...)`. -/
def carp_send_ad_account (demote_adj : carp_world → Int → carp_world)
    (w : carp_world) (j : Nat) (failed enobufs : Bool) : carp_world :=
  match w.softcs[j]? with
  | none => w
  | some sc =>
    if failed then
      let w := if enobufs
        then carpstat_inc w carps_counter.carps_onomem
        else w
      let errors := if sc.sc_sendad_errors < INT_MAX
        then sc.sc_sendad_errors + 1 else sc.sc_sendad_errors
      let w := modify_sc w j (fun sc =>
        { sc with if_oerrors := sc.if_oerrors + 1, sc_sendad_errors := errors })
      let w := if errors = 3 * sc.sc_vhe_count then demote_adj w 1 else w
      modify_sc w j (fun sc => { sc with sc_sendad_success := 0 })
    else
      if sc.sc_sendad_errors ≥ 3 * sc.sc_vhe_count then
        let success := sc.sc_sendad_success + 1
        let w := modify_sc w j (fun sc => { sc with sc_sendad_success := success })
        if success ≥ 3 * sc.sc_vhe_count then
          let w := demote_adj w (-1)
          modify_sc w j (fun sc => { sc with sc_sendad_errors := 0 })
        else w
      else modify_sc w j (fun sc => { sc with sc_sendad_errors := 0 })

/-- The end of `carp_send_ad` from the label `retry_later` on. -/
def carp_send_ad_retry_later (w : carp_world) (j k : Nat) (advbase advskew : Int)
    (tv : timeval) : carp_world :=
  modify_sc w j (fun sc =>
    let sc := { sc with cur_vhe := none }
    if advbase ≠ 255 ∨ advskew ≠ 255 then
      modify_vhe sc k (fun vhe => { vhe with ad_tmo := timeout_add_tv vhe.ad_tmo tv })
    else sc)

/-- The IPv6 half of `carp_send_ad` (`if (sc->sc_naddrs6)`) up to the label
`retry_later`.  The two tests of the source on `sizeof` sums and on the
address of a structure member never hold. -/
def carp_send_ad_inet6 (demote_adj : carp_world → Int → carp_world)
    (w : carp_world) (j k : Nat) (e : send_env) : carp_world :=
  match w.softcs[j]? with
  | none => w
  | some sc =>
    if sc.sc_naddrs6 ≠ 0 then
      if e.mgethdr6_fails then
        let w := modify_sc w j (fun sc => { sc with if_oerrors := sc.if_oerrors + 1 })
        carpstat_inc w carps_counter.carps_onomem
      else
        -- carp_prepare_ad(m, vhe, ch_ptr); the header goes out on the wire
        let w := modify_sc w j (fun sc => modify_vhe sc k (fun vhe =>
          carp_prepare_ad_cookie vhe e.rnd6))
        if e.m_data_beyond6 then
          let w := modify_sc w j (fun sc => { sc with if_oerrors := sc.if_oerrors + 1 })
          carpstat_inc w carps_counter.carps_onomem
        else
          let w := carpstat_inc w carps_counter.carps_opackets6
          carp_send_ad_account demote_adj w j
            (decide (e.ip6_output_error ≠ output_error.ok))
            (decide (e.ip6_output_error = output_error.ENOBUFS))
    else w

/-- The body of `carp_send_ad(vhe)` for the entry at position `k` of the
coordinator at position `j`; `send_ad_all` stands for `carp_send_ad_all`, which
`carp_group_demote_adj` may call.  The wire image of the advertisement is
handed to `ip_output` / `ip6_output`, which are outside `ip_carp.c`; their
answers are the head of `env`.  `carp_send_arp` leaves the state as it is. -/
def carp_send_ad_body (send_ad_all : carp_world → carp_world)
    (w : carp_world) (j k : Nat) : carp_world :=
  match w.softcs[j]? with
  | none => w
  | some sc =>
    match sc.carp_vhosts[k]? with
    | none => w
    | some vhe =>
      match if_get w sc.sc_carpdevidx with
      | none => modify_sc w j (fun sc => { sc with if_oerrors := sc.if_oerrors + 1 })
      | some _ =>
        let e := w.env.head?.getD send_env_ok
        let w := env_pop w
        -- bow out if we've gone to backup (the carp interface is going down)
        let advbase : Int := if sc.sc_bow_out then 255 else sc.sc_advbase
        let advskew : Int := if sc.sc_bow_out then 255 else vhe.advskew
        let tv : timeval :=
          { tv_sec := advbase
            tv_usec := if advbase = 0 ∧ advskew = 0 then Int.tdiv (1 * 1000000) 256
                       else Int.tdiv (advskew * 1000000) 256 }
        let demote_adj := fun (w : carp_world) (adj : Int) =>
          carp_group_demote_adj_body send_ad_all w (ifref.carp j) adj
        let w := modify_sc w j (fun sc => { sc with cur_vhe := some k })
        if sc.sc_naddrs ≠ 0 ∧ e.mgethdr_fails = true then
          let w := modify_sc w j (fun sc => { sc with if_oerrors := sc.if_oerrors + 1 })
          let w := carpstat_inc w carps_counter.carps_onomem
          carp_send_ad_retry_later w j k advbase advskew tv
        else
          let w :=
            if sc.sc_naddrs ≠ 0 then
              -- carp_prepare_ad(m, vhe, ch_ptr); the header goes out on the wire
              let w := modify_sc w j (fun sc => modify_vhe sc k (fun vhe =>
                carp_prepare_ad_cookie vhe e.rnd))
              let w := carpstat_inc w carps_counter.carps_opackets
              let w := carp_send_ad_account demote_adj w j
                (decide (e.ip_output_error ≠ output_error.ok ∧
                  ¬ (IN_MULTICAST sc.sc_peer = false ∧
                     e.ip_output_error = output_error.EHOSTDOWN)))
                (decide (e.ip_output_error = output_error.ENOBUFS))
              if vhe.vhe_leader then
                modify_sc w j (fun sc =>
                  let sc := if sc.sc_delayed_arp > 0
                    then { sc with sc_delayed_arp := sc.sc_delayed_arp - 1 } else sc
                  if sc.sc_delayed_arp = 0 then { sc with sc_delayed_arp := -1 } else sc)
              else w
            else w
          let w := carp_send_ad_inet6 demote_adj w j k e
          carp_send_ad_retry_later w j k advbase advskew tv

/-- The function `carp_vhe_send_ad_all(sc)` for the coordinator at position `j`;
`send_ad` stands for `carp_send_ad`. -/
def carp_vhe_send_ad_all_body (send_ad : carp_world → Nat → Nat → carp_world)
    (w : carp_world) (j : Nat) : carp_world :=
  match w.softcs[j]? with
  | none => w
  | some sc =>
    (List.range sc.carp_vhosts.length).foldl
      (fun w k =>
        match get_vhe w j k with
        | none => w
        | some vhe => if vhe.state = carp_state.MASTER then send_ad w j k else w)
      w

/-- The body of `carp_send_ad_all()`; `send_ad` stands for `carp_send_ad`.  The
coordinators on `ifp0->if_carp` are those whose `sc_carpdevidx` is the index of
`ifp0`. -/
def carp_send_ad_all_body (send_ad : carp_world → Nat → Nat → carp_world)
    (w : carp_world) : carp_world :=
  if w.carp_send_all_recur > 0 ∨ w.carp_send_all_recur = INT_MAX then w
  else
    let w := { w with carp_send_all_recur := w.carp_send_all_recur + 1 }
    let w := w.ifnetlist.foldl
      (fun w ifp0 =>
        if ifp0.if_type ≠ if_type.IFT_ETHER then w
        else
          (List.range w.softcs.length).foldl
            (fun w j =>
              match w.softcs[j]? with
              | none => w
              | some vh =>
                if vh.sc_carpdevidx ≠ 0 ∧ vh.sc_carpdevidx = ifp0.if_index ∧
                    vh.if_flags_up = true ∧ vh.if_flags_running = true
                then carp_vhe_send_ad_all_body send_ad w j
                else w)
            w)
      w
    { w with carp_send_all_recur := w.carp_send_all_recur - 1 }

/-- The function `carp_send_ad(vhe)`, nested `depth` calls deep.  A call of
`carp_send_ad_all` made while `carp_send_ad_all` is running returns at once
(`carp_send_all_recur > 0`), so depth 2 is all that can happen. -/
def carp_send_ad_depth : Nat → carp_world → Nat → Nat → carp_world
  | 0 => fun w _ _ => w
  | depth + 1 => carp_send_ad_body (carp_send_ad_all_body (carp_send_ad_depth depth))

/-- The function `carp_send_ad(vhe)` for the entry at position `k` of the
coordinator at position `j`. -/
def carp_send_ad (w : carp_world) (j k : Nat) : carp_world :=
  carp_send_ad_depth 2 w j k

/-- The function `carp_send_ad_all()`. -/
def carp_send_ad_all (w : carp_world) : carp_world :=
  carp_send_ad_all_body (carp_send_ad_depth 1) w

/-- The function `carp_group_demote_adj(ifp, adj, reason)`. -/
def carp_group_demote_adj (w : carp_world) (ifp : ifref) (adj : Int) : carp_world :=
  carp_group_demote_adj_body carp_send_ad_all w ifp adj

/-! ## Master-down and the receive path -/

/-- The function `carp_master_down(vhe)` for the entry at position `k` of the
coordinator at position `j`.  `carp_send_arp`, `carp_send_na` and `printf` leave
the state as it is. -/
def carp_master_down (w : carp_world) (j k : Nat) : carp_world :=
  match get_vhe w j k with
  | none => w
  | some vhe =>
    -- if (vhe->state < INIT || vhe->state > BACKUP) return;
    if vhe.state = carp_state.MASTER then w
    else
      match vhe.state with
      | carp_state.INIT => w
      | carp_state.MASTER => w
      | carp_state.BACKUP =>
        let w := modify_sc w j (fun sc => carp_set_state sc k carp_state.MASTER)
        let w := carp_send_ad w j k
        let w := modify_sc w j (fun sc =>
          match sc.carp_vhosts[k]? with
          | none => sc
          | some vhe =>
            if sc.sc_balancing = CARP_BAL_NONE ∧ vhe.vhe_leader = true
            then { sc with sc_delayed_arp := 2 } else sc)
        let w := carp_setrun w j k sa_family.AF_UNSPEC
        carpstat_inc w carps_counter.carps_preempt

/-- The receiving interface `ifp` of `carp_proto_input_c`: the fields the
function reads. -/
structure rcvif where
  if_type : if_type
  if_index : Nat
  if_carpdevidx : Nat
deriving DecidableEq, Repr

/-- The inner `SRPL_FOREACH_LOCKED` of the lookup of `carp_proto_input_c`: the
position of the first entry whose vhid is `ch->carp_vhid`. -/
def carp_lookup_vhe (vhosts : List carp_vhost_entry) (vhid : Nat) : Option Nat :=
  let k := vhosts.findIdx (fun vhe => decide (vhe.vhid = (vhid : Int)))
  if k < vhosts.length then some k else none

/-- The outer `SRPL_FOREACH_LOCKED` of the lookup of `carp_proto_input_c` over
the coordinators on the list `cif` of the interface with index `cifidx`,
from position `j` on. -/
def carp_lookup_sc (cifidx : Nat) (vhid : Nat) (ismulti : Bool) (af : sa_family) :
    List carp_softc → Nat → Option (Nat × Nat)
  | [], _ => none
  | sc :: rest, j =>
    if sc.sc_carpdevidx = 0 ∨ sc.sc_carpdevidx ≠ cifidx then
      carp_lookup_sc cifidx vhid ismulti af rest (j + 1)
    else if af = sa_family.AF_INET ∧ ismulti ≠ IN_MULTICAST sc.sc_peer then
      carp_lookup_sc cifidx vhid ismulti af rest (j + 1)
    else
      match carp_lookup_vhe sc.carp_vhosts vhid with
      | some k => some (j, k)
      | none => carp_lookup_sc cifidx vhid ismulti af rest (j + 1)

/-- The index of the interface whose `if_carp` list `carp_proto_input_c`
searches (`cif`): that of `ifp0` when `ifp` is a carp interface, that of `ifp`
otherwise. -/
def carp_input_cif (w : carp_world) (ifp : rcvif) : Nat :=
  if ifp.if_type = if_type.IFT_CARP
  then ((if_get w ifp.if_carpdevidx).map (fun i => i.if_index)).getD 0
  else ifp.if_index

/-- The election test of the MASTER case of `carp_proto_input_c`. -/
def carp_master_yields (sc_tv ch_tv : timeval) (carp_demote demote_count : Int) : Bool :=
  ((timercmp_gt sc_tv ch_tv || timercmp_eq sc_tv ch_tv) && decide (carp_demote ≤ demote_count))
    || decide (carp_demote < demote_count)

section Input

variable (SHA1Final : SHA1_CTX → List Nat)

/-- The function `carp_proto_input_c(ifp, m, ch, ismulti, af)`.  `getmicrotime`,
`if_put`, `m_freem` and the log lines leave the state as it is. -/
def carp_proto_input_c (w : carp_world) (ifp : rcvif) (ch : carp_header) (ismulti : Bool)
    (af : sa_family) : carp_world :=
  let ifp0 := if_get w ifp.if_carpdevidx
  if ifp.if_type = if_type.IFT_CARP ∧ ifp0 = none then w
  else
    let badvhid : carp_world :=
      carpstat_inc w carps_counter.carps_badvhid
    match carp_lookup_sc (carp_input_cif w ifp) ch.carp_vhid ismulti af w.softcs 0 with
    | none => badvhid
    | some (j, k) =>
      match w.softcs[j]?, get_vhe w j k with
      | some sc, some vhe =>
        if ¬ (sc.if_flags_up = true ∧ sc.if_flags_running = true) then badvhid
        -- verify the CARP version.
        else if ch.carp_version ≠ CARP_VERSION then
          let w := carpstat_inc w carps_counter.carps_badver
          modify_sc w j (fun sc => { sc with if_ierrors := sc.if_ierrors + 1 })
        -- verify the hash
        else if carp_hmac_verify SHA1Final vhe ch.carp_counter ch.carp_md ≠ 0 then
          let w := carpstat_inc w carps_counter.carps_badauth
          modify_sc w j (fun sc => { sc with if_ierrors := sc.if_ierrors + 1 })
        else if vhe.vhe_replay_cookie = ch.carp_counter then
          match if_get w sc.sc_carpdevidx with
          | none => w
          | some ifp2 =>
            -- Do not log duplicates from non simplex interfaces
            if ifp2.if_flags_simplex then
              let w := carpstat_inc w carps_counter.carps_badauth
              modify_sc w j (fun sc => { sc with if_ierrors := sc.if_ierrors + 1 })
            else w
        else
          let sc_tv : timeval :=
            { tv_sec := sc.sc_advbase, tv_usec := Int.tdiv (vhe.advskew * 1000000) 256 }
          let ch_tv : timeval :=
            { tv_sec := ch.carp_advbase
              tv_usec := Int.tdiv ((ch.carp_advskew : Int) * 1000000) 256 }
          match vhe.state with
          | carp_state.INIT => w
          | carp_state.MASTER =>
            if carp_master_yields sc_tv ch_tv ch.carp_demote (carp_group_demote_count w sc)
            then
              let w := modify_sc w j (fun sc =>
                modify_vhe sc k (fun vhe => { vhe with ad_tmo := timeout_del vhe.ad_tmo }))
              let w := modify_sc w j (fun sc => carp_set_state sc k carp_state.BACKUP)
              carp_setrun w j k sa_family.AF_UNSPEC
            else w
          | carp_state.BACKUP =>
            -- If we're pre-empting masters who advertise slower than us,
            -- and do not have a better demote count, treat them as down.
            if w.carp_opts_preempt = true ∧ timercmp_lt sc_tv ch_tv = true ∧
                (ch.carp_demote : Int) ≥ carp_group_demote_count w sc then
              carp_master_down w j k
            -- Take over masters advertising with a higher demote count,
            -- regardless of CARPCTL_PREEMPT.
            else if (ch.carp_demote : Int) > carp_group_demote_count w sc then
              carp_master_down w j k
            else
              -- If the master is going to advertise at such a low frequency
              -- that he's guaranteed to time out, treat him as timed out now.
              let sc_tv : timeval := { sc_tv with tv_sec := sc.sc_advbase * 3 }
              if sc.sc_advbase ≠ 0 ∧ timercmp_lt sc_tv ch_tv = true then
                carp_master_down w j k
              -- Otherwise, we reset the counter and wait for the next
              -- advertisement.
              else carp_setrun w j k af
      | _, _ => badvhid

end Input

/-! ## The vocabulary of the election properties -/

/-- A timing as the election compares it: the pair (base seconds,
skew * 1000000 / 256 microseconds). -/
def carp_timing (advbase advskew : Int) : timeval :=
  { tv_sec := advbase, tv_usec := Int.tdiv (advskew * 1000000) 256 }

/-- The advertisement `ch` received on `ifp` is addressed to the entry at
position `k` (value `vhe`) of the coordinator at position `j` (value `sc`), is
authenticated and is not a replay: the lookup of `carp_proto_input_c` finds
that entry, its coordinator is up and running, the version is right,
`carp_hmac_verify` accepts the digest, and the counter differs from the
entry's replay cookie. -/
def carp_input_accepted (SHA1Final : SHA1_CTX → List Nat) (w : carp_world) (ifp : rcvif)
    (ch : carp_header) (ismulti : Bool) (af : sa_family) (j k : Nat) (sc : carp_softc)
    (vhe : carp_vhost_entry) : Prop :=
  ¬ (ifp.if_type = if_type.IFT_CARP ∧ if_get w ifp.if_carpdevidx = none) ∧
  carp_lookup_sc (carp_input_cif w ifp) ch.carp_vhid ismulti af w.softcs 0 = some (j, k) ∧
  w.softcs[j]? = some sc ∧ sc.carp_vhosts[k]? = some vhe ∧
  sc.if_flags_up = true ∧ sc.if_flags_running = true ∧
  ch.carp_version = CARP_VERSION ∧
  carp_hmac_verify SHA1Final vhe ch.carp_counter ch.carp_md = 0 ∧
  vhe.vhe_replay_cookie ≠ ch.carp_counter

/-- The advertisement `ch` received on `ifp` is addressed to a known vhid on an
up-and-running coordinator: the lookup of `carp_proto_input_c` finds the entry
at position `k` (value `vhe`) of the coordinator at position `j` (value `sc`),
and that coordinator is up and running. -/
def carp_input_found (w : carp_world) (ifp : rcvif) (ch : carp_header) (ismulti : Bool)
    (af : sa_family) (j k : Nat) (sc : carp_softc) (vhe : carp_vhost_entry) : Prop :=
  ¬ (ifp.if_type = if_type.IFT_CARP ∧ if_get w ifp.if_carpdevidx = none) ∧
  carp_lookup_sc (carp_input_cif w ifp) ch.carp_vhid ismulti af w.softcs 0 = some (j, k) ∧
  w.softcs[j]? = some sc ∧ sc.carp_vhosts[k]? = some vhe ∧
  sc.if_flags_up = true ∧ sc.if_flags_running = true

instance carp_input_found_decidable (w : carp_world) (ifp : rcvif) (ch : carp_header)
    (ismulti : Bool) (af : sa_family) (j k : Nat) (sc : carp_softc) (vhe : carp_vhost_entry) :
    Decidable (carp_input_found w ifp ch ismulti af j k sc vhe) := by
  unfold carp_input_found
  infer_instance

instance carp_input_accepted_decidable (SHA1Final : SHA1_CTX → List Nat) (w : carp_world)
    (ifp : rcvif) (ch : carp_header) (ismulti : Bool) (af : sa_family) (j k : Nat)
    (sc : carp_softc) (vhe : carp_vhost_entry) :
    Decidable (carp_input_accepted SHA1Final w ifp ch ismulti af j k sc vhe) := by
  unfold carp_input_accepted
  infer_instance

/-- The condition under which the BACKUP case of the election treats the peer
as down, in the terms of the election policy: `p` is the pre-emption flag,
`b`, `s`, `d` the local base, skew and group demotion count, and `pb`, `ps`,
`pd` the base, skew and demotion count the peer advertises. -/
def carp_backup_takes_over (p : Bool) (b s d pb ps pd : Int) : Prop :=
  (p = true ∧ timercmp_lt (carp_timing b s) (carp_timing pb ps) = true ∧ pd ≥ d) ∨
  pd > d ∨
  (b ≠ 0 ∧ timercmp_lt { tv_sec := 3 * b, tv_usec := (carp_timing b s).tv_usec }
      (carp_timing pb ps) = true)

instance carp_backup_takes_over_decidable (p : Bool) (b s d pb ps pd : Int) :
    Decidable (carp_backup_takes_over p b s d pb ps pd) := by
  unfold carp_backup_takes_over
  infer_instance

/-- The condition under which the MASTER case of the election yields, in the
terms of the election policy. -/
def carp_master_gives_way (b s d pb ps pd : Int) : Prop :=
  ((timercmp_gt (carp_timing b s) (carp_timing pb ps) = true ∨
    timercmp_eq (carp_timing b s) (carp_timing pb ps) = true) ∧ pd ≤ d) ∨ pd < d

instance carp_master_gives_way_decidable (b s d pb ps pd : Int) :
    Decidable (carp_master_gives_way b s d pb ps pd) := by
  unfold carp_master_gives_way
  infer_instance

/-! ## What `carp_send_ad` leaves alone -/

/-- An entry with the fields `carp_send_ad` may write (`vhe_replay_cookie`, `ad_tmo`)
blanked. -/
def vhe_frame (v : carp_vhost_entry) : carp_vhost_entry :=
  { v with vhe_replay_cookie := 0, ad_tmo := none }

/-- A coordinator with the fields `carp_send_ad` may write blanked. -/
def sc_frame (sc : carp_softc) : carp_softc :=
  { sc with if_oerrors := 0, cur_vhe := none, sc_sendad_errors := 0, sc_sendad_success := 0,
            sc_demote_cnt := 0, sc_delayed_arp := 0,
            carp_vhosts := sc.carp_vhosts.map vhe_frame }

/-- The global state with everything `carp_send_ad` may write blanked: what is
left is what a call of `carp_send_ad` is guaranteed to leave alone. -/
def world_frame (w : carp_world) : carp_world :=
  { w with softcs := w.softcs.map sc_frame, ifgroups := [],
           carpstat := { w.carpstat with carps_onomem := 0, carps_opackets := 0,
                                         carps_opackets6 := 0 },
           carp_send_all_recur := 0, env := [] }

/-- The entry `carp_setrun(vhe, af)` leaves behind when the entry is not in INIT
and the carrier interface is present. -/
def carp_setrun_entry (sc : carp_softc) (af : sa_family) (vhe : carp_vhost_entry) :
    carp_vhost_entry :=
  if carp_setrun_ready sc vhe = true then
    match vhe.state with
    | carp_state.INIT => vhe
    | carp_state.BACKUP =>
      carp_setrun_backup_arm sc.sc_naddrs sc.sc_naddrs6
        (carp_setrun_backup_tv sc.sc_advbase vhe.advskew) af vhe
    | carp_state.MASTER =>
      { vhe with ad_tmo := timeout_add_tv vhe.ad_tmo
                   (carp_setrun_master_tv sc.sc_advbase vhe.advskew) }
  else vhe


/-! ## A small configuration for the concrete instances -/

/-- A stand-in for `SHA1Final` in the concrete instances. -/
def ex_SHA1Final (c : SHA1_CTX) : List Nat := [c.length % 256]

/-- An entry in BACKUP with vhid 5 and skew 0. -/
def ex_vhe : carp_vhost_entry :=
  { vhe_leader := true, vhid := 5, advskew := 0, state := carp_state.BACKUP,
    ad_tmo := none, md_tmo := none, md6_tmo := none, vhe_replay_cookie := 7,
    vhe_pad := [], vhe_sha1 := ([], []), vhe_enaddr := [] }

/-- A running coordinator on interface 1 with base interval 1 that owns `ex_vhe`. -/
def ex_sc : carp_softc :=
  { if_flags_up := true, if_flags_running := true,
    if_link_state := link_state.LINK_STATE_DOWN, if_ierrors := 0, if_oerrors := 0,
    if_groups := [0], if_addrlist := [ifaddr.inet 10], ac_enaddr := [],
    sc_carpdevidx := 1, sc_suppress := false, sc_bow_out := false, sc_demote_cnt := 0,
    sc_sendad_errors := 0, sc_sendad_success := 0, sc_curlladdr := [],
    carp_vhosts := [ex_vhe], sc_vhe_count := 1, sc_vhids := 5 :: List.replicate 31 0,
    sc_advskews := List.replicate 32 0, sc_balancing := 0, sc_naddrs := 1, sc_naddrs6 := 0, sc_advbase := 1,
    sc_key := [], sc_hashkey := [], sc_lsmask := 0, sc_lscount := 0, sc_delayed_arp := -1,
    sc_realmac := false, sc_peer := 3758096402, cur_vhe := none }

/-- One Ethernet interface with index 1, the coordinator `ex_sc` on it, one
interface group, pre-emption off. -/
def ex_world : carp_world :=
  { ifnetlist := [{ if_xname := [101, 109, 48, 0], if_index := 1,
                    if_type := if_type.IFT_ETHER, if_flags_simplex := true,
                    ac_enaddr := [], if_groups := [] }],
    softcs := [ex_sc], ifgroups := [{ ifg_all := false, ifg_carp_demoted := 0 }],
    carpstat := { carps_badvhid := 0, carps_badver := 0, carps_badauth := 0,
                  carps_preempt := 0, carps_onomem := 0, carps_opackets := 0,
                  carps_opackets6 := 0 },
    carp_opts_preempt := false, carp_send_all_recur := 0, env := [] }

/-- The interface with index 1 as the receiving interface. -/
def ex_ifp : rcvif := { if_type := if_type.IFT_ETHER, if_index := 1, if_carpdevidx := 0 }

/-- An advertisement for vhid 5 with base interval 2, skew 0, demotion 0 and
counter 9, whose digest `carp_hmac_verify` accepts for `ex_vhe`. -/
def ex_ch : carp_header :=
  { carp_version := 2, carp_vhid := 5, carp_demote := 0, carp_advbase := 2, carp_advskew := 0,
    carp_counter := 9, carp_md := [1] }

/-- The advertisement `ex_ch` with base interval 0: faster than `ex_sc`. -/
def ex_ch_fast : carp_header := { ex_ch with carp_advbase := 0 }

/-- The advertisement `ex_ch` with base interval 1: the timing of `ex_sc`. -/
def ex_ch_tie : carp_header := { ex_ch with carp_advbase := 1 }

/-- The configuration `ex_world` with pre-emption on. -/
def ex_world_preempt : carp_world := { ex_world with carp_opts_preempt := true }

/-- The entry `ex_vhe` in MASTER with its advertisement timer pending. -/
def ex_vhe_master : carp_vhost_entry :=
  { ex_vhe with state := carp_state.MASTER, ad_tmo := some { tv_sec := 1, tv_usec := 0 } }

/-- The coordinator `ex_sc` owning `ex_vhe_master`. -/
def ex_sc_master : carp_softc := { ex_sc with carp_vhosts := [ex_vhe_master] }

/-- The configuration `ex_world` with the entry in MASTER. -/
def ex_world_master : carp_world := { ex_world with softcs := [ex_sc_master] }

/-- The one interface of `ex_world`. -/
def ex_ifnet : ifnet :=
  { if_xname := [101, 109, 48, 0], if_index := 1, if_type := if_type.IFT_ETHER,
    if_flags_simplex := true, ac_enaddr := [], if_groups := [] }

/-- The advertisement `ex_ch` with a digest `carp_hmac_verify` rejects. -/
def ex_ch_bad : carp_header := { ex_ch with carp_md := [0] }

/-- The advertisement `ex_ch` carrying the replay cookie of `ex_vhe` as its
counter (the digest is the one `carp_hmac_verify` accepts for it). -/
def ex_ch_own : carp_header := { ex_ch with carp_counter := 7 }

/-- The coordinator `ex_sc_master` owning no IPv4 address and one IPv6 address. -/
def ex_sc6 : carp_softc :=
  { ex_sc_master with sc_naddrs := 0, sc_naddrs6 := 1, if_addrlist := [] }

/-- The configuration `ex_world` with the coordinator `ex_sc6`. -/
def ex_world6 : carp_world := { ex_world with softcs := [ex_sc6] }

/-! ## The selection loop in general

The two address loops of `carp_hmac_prepare_ctx` are instances of one selection
loop over an ordered set of values; it is stated once here so that both can
be reasoned about together. -/

section Select

variable {α : Type}

/-- One step of a selection pass: `cand` tells which value (if any) an address
contributes, `lt` compares two values; the state is `(cur, found)`. -/
def select_step (lt : α → α → Bool) (cand : ifaddr → Option α) (last : α) (st : α × Nat)
    (ifa : ifaddr) : α × Nat :=
  match cand ifa with
  | some x => if lt last x = true ∧ lt x st.1 = true then (x, st.2 + 1) else st
  | none => st

/-- One selection pass over the address list, started at the sentinel `top`. -/
def select_pass (lt : α → α → Bool) (cand : ifaddr → Option α) (top last : α)
    (addrs : List ifaddr) : α × Nat :=
  addrs.foldl (select_step lt cand last) (top, 0)

/-- The selection loop: passes are repeated, each starting above the value the
previous one found, until a pass finds nothing; every value found is mixed
into the context with `upd`. -/
def select_loop (lt : α → α → Bool) (cand : ifaddr → Option α) (top : α)
    (upd : SHA1_CTX → α → SHA1_CTX) : Nat → α → List ifaddr → SHA1_CTX → Option SHA1_CTX
  | 0, _, _, _ => none
  | fuel + 1, cur, addrs, c =>
    let r := select_pass lt cand top cur addrs
    if r.2 ≠ 0 then select_loop lt cand top upd fuel r.1 addrs (upd c r.1)
    else some c

/-- The values the selection loop finds, in the order it finds them. -/
def select_list (lt : α → α → Bool) (cand : ifaddr → Option α) (top : α) :
    Nat → α → List ifaddr → List α
  | 0, _, _ => []
  | fuel + 1, cur, addrs =>
    let r := select_pass lt cand top cur addrs
    if r.2 ≠ 0 then r.1 :: select_list lt cand top fuel r.1 addrs else []

/-- The number of addresses whose value lies strictly between `last` and `top`. -/
def select_count (lt : α → α → Bool) (cand : ifaddr → Option α) (top last : α)
    (addrs : List ifaddr) : Nat :=
  addrs.countP (fun ifa =>
    match cand ifa with
    | some x => lt last x && lt x top
    | none => false)

/-- The comparison `lt` is a strict total order on the values that satisfy `W`. -/
structure select_order (lt : α → α → Bool) (W : α → Prop) : Prop where
  irrefl : ∀ x, W x → lt x x = false
  trans : ∀ x y z, W x → W y → W z → lt x y = true → lt y z = true → lt x z = true
  tri : ∀ x y, W x → W y → lt x y = true ∨ x = y ∨ lt y x = true

end Select

/-! ## The two address loops as selection loops -/

/-- The comparison of two IPv4 addresses by `ntohl` value. -/
def inet_lt (a b : Nat) : Bool := decide (a < b)

/-- The value an address contributes to the IPv4 loop. -/
def inet_cand (ifa : ifaddr) : Option Nat :=
  match ifa with
  | ifaddr.inet a => some a
  | _ => none

/-- The coordinator `ex_sc` with load balancing on and three entries, the second
of them MASTER. -/
def ex_sc_bal : carp_softc :=
  { ex_sc with sc_balancing := CARP_BAL_IP, carp_vhosts := [ex_vhe, ex_vhe_master, ex_vhe] }

/-! ## Load sharing -/

/-- Modelled from the spec: `struct mbuf` of `sys/mbuf.h` is not under src/; of a
packet, the flags `M_BCAST` and `M_MCAST` of `m_flags` and whether the tag
`PACKET_TAG_CARP_BAL_IP` is attached. -/
structure mbuf where
  m_bcast : Bool
  m_mcast : Bool
  tag_carp_bal_ip : Bool
deriving DecidableEq, Repr

/-- The hash `fold` of `carp_lsdrop`: `src[0] ^ dst[0]`, and for `AF_INET6` the
words 1 to 3 of both addresses folded in as well. -/
def carp_lsdrop_fold (af : sa_family) (src dst : Nat → Nat) : Nat :=
  let fold := src 0 ^^^ dst 0
  if af = sa_family.AF_INET6 then
    (List.range' 1 3).foldl (fun fold i => fold ^^^ (src i ^^^ dst i)) fold
  else fold

/-- The function `carp_lsdrop(ifp, m, af, src, dst, drop)`: the value returned
and the packet afterwards.  `ifp` comes with its `if_type` and `if_softc`,
`src` and `dst` are the words the two pointers give access to, and `ntohl`
is the byte-order macro of the machine (not under src/). -/
def carp_lsdrop (ntohl : Nat → Nat) (ifp : Option (if_type × Option carp_softc))
    (m : Option mbuf) (af : sa_family) (src dst : Option (Nat → Nat)) (drop : Int) :
    Int × Option mbuf :=
  match ifp, m, src, dst with
  | some (ift, softc), some m, some src, some dst =>
    if ift ≠ if_type.IFT_CARP then (0, some m)
    else
      match softc with
      | none => (0, some m)
      | some sc =>
        if sc.sc_lscount > 32 then (0, some m)
        else if sc.sc_balancing = CARP_BAL_NONE then (0, some m)
        else
          let m := if m.m_mcast ∧ m.tag_carp_bal_ip
            then { m with tag_carp_bal_ip := false, m_mcast := false } else m
          if drop = 0 then (0, some m)
          else if m.m_bcast ∨ m.m_mcast then (0, some m)
          else
            let fold := carp_lsdrop_fold af src dst
            if sc.sc_lscount = 0 then (1, some m)
            else
              -- the `int` operand of `%` is converted to `u_int32_t`
              let index := ntohl fold % (sc.sc_lscount % 4294967296).toNat
              if index ≥ 32 then (1, some m)
              else (if (1 <<< index) &&& sc.sc_lsmask = 0 then 1 else 0, some m)
  | _, m, _, _ => (0, m)

/-- A stand-in for `ntohl` in the concrete instances: the byte swap of a
little-endian machine. -/
def ex_ntohl (x : Nat) : Nat :=
  x % 256 * 16777216 + x / 256 % 256 * 65536 + x / 65536 % 256 * 256 + x / 16777216 % 256

/-- A coordinator with IP balancing, three buckets and only bucket 1 served. -/
def ex_sc_ls : carp_softc :=
  { ex_sc with sc_balancing := CARP_BAL_IP, sc_lscount := 3, sc_lsmask := 2 }

/-- A unicast packet without the balancing tag. -/
def ex_mbuf : mbuf := { m_bcast := false, m_mcast := false, tag_carp_bal_ip := false }

/-! ## The identity set of a coordinator -/

/-- Modelled from the spec: `EINVAL` of `sys/errno.h` is not under src/. -/
def EINVAL : Int := 22

/-- Modelled from the spec: `ENOMEM` of `sys/errno.h` is not under src/. -/
def ENOMEM : Int := 12

/-- Modelled from the spec: `ERANGE` of `sys/errno.h` is not under src/. -/
def ERANGE : Int := 34

/-- Modelled from the spec: `struct carpreq` of `netinet/ip_carp.h` is not under
src/; the fields of a request the embedded code reads or writes.  The arrays
`carpr_vhids` and `carpr_advskews` are lists of bytes. -/
structure carpreq where
  carpr_state : Int
  carpr_carpdev : List Nat
  carpr_vhids : List Nat
  carpr_advskews : List Nat
  carpr_states : List Nat
  carpr_balancing : Nat
  carpr_advbase : Int
  carpr_key : List Nat
  carpr_peer : Nat
deriving DecidableEq, Repr

/-- The function `carp_new_vhost(sc, vhid, advskew)`: the value returned and the
coordinator afterwards; `malloc_ok` says whether `malloc` returns memory.  The
new entry is zeroed (`M_ZERO`) before its fields are set. -/
def carp_new_vhost (sc : carp_softc) (vhid advskew : Int) (malloc_ok : Bool) :
    Int × carp_softc :=
  if vhid < 0 ∨ vhid > 255 ∨ advskew < 0 ∨ advskew > 255 then (EINVAL, sc)
  else if malloc_ok = false then (ENOMEM, sc)
  else
    let vhe : carp_vhost_entry :=
      { vhe_leader := false, vhid := vhid, advskew := advskew, state := carp_state.INIT,
        ad_tmo := none, md_tmo := none, md6_tmo := none, vhe_replay_cookie := 0,
        vhe_pad := List.replicate CARP_HMAC_PAD 0, vhe_sha1 := ([], []),
        vhe_enaddr := List.replicate ETHER_ADDR_LEN 0 }
    -- mark the first vhe as leader
    if sc.carp_vhosts.isEmpty then
      (0, { sc with carp_vhosts := [{ vhe with vhe_leader := true }], sc_vhe_count := 1 })
    else
      let sc := { sc with carp_vhosts := sc.carp_vhosts ++ [vhe] }
      if sc.sc_vhe_count = INT_MAX then (ERANGE, sc)
      else (0, { sc with sc_vhe_count := sc.sc_vhe_count + 1 })

/-- The `SRPL_FOREACH_LOCKED` of `carp_del_all_timeouts` from position `k` on;
`within k` is the outcome of the address-range test on the entry at position
`k`, on whose failure the loop is left. -/
def carp_del_all_timeouts_loop (within : Nat → Bool) :
    List carp_vhost_entry → Nat → List carp_vhost_entry
  | [], _ => []
  | vhe :: rest, k =>
    if within k then
      { vhe with ad_tmo := timeout_del vhe.ad_tmo, md_tmo := timeout_del vhe.md_tmo,
                 md6_tmo := timeout_del vhe.md6_tmo } ::
        carp_del_all_timeouts_loop within rest (k + 1)
    else vhe :: rest

/-- The function `carp_del_all_timeouts(sc)`. -/
def carp_del_all_timeouts (within : Nat → Bool) (sc : carp_softc) : carp_softc :=
  { sc with carp_vhosts := carp_del_all_timeouts_loop within sc.carp_vhosts 0 }

/-- The function `carp_destroy_vhosts(sc)`. -/
def carp_destroy_vhosts (sc : carp_softc) : carp_softc :=
  { sc with carp_vhosts := [], sc_vhe_count := 0 }

/-- The function `carp_set_vhe_enaddr(vhe)`; `sc` is `vhe->parent_sc`. -/
def carp_set_vhe_enaddr (sc : carp_softc) (vhe : carp_vhost_entry) : carp_vhost_entry :=
  if vhe.vhid ≠ 0 ∧ sc.sc_carpdevidx ≠ 0 then
    { vhe with vhe_enaddr :=
        [if vhe.vhe_leader = true ∧ sc.sc_balancing = CARP_BAL_IP then 1 else 0, 0, 94, 0, 1,
         if vhe.vhid ≤ 255 then (vhe.vhid % 256).toNat else 0] }
  else { vhe with vhe_enaddr := List.replicate ETHER_ADDR_LEN 0 }

/-- The function `carp_setrun_all(sc, af)`; `ifp` is what
`if_get(sc->sc_carpdevidx)` returns. -/
def carp_setrun_all (ifp : Option ifnet) (sc : carp_softc) (af : sa_family) : carp_softc :=
  (List.range sc.carp_vhosts.length).foldl (fun sc k => carp_setrun_sc ifp sc k af) sc

/-- The function `carp_set_enaddr(sc)`; `ifp` is what `if_get(sc->sc_carpdevidx)`
returns and `in6_ifattach_linklocal` (not under src/) gives the address list
of the interface after the link-local address is attached again. -/
def carp_set_enaddr (in6_ifattach_linklocal : carp_softc → List ifaddr) (ifp : Option ifnet)
    (sc : carp_softc) : carp_softc :=
  let sc := { sc with carp_vhosts := sc.carp_vhosts.map (carp_set_vhe_enaddr sc) }
  match sc.carp_vhosts.head? with
  | none => sc
  | some vhe =>
    -- Use the carp lladdr if the running one isn't manually set.
    let sc :=
      if memcmp (sc.ac_enaddr.drop 1) (vhe.vhe_enaddr.drop 1) (ETHER_ADDR_LEN - 2) = 0 ∨
          (List.range ETHER_ADDR_LEN).all (fun i => sc.ac_enaddr.getD i 0 = 0) = true
      then { sc with ac_enaddr := vhe.vhe_enaddr.take ETHER_ADDR_LEN }
      else sc
    -- Make sure the enaddr has changed before further twiddling.
    if memcmp sc.ac_enaddr sc.sc_curlladdr ETHER_ADDR_LEN ≠ 0 then
      let sc := { sc with sc_curlladdr := sc.ac_enaddr.take ETHER_ADDR_LEN }
      let sc := if sc.sc_naddrs6 ≠ 0
        then { sc with if_addrlist := in6_ifattach_linklocal sc } else sc
      let sc := carp_set_state_all sc carp_state.INIT
      carp_setrun_all ifp sc sa_family.AF_UNSPEC
    else sc

/-- The `for` loop of `carp_check_dup_vhids` over `carpr->carpr_vhids` from index
`i` on, the list being the array from that index: `some true` when it
returns `EINVAL`, `some false` when it ends without, `none` when it reads
past the end of the array. -/
def carp_check_dup_vhids_for (vhid : Int) : List Nat → Nat → Option Bool
  | [], i => if (i : Int) < INT_MAX then none else some true
  | v :: rest, i =>
    if (i : Int) < INT_MAX then
      if v = 0 then some false
      else if vhid = (v : Int) then some true
      else carp_check_dup_vhids_for vhid rest (i + 1)
    else some true

/-- The body of the inner `SRPL_FOREACH_LOCKED` of `carp_check_dup_vhids` for
the entry `vhe` of another coordinator. -/
def carp_check_dup_vhids_vhe (sc : carp_softc) (carpr : Option carpreq)
    (vhe : carp_vhost_entry) : Option Bool :=
  match (match carpr with
    | none => some false
    | some c => carp_check_dup_vhids_for vhe.vhid c.carpr_vhids 0) with
  | none => none
  | some true => some true
  | some false => some (sc.carp_vhosts.any (fun vhe0 => decide (vhe.vhid = vhe0.vhid)))

/-- The inner `SRPL_FOREACH_LOCKED` of `carp_check_dup_vhids` over the entries of
another coordinator. -/
def carp_check_dup_vhids_vr (sc : carp_softc) (carpr : Option carpreq) :
    List carp_vhost_entry → Option Bool
  | [] => some false
  | vhe :: rest =>
    match carp_check_dup_vhids_vhe sc carpr vhe with
    | none => none
    | some true => some true
    | some false => carp_check_dup_vhids_vr sc carpr rest

/-- The function `carp_check_dup_vhids(sc, cif, carpr)`; `cif` lists the
coordinators on the list other than `sc` (the loop skips `vr == sc`).
`none` stands for a read past the end of `carpr_vhids`. -/
def carp_check_dup_vhids (sc : carp_softc) (carpr : Option carpreq) :
    List carp_softc → Option Int
  | [] => some 0
  | vr :: rest =>
    match carp_check_dup_vhids_vr sc carpr vr.carp_vhosts with
    | none => none
    | some true => some EINVAL
    | some false => carp_check_dup_vhids sc carpr rest

/-- The test of the validation loop of `carp_vhids_ioctl` against the other
coordinators of the carrier interface: the value of
`carp_check_dup_vhids(sc, cif, carpr)` when `if_get(sc->sc_carpdevidx)` returns
an interface, 0 otherwise. -/
def carp_vhids_ioctl_dup (sc : carp_softc) (ifp : Option ifnet) (cif : List carp_softc)
    (carpr : carpreq) : Option Int :=
  match ifp with
  | none => some 0
  | some _ => carp_check_dup_vhids sc (some carpr) cif

/-- The first `for` loop of `carp_vhids_ioctl` (validation) from index `i` on,
the list being `carpr_vhids` from that index and `taken` the vhids marked in
`taken_vhids`: `some (Except.ok n)` when it ends at index `n`,
`some (Except.error e)` when it returns `e`, `none` when it reads past the
end of an array. -/
def carp_vhids_ioctl_check (sc : carp_softc) (ifp : Option ifnet) (cif : List carp_softc)
    (carpr : carpreq) : List Nat → Nat → List Nat → Option (Except Int Nat)
  | [], _, _ => none
  | v :: rest, i, taken =>
    if v = 0 then some (Except.ok i)
    else if i ≥ 256 then some (Except.error EINVAL)
    else if v ∈ taken then some (Except.error EINVAL)
    else
      match carp_vhids_ioctl_dup sc ifp cif carpr with
      | none => none
      | some dup =>
        if dup ≠ 0 then some (Except.error EINVAL)
        else
          match carpr.carpr_advskews[i]? with
          | none => none
          | some skew =>
            if skew ≥ 255 then some (Except.error EINVAL)
            else carp_vhids_ioctl_check sc ifp cif carpr rest (i + 1) (v :: taken)

/-- The inner `for` loop of the rebuild of `carp_vhids_ioctl` for the vhid `j`,
from index `i` on: the error (0 when the loop ends), the coordinator and the
answers of `malloc` still to come (it succeeds once the list is used up);
`none` when it reads past the end of an array. -/
def carp_vhids_ioctl_sort_for (carpr : carpreq) (j : Nat) :
    List Nat → Nat → carp_softc → List Bool → Option (Int × carp_softc × List Bool)
  | [], _, _, _ => none
  | v :: rest, i, sc, mallocs =>
    if v = 0 then some (0, sc, mallocs)
    else if i ≥ sc.sc_vhids.length then some (EINVAL, sc, mallocs)
    else if v ≠ j then carp_vhids_ioctl_sort_for carpr j rest (i + 1) sc mallocs
    else
      match carpr.carpr_advskews[i]? with
      | none => none
      | some skew =>
        let r := carp_new_vhost sc v skew (mallocs.head?.getD true)
        if r.1 ≠ 0 then some (ENOMEM, r.2, mallocs.tail)
        else
          carp_vhids_ioctl_sort_for carpr j rest (i + 1)
            { r.2 with sc_vhids := r.2.sc_vhids.set i v,
                       sc_advskews := r.2.sc_advskews.set i skew }
            mallocs.tail

/-- The outer `for` loop of the rebuild of `carp_vhids_ioctl` over the vhids
`js` still to come. -/
def carp_vhids_ioctl_sort (carpr : carpreq) :
    List Nat → carp_softc → List Bool → Option (Int × carp_softc × List Bool)
  | [], sc, mallocs => some (0, sc, mallocs)
  | j :: js, sc, mallocs =>
    match carp_vhids_ioctl_sort_for carpr j carpr.carpr_vhids 0 sc mallocs with
    | none => none
    | some (e, sc, mallocs) =>
      if e ≠ 0 then some (e, sc, mallocs)
      else carp_vhids_ioctl_sort carpr js sc mallocs

/-- The function `carp_vhids_ioctl(sc, carpr)`: the value returned, the
coordinator and the request afterwards.  `ifp` is what
`if_get(sc->sc_carpdevidx)` returns, `cif` the other coordinators on its
`if_carp` list, `mallocs` the answers of `malloc`, `within` the outcome of the
address-range test of `carp_del_all_timeouts`; `none` stands for a read past
the end of an array of the request. -/
def carp_vhids_ioctl (in6_ifattach_linklocal : carp_softc → List ifaddr)
    (within : Nat → Bool) (ifp : Option ifnet) (cif : List carp_softc) (mallocs : List Bool)
    (sc : carp_softc) (carpr : carpreq) : Option (Int × carp_softc × carpreq) :=
  match carpr.carpr_vhids[0]? with
  | none => none
  | some v0 =>
    if v0 = 0 ∨ memcmp sc.sc_vhids carpr.carpr_vhids sc.sc_vhids.length = 0 then
      some (0, sc, carpr)
    else
      match carp_vhids_ioctl_check sc ifp cif carpr carpr.carpr_vhids 0 [] with
      | none => none
      | some (Except.error e) => some (e, sc, carpr)
      | some (Except.ok i) =>
        -- set sane balancing defaults
        let carpr :=
          if i ≤ 1 then { carpr with carpr_balancing := CARP_BAL_NONE }
          else if carpr.carpr_balancing = CARP_BAL_NONE ∧ sc.sc_balancing = CARP_BAL_NONE
          then { carpr with carpr_balancing := CARP_BAL_IP }
          else carpr
        -- destroy all
        let sc := carp_del_all_timeouts within sc
        let sc := carp_destroy_vhosts sc
        let sc := { sc with sc_vhids := List.replicate sc.sc_vhids.length 0 }
        -- sort vhosts list by vhid
        match carp_vhids_ioctl_sort carpr (List.range' 1 255) sc mallocs with
        | none => none
        | some (e, sc, _) =>
          if e ≠ 0 then some (e, sc, carpr)
          else
            let sc := carp_set_enaddr in6_ifattach_linklocal ifp sc
            let sc := carp_set_state_all sc carp_state.INIT
            some (0, sc, carpr)

/-- The `SRPL_FOREACH_LOCKED` of the case `SIOCSVH` of `carp_ioctl` that hands
out `carpr.carpr_advskews[i++]` to the entries in list order, from index
`i` on; `none` when it reads past the end of the array. -/
def carp_ioctl_advskews_loop (advskews : List Nat) :
    List carp_vhost_entry → Nat → Option (List carp_vhost_entry)
  | [], _ => some []
  | vhe :: rest, i =>
    match advskews[i]? with
    | none => none
    | some skew =>
      (carp_ioctl_advskews_loop advskews rest (i + 1)).map
        (fun l => { vhe with advskew := (skew : Int) } :: l)

/-- The part of the case `SIOCSVH` of `carp_ioctl` from the call of
`carp_vhids_ioctl` to the copy of the skews into `sc_advskews`: the value of
`error` and the coordinator there, `Except.error e` when the function is
left with `e` before.  The parameters are those of `carp_vhids_ioctl`. -/
def carp_ioctl_SIOCSVH_vhids (in6_ifattach_linklocal : carp_softc → List ifaddr)
    (within : Nat → Bool) (ifp : Option ifnet) (cif : List carp_softc) (mallocs : List Bool)
    (sc : carp_softc) (carpr : carpreq) : Option (Except Int (Int × carp_softc)) :=
  match carp_vhids_ioctl in6_ifattach_linklocal within ifp cif mallocs sc carpr with
  | none => none
  | some (error, sc, carpr) =>
    if error ≠ 0 then some (Except.error error)
    else if carpr.carpr_advbase ≥ 0 ∧ carpr.carpr_advbase > 255 then some (Except.error EINVAL)
    else
      let sc := if carpr.carpr_advbase ≥ 0
        then { sc with sc_advbase := carpr.carpr_advbase } else sc
      let error := if carpr.carpr_advbase ≥ 0 then error - 1 else error
      if memcmp sc.sc_advskews carpr.carpr_advskews sc.sc_advskews.length ≠ 0 then
        match carp_ioctl_advskews_loop carpr.carpr_advskews sc.carp_vhosts 0 with
        | none => none
        | some l =>
          some (Except.ok (error,
            { sc with carp_vhosts := l,
                      sc_advskews := carpr.carpr_advskews.take sc.sc_advskews.length }))
      else some (Except.ok (error, sc))

/-- The proposed vhids of a request: the bytes of `carpr_vhids` before the first
zero. -/
def carpr_vhid_set (carpr : carpreq) : List Nat :=
  carpr.carpr_vhids.takeWhile (fun v => decide (v ≠ 0))

/-- The proposed identities of a request: the pairs
(`carpr_vhids[i]`, `carpr_advskews[i]`) for the indices before the first zero of
`carpr_vhids`. -/
def carpr_set (carpr : carpreq) : List (Nat × Nat) :=
  (carpr_vhid_set carpr).zip carpr.carpr_advskews

/-- A stand-in for `in6_ifattach_linklocal` in the concrete instances: the
address list stays as it is. -/
def ex_in6_ifattach_linklocal (sc : carp_softc) : List ifaddr := sc.if_addrlist

/-- A request that proposes vhid 7 twice. -/
def ex_carpr_dup : carpreq :=
  { carpr_state := 0, carpr_carpdev := List.replicate 16 0,
    carpr_vhids := 7 :: 7 :: List.replicate 30 0, carpr_advskews := List.replicate 32 0,
    carpr_states := List.replicate 32 0, carpr_balancing := 0, carpr_advbase := 1,
    carpr_key := [], carpr_peer := 0 }

/-- The identity of an entry: its vhid and its skew. -/
def vhe_ident (vhe : carp_vhost_entry) : Int × Int := (vhe.vhid, vhe.advskew)

/-- A proposed identity of a request as an entry carries it. -/
def carpr_ident (p : Nat × Nat) : Int × Int := ((p.1 : Int), (p.2 : Int))

/-- A request that proposes vhid 7 with skew 10 and vhid 3 with skew 20. -/
def ex_carpr : carpreq :=
  { carpr_state := 0, carpr_carpdev := List.replicate 16 0,
    carpr_vhids := 7 :: 3 :: List.replicate 30 0,
    carpr_advskews := 10 :: 20 :: List.replicate 30 0, carpr_states := List.replicate 32 0,
    carpr_balancing := 0, carpr_advbase := 1, carpr_key := [], carpr_peer := 0 }

/-- The coordinator `ex_sc` after `carp_vhids_ioctl` has accepted the request
`ex_carpr`. -/
def ex_sc_rebuilt : carp_softc :=
  ((carp_vhids_ioctl ex_in6_ifattach_linklocal (fun _ => false) none [] [] ex_sc ex_carpr).map
    (fun r => r.2.1)).getD ex_sc

/-- The request `ex_carpr` with the skew of vhid 7 raised from 10 to 30. -/
def ex_carpr_skew : carpreq :=
  { ex_carpr with carpr_advskews := 30 :: 20 :: List.replicate 30 0 }

/-! ## The vocabulary of the demotion properties -/

/-- The positions, in the group table, of the groups of the interface `ifp`
(its `if_groups` list). -/
def ifref_groups (w : carp_world) (ifp : ifref) : List Nat :=
  match ifp with
  | ifref.carp j => (w.softcs[j]?.map (fun sc => sc.if_groups)).getD []
  | ifref.phys i => (w.ifnetlist[i]?.map (fun p => p.if_groups)).getD []

/-- The world after the stores of `carp_group_demote_adj(ifp, adj, reason)`, at
the point where it decides about `carp_send_ad_all`. -/
def carp_group_demote_adj_stores (w : carp_world) (ifp : ifref) (adj : Int) : carp_world :=
  let w := match ifp with
    | ifref.carp j =>
      modify_sc w j (fun sc => { sc with sc_demote_cnt := carp_demote_clamp sc.sc_demote_cnt adj })
    | ifref.phys _ => w
  { w with ifgroups := (carp_group_demote_adj_loop adj (ifref_groups w ifp) w.ifgroups false).1 }

/-- The field `ch.carp_demote` of the advertisement `carp_send_ad` builds:
`carp_group_demote_count(sc) & 0xff`. -/
def carp_send_ad_demote (w : carp_world) (sc : carp_softc) : Int :=
  carp_group_demote_count w sc % 256

/-- The sum of the demotion counters of the groups of a coordinator's
interface. -/
def carp_group_demote_sum (w : carp_world) (sc : carp_softc) : Int :=
  ((sc.if_groups.filterMap (fun g => w.ifgroups[g]?)).map (fun grp => grp.ifg_carp_demoted)).sum

/-! ## The vocabulary of the send-error properties -/

/-- The bookkeeping of `carp_send_ad` run over a sequence of send results of the
coordinator at position `j`, one pair (`failed`, `enobufs`) for each send. -/
def carp_send_ad_account_seq (demote_adj : carp_world → Int → carp_world)
    (w : carp_world) (j : Nat) (results : List (Bool × Bool)) : carp_world :=
  results.foldl (fun w r => carp_send_ad_account demote_adj w j r.1 r.2) w

/-- The number of failures at the end of a sequence of send results (`true` is a
failure), on top of `e` failures before it. -/
def failure_streak (e : Nat) (flags : List Bool) : Nat :=
  flags.foldl (fun s failed => if failed then s + 1 else 0) e

/-- The value of `sc_sendad_errors` after a failed send:
`if (sc->sc_sendad_errors < INT_MAX) sc->sc_sendad_errors++`. -/
def sendad_errors_inc (errors : Int) : Int :=
  if errors < INT_MAX then errors + 1 else errors

/-- The world in which the bookkeeping of `carp_send_ad` decides about
`carp_group_demote_adj` after a failed send: the error is counted. -/
def carp_send_ad_account_failed (w : carp_world) (j : Nat) (enobufs : Bool) : carp_world :=
  modify_sc (if enobufs then carpstat_inc w carps_counter.carps_onomem else w) j
    (fun sc => { sc with if_oerrors := sc.if_oerrors + 1,
                         sc_sendad_errors := sendad_errors_inc sc.sc_sendad_errors })

/-- Send results for the concrete instances: two failures, a success, two
failures. -/
def ex_results : List (Bool × Bool) :=
  [(true, false), (true, false), (false, false), (true, false), (true, false)]

/-- The coordinator `ex_sc` right after its automatic demotion: three failures
counted, no success yet. -/
def ex_sc_demoted : carp_softc := { ex_sc with sc_sendad_errors := 3, sc_demote_cnt := 1 }

/-- The world `ex_world` with the coordinator `ex_sc_demoted`. -/
def ex_world_demoted : carp_world := { ex_world with softcs := [ex_sc_demoted] }

/-- The advertisement `ex_ch` with base interval 3, three times that of `ex_sc`,
and skew 0. -/
def ex_ch_triple : carp_header := { ex_ch with carp_advbase := 3 }

/-- The advertisement `ex_ch_triple` with skew 1 in place of 0. -/
def ex_ch_triple_skew : carp_header := { ex_ch_triple with carp_advskew := 1 }

/-! ## The vocabulary of the timer properties -/

/-- The fields of a coordinator that decide whether and how `carp_setrun` runs
an entry: `IFF_UP`, `sc_suppress`, `sc_naddrs`, `sc_naddrs6`, `sc_advbase` and
`sc_carpdevidx`. -/
def sc_static (sc : carp_softc) : Bool × Bool × Int × Int × Int × Nat :=
  (sc.if_flags_up, sc.sc_suppress, sc.sc_naddrs, sc.sc_naddrs6, sc.sc_advbase, sc.sc_carpdevidx)

/-- The entry `ex_vhe` with both master-down timers pending. -/
def ex_vhe_pending : carp_vhost_entry :=
  { ex_vhe with md_tmo := some { tv_sec := 3, tv_usec := 0 },
                md6_tmo := some { tv_sec := 3, tv_usec := 0 } }

/-- The world `ex_world` with the entry `ex_vhe_pending` in place of `ex_vhe`. -/
def ex_world_pending : carp_world :=
  { ex_world with softcs := [{ ex_sc with carp_vhosts := [ex_vhe_pending] }] }

/-- The entry `ex_vhe` in INIT. -/
def ex_vhe_init : carp_vhost_entry := { ex_vhe with state := carp_state.INIT }

/-- The coordinator `ex_sc` with the entry `ex_vhe_init`. -/
def ex_sc_init : carp_softc := { ex_sc with carp_vhosts := [ex_vhe_init] }

/-- The world `ex_world` with the coordinator `ex_sc_init`. -/
def ex_world_init : carp_world := { ex_world with softcs := [ex_sc_init] }

/-! ## The vocabulary of the leader property -/

/-- The leader property of an entry list: the list is empty, or its first entry
has `vhe_leader` set and no other entry has. -/
def single_leader : List carp_vhost_entry → Bool
  | [] => true
  | vhe :: rest => vhe.vhe_leader && rest.all (fun vhe0 => !vhe0.vhe_leader)

/-- A call that creates or destroys entries of a coordinator, with the inputs
the embedded function takes besides the coordinator. -/
inductive vhost_call where
  | new_vhost (vhid advskew : Int) (malloc_ok : Bool)
  | destroy_vhosts
  | vhids_ioctl (in6_ifattach_linklocal : carp_softc → List ifaddr) (within : Nat → Bool)
      (ifp : Option ifnet) (cif : List carp_softc) (mallocs : List Bool) (carpr : carpreq)

/-- The coordinator after one call: `carp_new_vhost` whatever it returns,
`carp_destroy_vhosts`, or a `carp_vhids_ioctl` that returns 0; `none` when
`carp_vhids_ioctl` reads past the end of an array or returns an error. -/
def vhost_call_run (sc : carp_softc) : vhost_call → Option carp_softc
  | vhost_call.new_vhost vhid advskew malloc_ok => some (carp_new_vhost sc vhid advskew malloc_ok).2
  | vhost_call.destroy_vhosts => some (carp_destroy_vhosts sc)
  | vhost_call.vhids_ioctl in6 within ifp cif mallocs carpr =>
    match carp_vhids_ioctl in6 within ifp cif mallocs sc carpr with
    | none => none
    | some r => if r.1 = 0 then some r.2.1 else none

/-- The coordinator after a sequence of calls, each on the coordinator the one
before left. -/
def vhost_calls_run : carp_softc → List vhost_call → Option carp_softc
  | sc, [] => some sc
  | sc, c :: rest =>
    match vhost_call_run sc c with
    | none => none
    | some sc1 => vhost_calls_run sc1 rest

/-- A sequence of calls on `ex_sc`: two entries are added to the one it has, the
list is emptied, two entries are created, and the request `ex_carpr` rebuilds
the list. -/
def ex_vhost_calls : List vhost_call :=
  [vhost_call.new_vhost 9 0 true, vhost_call.new_vhost 2 0 true, vhost_call.destroy_vhosts,
   vhost_call.new_vhost 4 0 true, vhost_call.new_vhost 1 0 true,
   vhost_call.vhids_ioctl ex_in6_ifattach_linklocal (fun _ => false) none [] [] ex_carpr]

/-! ## The get request -/

/-- Modelled from the spec: `IFNAMSIZ` of `net/if.h` is not under src/. -/
def IFNAMSIZ : Nat := 16

/-- Modelled from the spec: `CARP_MAXNODES` of `netinet/ip_carp.h` is not under
src/; the size of the arrays `carpr_vhids`, `carpr_advskews` and
`carpr_states`. -/
def CARP_MAXNODES : Nat := 32

/-- Modelled from the spec: `strlcpy` of libkern is not under src/; the array
`dst` after `strlcpy(dst, src, size)`: the bytes of `src` before its first
NUL, at most `size - 1` of them, then a NUL. -/
def strlcpy (dst src : List Nat) (size : Nat) : List Nat :=
  if size = 0 then dst
  else
    let s := (src.takeWhile (fun c => decide (c ≠ 0))).take (size - 1)
    s ++ 0 :: dst.drop (s.length + 1)

/-- The value of a `state` as an integer: `enum { INIT = 0, BACKUP, MASTER }`. -/
def carp_state_val : carp_state → Nat
  | carp_state.INIT => 0
  | carp_state.BACKUP => 1
  | carp_state.MASTER => 2

/-- The `carpreq` after `memset(&carpr, 0, sizeof(carpr))`. -/
def carpreq_zero : carpreq :=
  { carpr_state := 0, carpr_carpdev := List.replicate IFNAMSIZ 0,
    carpr_vhids := List.replicate CARP_MAXNODES 0,
    carpr_advskews := List.replicate CARP_MAXNODES 0,
    carpr_states := List.replicate CARP_MAXNODES 0, carpr_balancing := 0, carpr_advbase := 0,
    carpr_key := List.replicate CARP_KEY_LEN 0, carpr_peer := 0 }

/-- The `SRPL_FOREACH_LOCKED` of the case `SIOCGVH` of `carp_ioctl` from index `i`
on; the stores are to `u_int8_t` slots.  `none` stands for a store past the
end of an array. -/
def carp_ioctl_SIOCGVH_loop : List carp_vhost_entry → Nat → carpreq → Option carpreq
  | [], _, carpr => some carpr
  | vhe :: rest, i, carpr =>
    if i < carpr.carpr_vhids.length ∧ i < carpr.carpr_advskews.length ∧
        i < carpr.carpr_states.length then
      carp_ioctl_SIOCGVH_loop rest (i + 1)
        { carpr with carpr_vhids := carpr.carpr_vhids.set i (vhe.vhid % 256).toNat,
                     carpr_advskews := carpr.carpr_advskews.set i (vhe.advskew % 256).toNat,
                     carpr_states := carpr.carpr_states.set i (carp_state_val vhe.state) }
    else none

/-- The case `SIOCGVH` of `carp_ioctl`: the `carpreq` handed to `copyout`.  `ifp0`
is what `if_get(sc->sc_carpdevidx)` returns and `suser` the value of
`suser(p)`; `none` stands for a store past the end of an array. -/
def carp_ioctl_SIOCGVH (ifp0 : Option ifnet) (suser : Int) (sc : carp_softc) :
    Option carpreq :=
  let carpr := carpreq_zero
  let carpr :=
    match ifp0 with
    | some ifp0 =>
      { carpr with carpr_carpdev := strlcpy carpr.carpr_carpdev ifp0.if_xname IFNAMSIZ }
    | none => carpr
  match carp_ioctl_SIOCGVH_loop sc.carp_vhosts 0 carpr with
  | none => none
  | some carpr =>
    let carpr := { carpr with carpr_advbase := sc.sc_advbase,
                              carpr_balancing := sc.sc_balancing }
    let carpr :=
      if suser = 0 then
        { carpr with carpr_key := sc.sc_key.take carpr.carpr_key.length ++
                                    carpr.carpr_key.drop sc.sc_key.length }
      else carpr
    some { carpr with carpr_peer := sc.sc_peer }

/-- The coordinator `ex_sc` with a 20-byte key. -/
def ex_sc_key : carp_softc := { ex_sc with sc_key := List.range' 1 20 }

/-! ## NAT64 address mapping (`inet_nat64.c`) -/

/-- The value of the `u_int32_t` held in the four bytes `b` of memory, on a
machine that is big-endian (`be = true`) or little-endian. -/
def u32_of_bytes (be : Bool) (b : List Nat) : Nat :=
  (if be then b else b.reverse).foldl (fun x y => x * 256 + y % 256) 0

/-- The four bytes of memory that hold the `u_int32_t` `x`, on a machine that is
big-endian (`be = true`) or little-endian. -/
def bytes_of_u32 (be : Bool) (x : Nat) : List Nat :=
  let b := [x / 16777216 % 256, x / 65536 % 256, x / 256 % 256, x % 256]
  if be then b else b.reverse

/-- Modelled from the spec: `htonl` of `sys/endian.h` is not under src/; the
`u_int32_t` whose bytes in memory are those of `x` in network order. -/
def htonl (be : Bool) (x : Nat) : Nat := u32_of_bytes be (bytes_of_u32 true x)

/-- The member `u32[k]` of a `union inet_nat64_addr` held in the bytes `addr`;
`none` stands for a read past the end of the storage. -/
def inet_nat64_addr_u32 (be : Bool) (addr : List Nat) (k : Nat) : Option Nat :=
  if 4 * k + 4 ≤ addr.length then some (u32_of_bytes be ((addr.drop (4 * k)).take 4)) else none

/-- The bytes of a `union inet_nat64_addr` after the store `u32[k] = x`; `none`
stands for a store past the end of the storage. -/
def inet_nat64_addr_set_u32 (be : Bool) (addr : List Nat) (k x : Nat) : Option (List Nat) :=
  if 4 * k + 4 ≤ addr.length
  then some (addr.take (4 * k) ++ bytes_of_u32 be x ++ addr.drop (4 * k + 4)) else none

/-- The function `inet_nat64_mask(src, pfx, pfxlen)` on `u_int32_t` values. -/
def inet_nat64_mask (be : Bool) (src pfx pfxlen : Nat) : Nat :=
  if pfxlen = 0 then src
  else
    let pfxlen := if pfxlen > 32 then 32 else pfxlen
    let m := htonl be ((4294967295 <<< (32 - pfxlen)) % 4294967296)
    ((src &&& (m ^^^ 4294967295)) &&& 4294967295) ||| ((pfx &&& m) &&& 4294967295)

/-- The `for` loop of `inet_nat64_inet` with `n` rounds to go: the value returned
and the destination bytes; `none` stands for an access past the end of the
storage of `s` or `d`. -/
def inet_nat64_inet_loop (s : List Nat) : Nat → Nat → Nat → List Nat → Option (Int × List Nat)
  | 0, _, _, d => some (0, d)
  | n + 1, j, i, d =>
    let i := if i = 8 then i + 1 else i
    if i ≥ 16 ∨ j ≥ 16 then some (-1, d)
    else
      match s[i]? with
      | none => none
      | some b =>
        if j < d.length then inet_nat64_inet_loop s n (j + 1) (i + 1) (d.set j b) else none

/-- The function `inet_nat64_inet(src, dst, pfx, pfxlen)` (IPv6 to IPv4): the
value returned and the storage of `dst` afterwards.  A pointer is `none` when
NULL, otherwise the bytes it points to; the result `none` stands for an access
past the end of a storage. -/
def inet_nat64_inet (be : Bool) (src dst pfx : Option (List Nat)) (pfxlen : Nat) :
    Option (Int × Option (List Nat)) :=
  match src, dst, pfx with
  | some s, some d, some p =>
    if pfxlen = 32 ∨ pfxlen = 40 ∨ pfxlen = 48 ∨ pfxlen = 56 ∨ pfxlen = 64 ∨ pfxlen = 96 then
      -- fill the octets with the source and skip reserved octet 8
      (inet_nat64_inet_loop s 4 0 (pfxlen / 8) d).map (fun r => (r.1, some r.2))
    else if pfxlen < 96 ∨ pfxlen > 128 then some (-1, some d)
    else
      -- as an extension, mask out any other bits
      match inet_nat64_addr_u32 be s 3, inet_nat64_addr_u32 be p 3 with
      | some s3, some p3 =>
        (inet_nat64_addr_set_u32 be d 0
          (inet_nat64_mask be s3 p3 (((32 : Int) - (128 - (pfxlen : Int))) % 256).toNat)).map
          (fun d => (0, some d))
      | _, _ => none
  | _, _, _ => some (-1, dst)

/-- The `for` loop of `inet_nat64_inet6` with `n` rounds to go; `none` stands for
an access past the end of the storage of `s` or `d`. -/
def inet_nat64_inet6_loop (s : List Nat) : Nat → Nat → Nat → List Nat → Option (List Nat)
  | 0, _, _, d => some d
  | n + 1, j, i, d =>
    if i < 16 then
      let i := if i = 8 then i + 1 else i
      if i < 16 then
        match s[j]? with
        | none => none
        | some b =>
          if i < d.length then inet_nat64_inet6_loop s n (j + 1) (i + 1) (d.set i b) else none
      else inet_nat64_inet6_loop s n (j + 1) i d
    else inet_nat64_inet6_loop s n (j + 1) i d

/-- The function `inet_nat64_inet6(src, dst, pfx, pfxlen)` (IPv4 to IPv6): the
value returned and the storage of `dst` afterwards.  A pointer is `none` when
NULL, otherwise the bytes it points to; the result `none` stands for the use
of a NULL pointer or an access past the end of a storage. -/
def inet_nat64_inet6 (be : Bool) (src dst pfx : Option (List Nat)) (pfxlen : Nat) :
    Option (Int × Option (List Nat)) :=
  -- Validate prefix length
  if pfxlen > 128 then some (-1, dst)
  else
    match dst, pfx with
    | some d, some p =>
      if p.length < 16 ∨ d.length < 16 then none
      else
        -- first copy the prefix octets to the destination
        let d := p.take 16 ++ d.drop 16
        if pfxlen = 32 ∨ pfxlen = 40 ∨ pfxlen = 48 ∨ pfxlen = 56 ∨ pfxlen = 64 ∨ pfxlen = 96
        then
          -- octet 8 is reserved and must be set to zero
          let d := d.set 8 0
          match src with
          | none => none
          | some s => (inet_nat64_inet6_loop s 4 0 (pfxlen / 8) d).map (fun d => (0, some d))
        else if pfxlen < 96 ∨ pfxlen > 128 then some (-1, some d)
        else
          -- as an extension, mask out any other bits
          match src.bind (fun s => inet_nat64_addr_u32 be s 0), inet_nat64_addr_u32 be p 3 with
          | some s0, some p3 =>
            (inet_nat64_addr_set_u32 be d 3
              (inet_nat64_mask be s0 p3 (((32 : Int) - (128 - (pfxlen : Int))) % 256).toNat)).map
              (fun d => (0, some d))
          | _, _ => none
    | _, _ => none

/-- The IPv4 address 192.0.2.33. -/
def ex_inet : List Nat := [192, 0, 2, 33]

/-- The prefix 2001:db8:122:344:ff00::, whose octet 8 is not zero. -/
def ex_pfx : List Nat := [32, 1, 13, 184, 1, 34, 3, 68, 255, 0, 0, 0, 0, 0, 0, 0]

/-! ## Theorems: the frame of `carp_send_ad` -/

theorem map_modify_of_eq {α β : Type} (g : α → β) (f : α → α) (h : ∀ x, g (f x) = g x)
    (l : List α) (n : Nat) : (l.modify f n).map g = l.map g := by
  apply List.ext_getElem?
  intro i
  simp only [List.getElem?_map, List.getElem?_modify]
  by_cases hi : n = i
  · simp [hi]
    cases l[i]? <;> simp [h]
  · simp [hi]

theorem sc_frame_modify_vhe (sc : carp_softc) (k : Nat) (f : carp_vhost_entry → carp_vhost_entry)
    (h : ∀ v, vhe_frame (f v) = vhe_frame v) : sc_frame (modify_vhe sc k f) = sc_frame sc := by
  simp only [sc_frame, modify_vhe, map_modify_of_eq vhe_frame f h]

theorem world_frame_modify_sc (w : carp_world) (j : Nat) (f : carp_softc → carp_softc)
    (h : ∀ sc, sc_frame (f sc) = sc_frame sc) : world_frame (modify_sc w j f) = world_frame w := by
  simp only [world_frame, modify_sc, map_modify_of_eq sc_frame f h]

theorem if_get_frame (w w1 : carp_world) (h : world_frame w1 = world_frame w) (idx : Nat) :
    if_get w1 idx = if_get w idx := by
  have : (world_frame w1).ifnetlist = (world_frame w).ifnetlist := by rw [h]
  have h2 : w1.ifnetlist = w.ifnetlist := this
  simp [if_get, h2]

theorem world_frame_foldl {α : Type} (f : carp_world → α → carp_world)
    (h : ∀ w a, world_frame (f w a) = world_frame w) (l : List α) (w : carp_world) :
    world_frame (l.foldl f w) = world_frame w := by
  induction l generalizing w with
  | nil => rfl
  | cons a l ih => simp only [List.foldl_cons]; rw [ih, h]

theorem world_frame_demote_adj (send_ad_all : carp_world → carp_world)
    (h : ∀ w, world_frame (send_ad_all w) = world_frame w) (w : carp_world) (ifp : ifref)
    (adj : Int) : world_frame (carp_group_demote_adj_body send_ad_all w ifp adj) = world_frame w := by
  unfold carp_group_demote_adj_body
  cases ifp with
  | carp j =>
    simp only []
    split
    · rw [h]; exact world_frame_modify_sc w j _ (by intro; rfl)
    · exact world_frame_modify_sc w j _ (by intro; rfl)
  | phys i =>
    simp only []
    split
    · rw [h]; rfl
    · rfl


theorem world_frame_onomem (w : carp_world) :
    world_frame (carpstat_inc w carps_counter.carps_onomem) = world_frame w := rfl

theorem world_frame_opackets (w : carp_world) :
    world_frame (carpstat_inc w carps_counter.carps_opackets) = world_frame w := rfl

theorem world_frame_opackets6 (w : carp_world) :
    world_frame (carpstat_inc w carps_counter.carps_opackets6) = world_frame w := rfl

theorem world_frame_env_pop (w : carp_world) : world_frame (env_pop w) = world_frame w := rfl

theorem world_frame_account (demote_adj : carp_world → Int → carp_world)
    (h : ∀ w adj, world_frame (demote_adj w adj) = world_frame w) (w : carp_world) (j : Nat)
    (failed enobufs : Bool) :
    world_frame (carp_send_ad_account demote_adj w j failed enobufs) = world_frame w := by
  unfold carp_send_ad_account
  repeat' (first
    | with_reducible rfl
    | with_reducible refine (world_frame_onomem _).trans ?_
    | with_reducible refine (world_frame_opackets _).trans ?_
    | with_reducible refine (world_frame_opackets6 _).trans ?_
    | with_reducible refine (world_frame_env_pop _).trans ?_
    | with_reducible refine (world_frame_modify_sc _ j _ (by intro; with_unfolding_all rfl)).trans ?_
    | with_reducible refine (h _ _).trans ?_
    | dsimp only
    | split)

theorem vhe_frame_cookie (v : carp_vhost_entry) (rnd : Nat) :
    vhe_frame (carp_prepare_ad_cookie v rnd) = vhe_frame v := by
  unfold carp_prepare_ad_cookie; split <;> rfl

theorem world_frame_retry_later (w : carp_world) (j k : Nat) (advbase advskew : Int)
    (tv : timeval) :
    world_frame (carp_send_ad_retry_later w j k advbase advskew tv) = world_frame w := by
  unfold carp_send_ad_retry_later
  apply world_frame_modify_sc
  intro sc
  simp only []
  split
  · exact (sc_frame_modify_vhe _ k _ (by intro; rfl)).trans rfl
  · rfl

theorem world_frame_cookie (w : carp_world) (j k rnd : Nat) :
    world_frame (modify_sc w j (fun sc => modify_vhe sc k
      (fun vhe => carp_prepare_ad_cookie vhe rnd))) = world_frame w :=
  world_frame_modify_sc w j _
    (fun sc => sc_frame_modify_vhe sc k _ (fun v => vhe_frame_cookie v _))

theorem world_frame_inet6 (demote_adj : carp_world → Int → carp_world)
    (h : ∀ w adj, world_frame (demote_adj w adj) = world_frame w) (w : carp_world) (j k : Nat)
    (e : send_env) : world_frame (carp_send_ad_inet6 demote_adj w j k e) = world_frame w := by
  unfold carp_send_ad_inet6
  repeat' (first
    | with_reducible rfl
    | with_reducible refine (world_frame_onomem _).trans ?_
    | with_reducible refine (world_frame_opackets _).trans ?_
    | with_reducible refine (world_frame_opackets6 _).trans ?_
    | with_reducible refine (world_frame_env_pop _).trans ?_
    | with_reducible refine (world_frame_modify_sc _ j _ (by intro; with_unfolding_all rfl)).trans ?_
    | with_reducible refine (world_frame_cookie _ j k _).trans ?_
    | with_reducible refine (world_frame_account demote_adj h _ _ _ _).trans ?_
    | dsimp only
    | split)

theorem sc_frame_delayed_arp (sc : carp_softc) :
    sc_frame (if (if sc.sc_delayed_arp > 0
        then { sc with sc_delayed_arp := sc.sc_delayed_arp - 1 } else sc).sc_delayed_arp = 0
      then { (if sc.sc_delayed_arp > 0
        then { sc with sc_delayed_arp := sc.sc_delayed_arp - 1 } else sc) with
          sc_delayed_arp := -1 }
      else (if sc.sc_delayed_arp > 0
        then { sc with sc_delayed_arp := sc.sc_delayed_arp - 1 } else sc)) = sc_frame sc := by
  split <;> split <;> rfl

theorem world_frame_send_ad_body (send_ad_all : carp_world → carp_world)
    (h : ∀ w, world_frame (send_ad_all w) = world_frame w) (w : carp_world) (j k : Nat) :
    world_frame (carp_send_ad_body send_ad_all w j k) = world_frame w := by
  have hd : ∀ (w : carp_world) (adj : Int),
      world_frame (carp_group_demote_adj_body send_ad_all w (ifref.carp j) adj) = world_frame w :=
    fun w adj => world_frame_demote_adj send_ad_all h w _ adj
  unfold carp_send_ad_body
  repeat' (first
    | with_reducible rfl
    | with_reducible refine (world_frame_onomem _).trans ?_
    | with_reducible refine (world_frame_opackets _).trans ?_
    | with_reducible refine (world_frame_opackets6 _).trans ?_
    | with_reducible refine (world_frame_env_pop _).trans ?_
    | with_reducible refine (world_frame_modify_sc _ j _ (by intro; with_unfolding_all rfl)).trans ?_
    | with_reducible refine (world_frame_modify_sc _ j _ sc_frame_delayed_arp).trans ?_
    | with_reducible refine (world_frame_cookie _ j k _).trans ?_
    | with_reducible refine (world_frame_retry_later _ _ _ _ _ _).trans ?_
    | with_reducible refine (world_frame_inet6 _ hd _ _ _ _).trans ?_
    | with_reducible refine (world_frame_account _ hd _ _ _ _).trans ?_
    | dsimp only
    | split)

theorem world_frame_vhe_send_ad_all (send_ad : carp_world → Nat → Nat → carp_world)
    (h : ∀ w j k, world_frame (send_ad w j k) = world_frame w) (w : carp_world) (j : Nat) :
    world_frame (carp_vhe_send_ad_all_body send_ad w j) = world_frame w := by
  unfold carp_vhe_send_ad_all_body
  split
  · rfl
  · apply world_frame_foldl
    intro w k
    repeat' (first
      | with_reducible rfl
      | exact h _ _ _
      | split)

theorem world_frame_recur (w : carp_world) (n : Int) :
    world_frame { w with carp_send_all_recur := n } = world_frame w := rfl

theorem world_frame_send_ad_all (send_ad : carp_world → Nat → Nat → carp_world)
    (h : ∀ w j k, world_frame (send_ad w j k) = world_frame w) (w : carp_world) :
    world_frame (carp_send_ad_all_body send_ad w) = world_frame w := by
  unfold carp_send_ad_all_body
  split
  · rfl
  · dsimp only
    refine (world_frame_recur _ _).trans ?_
    refine (world_frame_foldl _ ?_ _ _).trans (world_frame_recur _ _)
    intro w ifp0
    split
    · rfl
    · apply world_frame_foldl
      intro w j
      repeat' (first
        | with_reducible rfl
        | exact world_frame_vhe_send_ad_all send_ad h _ _
        | split)

theorem world_frame_send_ad_depth (n : Nat) (w : carp_world) (j k : Nat) :
    world_frame (carp_send_ad_depth n w j k) = world_frame w := by
  induction n generalizing w j k with
  | zero => rfl
  | succ n ih =>
    exact world_frame_send_ad_body _ (fun w => world_frame_send_ad_all _ ih w) w j k

theorem world_frame_send_ad (w : carp_world) (j k : Nat) :
    world_frame (carp_send_ad w j k) = world_frame w :=
  world_frame_send_ad_depth 2 w j k

/-! ## Theorems: the receive path -/

theorem get_vhe_eq {w : carp_world} {j k : Nat} {sc : carp_softc}
    (hsc : w.softcs[j]? = some sc) : get_vhe w j k = sc.carp_vhosts[k]? := by
  simp [get_vhe, hsc]

theorem carp_proto_input_c_accepted (SHA1Final : SHA1_CTX → List Nat) (w : carp_world)
    (ifp : rcvif) (ch : carp_header) (ismulti : Bool) (af : sa_family) (j k : Nat)
    (sc : carp_softc) (vhe : carp_vhost_entry)
    (hacc : carp_input_accepted SHA1Final w ifp ch ismulti af j k sc vhe) :
    carp_proto_input_c SHA1Final w ifp ch ismulti af =
      match vhe.state with
      | carp_state.INIT => w
      | carp_state.MASTER =>
        if carp_master_yields (carp_timing sc.sc_advbase vhe.advskew)
            (carp_timing ch.carp_advbase ch.carp_advskew) ch.carp_demote
            (carp_group_demote_count w sc) = true
        then carp_setrun
          (modify_sc
            (modify_sc w j (fun sc =>
              modify_vhe sc k (fun vhe => { vhe with ad_tmo := timeout_del vhe.ad_tmo })))
            j (fun sc => carp_set_state sc k carp_state.BACKUP))
          j k sa_family.AF_UNSPEC
        else w
      | carp_state.BACKUP =>
        if w.carp_opts_preempt = true ∧
            timercmp_lt (carp_timing sc.sc_advbase vhe.advskew)
              (carp_timing ch.carp_advbase ch.carp_advskew) = true ∧
            (ch.carp_demote : Int) ≥ carp_group_demote_count w sc
        then carp_master_down w j k
        else if (ch.carp_demote : Int) > carp_group_demote_count w sc
        then carp_master_down w j k
        else if sc.sc_advbase ≠ 0 ∧
            timercmp_lt { tv_sec := sc.sc_advbase * 3
                          tv_usec := (carp_timing sc.sc_advbase vhe.advskew).tv_usec }
              (carp_timing ch.carp_advbase ch.carp_advskew) = true
        then carp_master_down w j k
        else carp_setrun w j k af := by
  obtain ⟨h0, hl, hsc, hvhe, hup, hrun, hver, hmac, hck⟩ := hacc
  have hg : get_vhe w j k = some vhe := by rw [get_vhe_eq hsc, hvhe]
  unfold carp_proto_input_c
  simp only [h0, if_false, hl, hsc, hg, hup, hrun, hver, hmac, hck, ne_eq, not_true_eq_false,
    and_self, not_false_eq_true, if_true]
  cases hs : vhe.state <;> simp [carp_timing]


theorem carp_setrun_sc_not_init (i : ifnet) (sc : carp_softc) (k : Nat) (af : sa_family)
    (vhe : carp_vhost_entry) (h : sc.carp_vhosts[k]? = some vhe)
    (hs : vhe.state ≠ carp_state.INIT) :
    carp_setrun_sc (some i) sc k af =
      if carp_setrun_ready sc vhe = true then
        match vhe.state with
        | carp_state.INIT => sc
        | carp_state.BACKUP =>
          modify_vhe
            { sc with
              sc_realmac := decide (memcmp i.ac_enaddr sc.ac_enaddr ETHER_ADDR_LEN = 0)
              if_flags_running := true
              sc_delayed_arp := if vhe.vhe_leader then -1 else sc.sc_delayed_arp }
            k (carp_setrun_backup_arm sc.sc_naddrs sc.sc_naddrs6
                (carp_setrun_backup_tv sc.sc_advbase vhe.advskew) af)
        | carp_state.MASTER =>
          modify_vhe
            { sc with
              sc_realmac := decide (memcmp i.ac_enaddr sc.ac_enaddr ETHER_ADDR_LEN = 0)
              if_flags_running := true }
            k (fun v => { v with
                ad_tmo := timeout_add_tv v.ad_tmo (carp_setrun_master_tv sc.sc_advbase vhe.advskew) })
      else
        { sc with
          sc_realmac := decide (memcmp i.ac_enaddr sc.ac_enaddr ETHER_ADDR_LEN = 0)
          if_flags_running := false } := by
  unfold carp_setrun_sc carp_setrun_body
  simp only [h]
  have hr : ∀ b : Bool, carp_setrun_ready { sc with sc_realmac := b } vhe
      = carp_setrun_ready sc vhe := fun _ => rfl
  rw [hr]
  by_cases hready : carp_setrun_ready sc vhe = true
  · simp only [hready, if_true]
    cases hst : vhe.state
    · exact absurd hst hs
    · cases hl : vhe.vhe_leader <;> simp
    · simp
  · simp only [hready]
    rfl


theorem carps_preempt_of_frame {a b : carp_world} (h : world_frame a = world_frame b) :
    a.carpstat.carps_preempt = b.carpstat.carps_preempt := by
  have : (world_frame a).carpstat.carps_preempt = (world_frame b).carpstat.carps_preempt := by
    rw [h]
  exact this

theorem carp_master_down_backup (w : carp_world) (j k : Nat) (vhe : carp_vhost_entry)
    (hg : get_vhe w j k = some vhe) (hs : vhe.state = carp_state.BACKUP) :
    carp_master_down w j k =
      carpstat_inc
        (carp_setrun
          (modify_sc
            (carp_send_ad (modify_sc w j (fun sc => carp_set_state sc k carp_state.MASTER)) j k)
            j (fun sc =>
              match sc.carp_vhosts[k]? with
              | none => sc
              | some vhe =>
                if sc.sc_balancing = CARP_BAL_NONE ∧ vhe.vhe_leader = true
                then { sc with sc_delayed_arp := 2 } else sc))
          j k sa_family.AF_UNSPEC)
        carps_counter.carps_preempt := by
  unfold carp_master_down
  simp only [hg, hs]
  rfl

theorem carp_master_down_backup_preempt (w : carp_world) (j k : Nat) (vhe : carp_vhost_entry)
    (hg : get_vhe w j k = some vhe) (hs : vhe.state = carp_state.BACKUP) :
    (carp_master_down w j k).carpstat.carps_preempt = w.carpstat.carps_preempt + 1 := by
  rw [carp_master_down_backup w j k vhe hg hs]
  show (carp_send_ad (modify_sc w j
    (fun sc => carp_set_state sc k carp_state.MASTER)) j k).carpstat.carps_preempt + 1 = _
  rw [carps_preempt_of_frame (world_frame_send_ad _ j k)]
  rfl

theorem carp_backup_takes_over_iff (w : carp_world) (sc : carp_softc) (vhe : carp_vhost_entry)
    (ch : carp_header) :
    carp_backup_takes_over w.carp_opts_preempt sc.sc_advbase vhe.advskew
        (carp_group_demote_count w sc) ch.carp_advbase ch.carp_advskew ch.carp_demote ↔
      ((w.carp_opts_preempt = true ∧
            timercmp_lt (carp_timing sc.sc_advbase vhe.advskew)
              (carp_timing ch.carp_advbase ch.carp_advskew) = true ∧
            (ch.carp_demote : Int) ≥ carp_group_demote_count w sc) ∨
        (ch.carp_demote : Int) > carp_group_demote_count w sc ∨
        (sc.sc_advbase ≠ 0 ∧
            timercmp_lt { tv_sec := sc.sc_advbase * 3
                          tv_usec := (carp_timing sc.sc_advbase vhe.advskew).tv_usec }
              (carp_timing ch.carp_advbase ch.carp_advskew) = true)) := by
  unfold carp_backup_takes_over
  rw [mul_comm sc.sc_advbase 3]

theorem carp_setrun_sc_vhosts (i : ifnet) (sc : carp_softc) (k : Nat) (af : sa_family)
    (vhe : carp_vhost_entry) (h : sc.carp_vhosts[k]? = some vhe)
    (hs : vhe.state ≠ carp_state.INIT) (k1 : Nat) :
    (carp_setrun_sc (some i) sc k af).carp_vhosts[k1]? =
      if k1 = k then some (carp_setrun_entry sc af vhe) else sc.carp_vhosts[k1]? := by
  rw [carp_setrun_sc_not_init i sc k af vhe h hs]
  unfold carp_setrun_entry
  by_cases hready : carp_setrun_ready sc vhe = true
  · simp only [hready, if_true]
    cases hst : vhe.state
    · exact absurd hst hs
    · simp only [modify_vhe, List.getElem?_modify]
      by_cases hk : k1 = k
      · subst hk; simp [h]
      · simp [hk, Ne.symm hk]
    · simp only [modify_vhe, List.getElem?_modify]
      by_cases hk : k1 = k
      · subst hk; simp [h, hst]
      · simp [hk, Ne.symm hk]
  · simp only [hready]
    by_cases hk : k1 = k
    · subst hk; simp [h]
    · simp [hk]

theorem carp_setrun_get_vhe (w : carp_world) (j k : Nat) (af : sa_family) (sc : carp_softc)
    (vhe : carp_vhost_entry) (i : ifnet) (hsc : w.softcs[j]? = some sc)
    (hv : sc.carp_vhosts[k]? = some vhe) (hs : vhe.state ≠ carp_state.INIT)
    (hi : if_get w sc.sc_carpdevidx = some i) (j1 k1 : Nat) :
    get_vhe (carp_setrun w j k af) j1 k1 =
      if j1 = j ∧ k1 = k then some (carp_setrun_entry sc af vhe) else get_vhe w j1 k1 := by
  unfold carp_setrun get_vhe modify_sc
  simp only [List.getElem?_modify]
  by_cases hj : j1 = j
  · subst hj
    simp only [hsc, if_true, Option.map_eq_map, Option.map_some', hi, true_and]
    exact carp_setrun_sc_vhosts i sc k af vhe hv hs k1
  · simp [hj, Ne.symm hj]

theorem carp_setrun_backup_arm_state (n n6 : Int) (tv : timeval) (af : sa_family)
    (vhe : carp_vhost_entry) : (carp_setrun_backup_arm n n6 tv af vhe).state = vhe.state := by
  unfold carp_setrun_backup_arm
  cases af
  · dsimp only
    split <;> split <;> rfl
  · rfl
  · rfl

theorem carp_input_backup (SHA1Final : SHA1_CTX → List Nat) (w : carp_world)
    (ifp : rcvif) (ch : carp_header) (ismulti : Bool) (af : sa_family) (j k : Nat)
    (sc : carp_softc) (vhe : carp_vhost_entry)
    (hacc : carp_input_accepted SHA1Final w ifp ch ismulti af j k sc vhe)
    (hstate : vhe.state = carp_state.BACKUP) :
    carp_proto_input_c SHA1Final w ifp ch ismulti af =
      if carp_backup_takes_over w.carp_opts_preempt sc.sc_advbase vhe.advskew
        (carp_group_demote_count w sc) ch.carp_advbase ch.carp_advskew ch.carp_demote
      then carp_master_down w j k else carp_setrun w j k af := by
  rw [carp_proto_input_c_accepted SHA1Final w ifp ch ismulti af j k sc vhe hacc, hstate]
  simp only [carp_backup_takes_over_iff]
  split_ifs <;> first | rfl | tauto

/-- C1 (BACKUP election policy of `carp_proto_input_c`): for an entry in BACKUP
that receives an authenticated, non-replayed advertisement, the call is that of
`carp_master_down` exactly when the take-over condition holds, that is (p and
local timing < peer timing and d' >= d) or d' > d or (b != 0 and (3*b,
s*1000000/256) < peer timing); the pre-emption counter `carp_master_down` bumps
goes up by one exactly then.  In every other case the call is that of
`carp_setrun(vhe, af)`: with the carrier interface present the entry stays
BACKUP, no other entry changes, and the entry itself is untouched unless the
coordinator is ready to run, in which case its advertisement timer is
cancelled and its master-down timer re-armed. -/
theorem carp_backup_election (SHA1Final : SHA1_CTX → List Nat) (w : carp_world)
    (ifp : rcvif) (ch : carp_header) (ismulti : Bool) (af : sa_family) (j k : Nat)
    (sc : carp_softc) (vhe : carp_vhost_entry)
    (hacc : carp_input_accepted SHA1Final w ifp ch ismulti af j k sc vhe)
    (hstate : vhe.state = carp_state.BACKUP) :
    (carp_backup_takes_over w.carp_opts_preempt sc.sc_advbase vhe.advskew
        (carp_group_demote_count w sc) ch.carp_advbase ch.carp_advskew ch.carp_demote →
      carp_proto_input_c SHA1Final w ifp ch ismulti af = carp_master_down w j k) ∧
    (¬ carp_backup_takes_over w.carp_opts_preempt sc.sc_advbase vhe.advskew
        (carp_group_demote_count w sc) ch.carp_advbase ch.carp_advskew ch.carp_demote →
      carp_proto_input_c SHA1Final w ifp ch ismulti af = carp_setrun w j k af) ∧
    ((carp_proto_input_c SHA1Final w ifp ch ismulti af).carpstat.carps_preempt =
        w.carpstat.carps_preempt + 1 ↔
      carp_backup_takes_over w.carp_opts_preempt sc.sc_advbase vhe.advskew
        (carp_group_demote_count w sc) ch.carp_advbase ch.carp_advskew ch.carp_demote) ∧
    (¬ carp_backup_takes_over w.carp_opts_preempt sc.sc_advbase vhe.advskew
        (carp_group_demote_count w sc) ch.carp_advbase ch.carp_advskew ch.carp_demote →
      ∀ i, if_get w sc.sc_carpdevidx = some i →
        (∃ v, get_vhe (carp_proto_input_c SHA1Final w ifp ch ismulti af) j k = some v ∧
          v.state = carp_state.BACKUP ∧
          v = if carp_setrun_ready sc vhe = true
              then carp_setrun_backup_arm sc.sc_naddrs sc.sc_naddrs6
                (carp_setrun_backup_tv sc.sc_advbase vhe.advskew) af vhe
              else vhe) ∧
        (∀ j1 k1, ¬ (j1 = j ∧ k1 = k) →
          get_vhe (carp_proto_input_c SHA1Final w ifp ch ismulti af) j1 k1 =
            get_vhe w j1 k1)) := by
  have hdisp := carp_input_backup SHA1Final w ifp ch ismulti af j k sc vhe hacc hstate
  obtain ⟨_, _, hsc, hvhe, _⟩ := hacc
  have hg : get_vhe w j k = some vhe := by rw [get_vhe_eq hsc, hvhe]
  have hne : vhe.state ≠ carp_state.INIT := by rw [hstate]; decide
  refine ⟨fun h => by rw [hdisp, if_pos h], fun h => by rw [hdisp, if_neg h], ?_, ?_⟩
  · constructor
    · intro h
      by_contra hn
      rw [hdisp, if_neg hn] at h
      have : (carp_setrun w j k af).carpstat = w.carpstat := rfl
      rw [this] at h
      omega
    · intro h
      rw [hdisp, if_pos h]
      exact carp_master_down_backup_preempt w j k vhe hg hstate
  · intro h i hi
    rw [hdisp, if_neg h]
    have hget := carp_setrun_get_vhe w j k af sc vhe i hsc hvhe hne hi
    have hent : carp_setrun_entry sc af vhe =
        if carp_setrun_ready sc vhe = true
        then carp_setrun_backup_arm sc.sc_naddrs sc.sc_naddrs6
          (carp_setrun_backup_tv sc.sc_advbase vhe.advskew) af vhe
        else vhe := by
      unfold carp_setrun_entry
      rw [hstate]
    constructor
    · refine ⟨carp_setrun_entry sc af vhe, by rw [hget]; simp, ?_, hent⟩
      rw [hent]
      split
      · rw [carp_setrun_backup_arm_state]; exact hstate
      · exact hstate
    · intro j1 k1 hjk
      rw [hget, if_neg hjk]


/-- The instance of C1 at `ex_world`: pre-emption is off and the peer advertises
base 2 against the local base 1, so the entry only re-arms its timer. -/
theorem carp_backup_election_witness :
    carp_input_accepted ex_SHA1Final ex_world ex_ifp ex_ch true sa_family.AF_INET 0 0
        ex_sc ex_vhe ∧
      ex_vhe.state = carp_state.BACKUP ∧
      carp_proto_input_c ex_SHA1Final ex_world ex_ifp ex_ch true sa_family.AF_INET =
        carp_setrun ex_world 0 0 sa_family.AF_INET :=
  ⟨by decide, by decide,
    (carp_backup_election ex_SHA1Final ex_world ex_ifp ex_ch true sa_family.AF_INET 0 0
      ex_sc ex_vhe (by decide) (by decide)).2.1 (by decide)⟩

theorem carp_update_lsmask_vhosts (sc : carp_softc) :
    (carp_update_lsmask sc).carp_vhosts = sc.carp_vhosts := by
  unfold carp_update_lsmask; split <;> rfl

theorem carp_update_lsmask_carpdevidx (sc : carp_softc) :
    (carp_update_lsmask sc).sc_carpdevidx = sc.sc_carpdevidx := by
  unfold carp_update_lsmask; split <;> rfl

theorem carp_set_state_vhosts (sc : carp_softc) (k : Nat) (st : carp_state) :
    (carp_set_state sc k st).carp_vhosts =
      sc.carp_vhosts.modify (fun v => { v with state := st }) k := by
  unfold carp_set_state
  simp only [carp_update_lsmask_vhosts]
  rfl

theorem carp_set_state_carpdevidx (sc : carp_softc) (k : Nat) (st : carp_state) :
    (carp_set_state sc k st).sc_carpdevidx = sc.sc_carpdevidx := by
  unfold carp_set_state
  simp only [carp_update_lsmask_carpdevidx]
  rfl

theorem foldl_modify_range {α : Type} (f : α → α) (l : List α) (n : Nat) :
    (List.range n).foldl (fun l k => l.modify f k) l = (l.take n).map f ++ l.drop n := by
  induction n with
  | zero => simp
  | succ n ih =>
    rw [List.range_succ, List.foldl_append, ih]
    simp only [List.foldl_cons, List.foldl_nil]
    apply List.ext_getElem?
    intro i
    simp only [List.getElem?_modify, List.getElem?_append, List.getElem?_map, List.length_map,
      List.length_take, List.getElem?_take, List.getElem?_drop]
    by_cases hn : n < l.length
    · rw [Nat.min_eq_left (Nat.le_of_lt hn), Nat.min_eq_left hn]
      by_cases h1 : i < n
      · have h2 : i < n + 1 := by omega
        have h3 : n ≠ i := by omega
        simp [h1, h2, h3]
      · by_cases h4 : i = n
        · subst h4
          simp
        · have h5 : ¬ i < n + 1 := by omega
          have h6 : n ≠ i := fun h => h4 h.symm
          simp only [h1, h5, h6, if_false]
          have e : n + 1 + (i - n.succ) = n + (i - n) := by omega
          rw [e]
          simp
    · have hl : l.length ≤ n := by omega
      rw [Nat.min_eq_right hl, Nat.min_eq_right (by omega : l.length ≤ n + 1)]
      by_cases h1 : i < l.length
      · have h3 : n ≠ i := by omega
        have h2 : i < n := by omega
        have h4 : i < n + 1 := by omega
        simp [h1, h2, h3, h4]
      · have h2 : l.length ≤ i := by omega
        simp only [h1, if_false]
        rw [List.getElem?_eq_none (by omega), List.getElem?_eq_none (by omega)]
        simp


theorem carp_set_state_all_step_vhosts (st : carp_state) (sc : carp_softc) (k : Nat) :
    (match sc.carp_vhosts[k]? with
      | none => sc
      | some vhe => if vhe.state = st then sc else carp_set_state sc k st).carp_vhosts =
      sc.carp_vhosts.modify (fun v => { v with state := st }) k := by
  cases h : sc.carp_vhosts[k]? with
  | none =>
    simp only []
    rw [List.modify_eq_self]
    exact List.getElem?_eq_none_iff.mp h
  | some vhe =>
    simp only []
    split
    · rename_i hst
      apply List.ext_getElem?
      intro i
      rw [List.getElem?_modify]
      by_cases hi : k = i
      · subst hi
        simp only [h, if_true, Option.map_eq_map, Option.map_some']
        congr 1
        cases vhe
        simp only at hst
        subst hst
        rfl
      · simp [hi]
    · exact carp_set_state_vhosts sc k st

theorem carp_set_state_all_vhosts (sc : carp_softc) (st : carp_state) :
    (carp_set_state_all sc st).carp_vhosts =
      sc.carp_vhosts.map (fun v => { v with state := st }) := by
  have hsim : ∀ (l : List Nat) (sc : carp_softc),
      (l.foldl (fun sc k =>
        match sc.carp_vhosts[k]? with
        | none => sc
        | some vhe => if vhe.state = st then sc else carp_set_state sc k st) sc).carp_vhosts =
      l.foldl (fun vs k => vs.modify (fun v => { v with state := st }) k) sc.carp_vhosts := by
    intro l
    induction l with
    | nil => intro sc; rfl
    | cons k l ih =>
      intro sc
      simp only [List.foldl_cons]
      rw [ih, carp_set_state_all_step_vhosts]
  unfold carp_set_state_all
  refine (hsim _ sc).trans ?_
  rw [foldl_modify_range]
  simp


theorem carp_setrun_sc_none (sc : carp_softc) (k : Nat) (af : sa_family)
    (vhe : carp_vhost_entry) (h : sc.carp_vhosts[k]? = some vhe) :
    carp_setrun_sc none sc k af =
      carp_set_state_all { sc with if_flags_running := false } carp_state.INIT := by
  unfold carp_setrun_sc carp_setrun_body
  simp only [h]

theorem carp_setrun_get_vhe_none (w : carp_world) (j k : Nat) (af : sa_family)
    (sc : carp_softc) (vhe : carp_vhost_entry) (hsc : w.softcs[j]? = some sc)
    (hv : sc.carp_vhosts[k]? = some vhe) (hi : if_get w sc.sc_carpdevidx = none) :
    get_vhe (carp_setrun w j k af) j k = some { vhe with state := carp_state.INIT } := by
  unfold carp_setrun get_vhe modify_sc
  simp only [List.getElem?_modify, hsc, if_true, Option.map_eq_map, Option.map_some', hi]
  rw [carp_setrun_sc_none sc k af vhe hv, carp_set_state_all_vhosts]
  simp [hv]

theorem carp_setrun_entry_state (sc : carp_softc) (af : sa_family) (vhe : carp_vhost_entry) :
    (carp_setrun_entry sc af vhe).state = vhe.state := by
  unfold carp_setrun_entry
  split
  · split
    · rfl
    · exact carp_setrun_backup_arm_state _ _ _ _ _
    · rfl
  · rfl

theorem carp_setrun_not_master (w : carp_world) (j k : Nat) (af : sa_family)
    (sc : carp_softc) (vhe : carp_vhost_entry) (hsc : w.softcs[j]? = some sc)
    (hv : sc.carp_vhosts[k]? = some vhe) (hs : vhe.state = carp_state.BACKUP)
    (v : carp_vhost_entry) (hget : get_vhe (carp_setrun w j k af) j k = some v) :
    v.state ≠ carp_state.MASTER := by
  cases hi : if_get w sc.sc_carpdevidx with
  | none =>
    rw [carp_setrun_get_vhe_none w j k af sc vhe hsc hv hi] at hget
    cases hget
    simp
  | some i =>
    have hne : vhe.state ≠ carp_state.INIT := by rw [hs]; decide
    rw [carp_setrun_get_vhe w j k af sc vhe i hsc hv hne hi] at hget
    simp only [and_self, if_true, Option.some.injEq] at hget
    rw [← hget, carp_setrun_entry_state, hs]
    decide

theorem carp_backup_faster_peer_not_down (p : Bool) (b s d : Int) (pb ps pd : Nat)
    (hb : 0 ≤ b)
    (hfast : timercmp_lt (carp_timing pb ps) (carp_timing b s) = true)
    (hd : (pd : Int) = d) :
    ¬ carp_backup_takes_over p b s d pb ps pd := by
  unfold carp_backup_takes_over
  simp only [timercmp_lt, carp_timing] at hfast ⊢
  intro h
  rcases h with ⟨_, h, _⟩ | h | ⟨hb0, h⟩
  · split_ifs at hfast h <;> simp at hfast h <;> omega
  · omega
  · split_ifs at hfast h <;> simp at hfast h <;> omega

/-- C2 (election determinism, negative half): for an entry in BACKUP with local
base interval in 0..255 and an authenticated, non-replayed advertisement whose
timing is strictly faster than the local timing and whose demotion count equals
the local group demotion count, `carp_proto_input_c` is the call of
`carp_setrun(vhe, af)`: `carp_master_down` is not invoked (the pre-emption
counter stays) and the entry is not MASTER afterwards, whatever the
pre-emption setting of the configuration. -/
theorem carp_backup_faster_peer (SHA1Final : SHA1_CTX → List Nat) (w : carp_world)
    (ifp : rcvif) (ch : carp_header) (ismulti : Bool) (af : sa_family) (j k : Nat)
    (sc : carp_softc) (vhe : carp_vhost_entry)
    (hacc : carp_input_accepted SHA1Final w ifp ch ismulti af j k sc vhe)
    (hstate : vhe.state = carp_state.BACKUP)
    (hb : 0 ≤ sc.sc_advbase ∧ sc.sc_advbase ≤ 255)
    (hfast : timercmp_lt (carp_timing ch.carp_advbase ch.carp_advskew)
      (carp_timing sc.sc_advbase vhe.advskew) = true)
    (hd : (ch.carp_demote : Int) = carp_group_demote_count w sc) :
    carp_proto_input_c SHA1Final w ifp ch ismulti af = carp_setrun w j k af ∧
    (carp_proto_input_c SHA1Final w ifp ch ismulti af).carpstat.carps_preempt =
      w.carpstat.carps_preempt ∧
    ∀ v, get_vhe (carp_proto_input_c SHA1Final w ifp ch ismulti af) j k = some v →
      v.state ≠ carp_state.MASTER := by
  have hnd := carp_backup_faster_peer_not_down w.carp_opts_preempt sc.sc_advbase vhe.advskew
    (carp_group_demote_count w sc) ch.carp_advbase ch.carp_advskew ch.carp_demote hb.1 hfast hd
  have hdisp := carp_input_backup SHA1Final w ifp ch ismulti af j k sc vhe hacc hstate
  rw [if_neg hnd] at hdisp
  obtain ⟨_, _, hsc, hvhe, _⟩ := hacc
  rw [hdisp]
  exact ⟨rfl, rfl, fun v hv => carp_setrun_not_master w j k af sc vhe hsc hvhe hstate v hv⟩


theorem softcs_of_frame {a b : carp_world} (h : world_frame a = world_frame b) (j : Nat)
    (sc : carp_softc) (hsc : b.softcs[j]? = some sc) :
    ∃ sc1, a.softcs[j]? = some sc1 ∧ sc_frame sc1 = sc_frame sc := by
  have h1 : a.softcs.map sc_frame = b.softcs.map sc_frame := by
    have : (world_frame a).softcs = (world_frame b).softcs := by rw [h]
    exact this
  have h2 : (a.softcs.map sc_frame)[j]? = (b.softcs.map sc_frame)[j]? := by rw [h1]
  simp only [List.getElem?_map, hsc, Option.map_some'] at h2
  cases ha : a.softcs[j]? with
  | none => rw [ha] at h2; simp at h2
  | some sc1 =>
    rw [ha] at h2
    simp only [Option.map_some', Option.some.injEq] at h2
    exact ⟨sc1, rfl, h2⟩

theorem vhe_of_sc_frame {a b : carp_softc} (h : sc_frame a = sc_frame b) (k : Nat)
    (v : carp_vhost_entry) (hv : b.carp_vhosts[k]? = some v) :
    ∃ v1, a.carp_vhosts[k]? = some v1 ∧ vhe_frame v1 = vhe_frame v := by
  have h1 : a.carp_vhosts.map vhe_frame = b.carp_vhosts.map vhe_frame := by
    have : (sc_frame a).carp_vhosts = (sc_frame b).carp_vhosts := by rw [h]
    exact this
  have h2 : (a.carp_vhosts.map vhe_frame)[k]? = (b.carp_vhosts.map vhe_frame)[k]? := by
    rw [h1]
  simp only [List.getElem?_map, hv, Option.map_some'] at h2
  cases ha : a.carp_vhosts[k]? with
  | none => rw [ha] at h2; simp at h2
  | some v1 =>
    rw [ha] at h2
    simp only [Option.map_some', Option.some.injEq] at h2
    exact ⟨v1, rfl, h2⟩

theorem carp_master_down_state (w : carp_world) (j k : Nat) (sc : carp_softc)
    (vhe : carp_vhost_entry) (i : ifnet) (hsc : w.softcs[j]? = some sc)
    (hv : sc.carp_vhosts[k]? = some vhe) (hs : vhe.state = carp_state.BACKUP)
    (hi : if_get w sc.sc_carpdevidx = some i) :
    ∃ v, get_vhe (carp_master_down w j k) j k = some v ∧ v.state = carp_state.MASTER := by
  have hg : get_vhe w j k = some vhe := by rw [get_vhe_eq hsc, hv]
  rw [carp_master_down_backup w j k vhe hg hs]
  -- the state after carp_set_state
  have h1 : (modify_sc w j (fun sc => carp_set_state sc k carp_state.MASTER)).softcs[j]? =
      some (carp_set_state sc k carp_state.MASTER) := by
    simp [modify_sc, List.getElem?_modify, hsc]
  have hv1 : (carp_set_state sc k carp_state.MASTER).carp_vhosts[k]? =
      some { vhe with state := carp_state.MASTER } := by
    rw [carp_set_state_vhosts]
    simp [List.getElem?_modify, hv]
  -- the state after carp_send_ad
  have hf := world_frame_send_ad
    (modify_sc w j (fun sc => carp_set_state sc k carp_state.MASTER)) j k
  obtain ⟨sc2, hsc2, hfr2⟩ := softcs_of_frame hf j _ h1
  obtain ⟨v2, hv2, hvf2⟩ := vhe_of_sc_frame hfr2 k _ hv1
  have hst2 : v2.state = carp_state.MASTER := by
    have : (vhe_frame v2).state = (vhe_frame { vhe with state := carp_state.MASTER }).state := by
      rw [hvf2]
    exact this
  have hidx2 : sc2.sc_carpdevidx = sc.sc_carpdevidx := by
    have : (sc_frame sc2).sc_carpdevidx =
        (sc_frame (carp_set_state sc k carp_state.MASTER)).sc_carpdevidx := by rw [hfr2]
    exact this.trans (carp_set_state_carpdevidx sc k _)
  -- the state after the delayed ARP is scheduled
  generalize hw2 : carp_send_ad
    (modify_sc w j (fun sc => carp_set_state sc k carp_state.MASTER)) j k = w2 at hf hsc2
  have hif2 : if_get w2 sc.sc_carpdevidx = some i := by
    rw [if_get_frame _ w2 hf]
    exact hi
  let arp : carp_softc → carp_softc := fun sc =>
    match sc.carp_vhosts[k]? with
    | none => sc
    | some vhe =>
      if sc.sc_balancing = CARP_BAL_NONE ∧ vhe.vhe_leader = true
      then { sc with sc_delayed_arp := 2 } else sc
  have harp_v : (arp sc2).carp_vhosts = sc2.carp_vhosts := by
    show (match sc2.carp_vhosts[k]? with
      | none => sc2
      | some vhe =>
        if sc2.sc_balancing = CARP_BAL_NONE ∧ vhe.vhe_leader = true
        then { sc2 with sc_delayed_arp := 2 } else sc2).carp_vhosts = _
    rw [hv2]
    dsimp only
    split <;> rfl
  have harp_i : (arp sc2).sc_carpdevidx = sc2.sc_carpdevidx := by
    show (match sc2.carp_vhosts[k]? with
      | none => sc2
      | some vhe =>
        if sc2.sc_balancing = CARP_BAL_NONE ∧ vhe.vhe_leader = true
        then { sc2 with sc_delayed_arp := 2 } else sc2).sc_carpdevidx = _
    rw [hv2]
    dsimp only
    split <;> rfl
  have h3 : (modify_sc w2 j arp).softcs[j]? = some (arp sc2) := by
    simp [modify_sc, List.getElem?_modify, hsc2]
  have hv3 : (arp sc2).carp_vhosts[k]? = some v2 := by rw [harp_v, hv2]
  have hif3 : if_get (modify_sc w2 j arp) (arp sc2).sc_carpdevidx = some i := by
    rw [harp_i, hidx2]
    exact hif2
  have hne : v2.state ≠ carp_state.INIT := by rw [hst2]; decide
  have hget := carp_setrun_get_vhe (modify_sc w2 j arp) j k sa_family.AF_UNSPEC (arp sc2) v2 i
    h3 hv3 hne hif3 j k
  refine ⟨carp_setrun_entry (arp sc2) sa_family.AF_UNSPEC v2, ?_, ?_⟩
  · show get_vhe (carp_setrun (modify_sc w2 j arp) j k sa_family.AF_UNSPEC) j k = _
    rw [hget]
    simp
  · rw [carp_setrun_entry_state, hst2]


/-- C3, amended (election determinism, positive half): for an entry in BACKUP
whose carrier interface is present and an authenticated, non-replayed
advertisement whose timing is strictly slower than the local timing and whose
demotion count is at most the local group demotion count, the entry is MASTER
after `carp_proto_input_c` exactly when pre-emption is enabled and the two
demotion counts are equal, or the local base interval is not zero and the
peer's timing is slower than (3 * base, local skew microseconds). -/
theorem carp_backup_slower_peer (SHA1Final : SHA1_CTX → List Nat) (w : carp_world)
    (ifp : rcvif) (ch : carp_header) (ismulti : Bool) (af : sa_family) (j k : Nat)
    (sc : carp_softc) (vhe : carp_vhost_entry) (i : ifnet)
    (hacc : carp_input_accepted SHA1Final w ifp ch ismulti af j k sc vhe)
    (hstate : vhe.state = carp_state.BACKUP)
    (hi : if_get w sc.sc_carpdevidx = some i)
    (hslow : timercmp_lt (carp_timing sc.sc_advbase vhe.advskew)
      (carp_timing ch.carp_advbase ch.carp_advskew) = true)
    (hd : (ch.carp_demote : Int) ≤ carp_group_demote_count w sc) :
    (∃ v, get_vhe (carp_proto_input_c SHA1Final w ifp ch ismulti af) j k = some v ∧
        v.state = carp_state.MASTER) ↔
      ((w.carp_opts_preempt = true ∧ (ch.carp_demote : Int) = carp_group_demote_count w sc) ∨
        (sc.sc_advbase ≠ 0 ∧
          timercmp_lt { tv_sec := 3 * sc.sc_advbase
                        tv_usec := (carp_timing sc.sc_advbase vhe.advskew).tv_usec }
            (carp_timing ch.carp_advbase ch.carp_advskew) = true)) := by
  have hdisp := carp_input_backup SHA1Final w ifp ch ismulti af j k sc vhe hacc hstate
  obtain ⟨_, _, hsc, hvhe, _⟩ := hacc
  have hiff : carp_backup_takes_over w.carp_opts_preempt sc.sc_advbase vhe.advskew
        (carp_group_demote_count w sc) ch.carp_advbase ch.carp_advskew ch.carp_demote ↔
      ((w.carp_opts_preempt = true ∧ (ch.carp_demote : Int) = carp_group_demote_count w sc) ∨
        (sc.sc_advbase ≠ 0 ∧
          timercmp_lt { tv_sec := 3 * sc.sc_advbase
                        tv_usec := (carp_timing sc.sc_advbase vhe.advskew).tv_usec }
            (carp_timing ch.carp_advbase ch.carp_advskew) = true)) := by
    unfold carp_backup_takes_over
    constructor
    · rintro (⟨hp, _, hge⟩ | hgt | h3)
      · exact Or.inl ⟨hp, by omega⟩
      · omega
      · exact Or.inr h3
    · rintro (⟨hp, he⟩ | h3)
      · exact Or.inl ⟨hp, hslow, by omega⟩
      · exact Or.inr (Or.inr h3)
  rw [← hiff]
  constructor
  · rintro ⟨v, hv, hm⟩
    by_contra hn
    rw [hdisp, if_neg hn] at hv
    exact carp_setrun_not_master w j k af sc vhe hsc hvhe hstate v hv hm
  · intro h
    rw [hdisp, if_pos h]
    exact carp_master_down_state w j k sc vhe i hsc hvhe hstate hi

theorem carp_master_yields_iff (w : carp_world) (sc : carp_softc) (vhe : carp_vhost_entry)
    (ch : carp_header) :
    carp_master_yields (carp_timing sc.sc_advbase vhe.advskew)
        (carp_timing ch.carp_advbase ch.carp_advskew) ch.carp_demote
        (carp_group_demote_count w sc) = true ↔
      carp_master_gives_way sc.sc_advbase vhe.advskew (carp_group_demote_count w sc)
        ch.carp_advbase ch.carp_advskew ch.carp_demote := by
  unfold carp_master_yields carp_master_gives_way
  simp only [Bool.or_eq_true, Bool.and_eq_true, decide_eq_true_eq]

/-- C4 (MASTER yield rule of `carp_proto_input_c`): for an entry in MASTER whose
carrier interface is present and an authenticated, non-replayed advertisement,
the entry ends in BACKUP with its advertisement timer cancelled iff (local
timing >= peer timing and peer demotion count <= local group demotion count) or
peer demotion count < local group demotion count; otherwise the call changes
nothing, so the entry stays MASTER with its timers untouched. -/
theorem carp_master_yield (SHA1Final : SHA1_CTX → List Nat) (w : carp_world)
    (ifp : rcvif) (ch : carp_header) (ismulti : Bool) (af : sa_family) (j k : Nat)
    (sc : carp_softc) (vhe : carp_vhost_entry) (i : ifnet)
    (hacc : carp_input_accepted SHA1Final w ifp ch ismulti af j k sc vhe)
    (hstate : vhe.state = carp_state.MASTER)
    (hi : if_get w sc.sc_carpdevidx = some i) :
    (carp_master_gives_way sc.sc_advbase vhe.advskew (carp_group_demote_count w sc)
        ch.carp_advbase ch.carp_advskew ch.carp_demote →
      ∃ v, get_vhe (carp_proto_input_c SHA1Final w ifp ch ismulti af) j k = some v ∧
        v.state = carp_state.BACKUP ∧ v.ad_tmo = none) ∧
    (¬ carp_master_gives_way sc.sc_advbase vhe.advskew (carp_group_demote_count w sc)
        ch.carp_advbase ch.carp_advskew ch.carp_demote →
      carp_proto_input_c SHA1Final w ifp ch ismulti af = w) ∧
    ((∃ v, get_vhe (carp_proto_input_c SHA1Final w ifp ch ismulti af) j k = some v ∧
        v.state = carp_state.BACKUP ∧ v.ad_tmo = none) ↔
      carp_master_gives_way sc.sc_advbase vhe.advskew (carp_group_demote_count w sc)
        ch.carp_advbase ch.carp_advskew ch.carp_demote) := by
  have hdisp := carp_proto_input_c_accepted SHA1Final w ifp ch ismulti af j k sc vhe hacc
  rw [hstate] at hdisp
  simp only [carp_master_yields_iff] at hdisp
  obtain ⟨_, _, hsc, hvhe, _⟩ := hacc
  have hyes : carp_master_gives_way sc.sc_advbase vhe.advskew (carp_group_demote_count w sc)
        ch.carp_advbase ch.carp_advskew ch.carp_demote →
      ∃ v, get_vhe (carp_proto_input_c SHA1Final w ifp ch ismulti af) j k = some v ∧
        v.state = carp_state.BACKUP ∧ v.ad_tmo = none := by
    intro h
    rw [hdisp, if_pos h]
    let sc1 := modify_vhe sc k (fun vhe => { vhe with ad_tmo := timeout_del vhe.ad_tmo })
    let sc2 := carp_set_state sc1 k carp_state.BACKUP
    let v2 : carp_vhost_entry :=
      { vhe with ad_tmo := timeout_del vhe.ad_tmo, state := carp_state.BACKUP }
    have h2 : (modify_sc (modify_sc w j (fun sc =>
          modify_vhe sc k (fun vhe => { vhe with ad_tmo := timeout_del vhe.ad_tmo })))
        j (fun sc => carp_set_state sc k carp_state.BACKUP)).softcs[j]? = some sc2 := by
      simp [modify_sc, List.getElem?_modify, hsc, sc2, sc1]
    have hv2 : sc2.carp_vhosts[k]? = some v2 := by
      show (carp_set_state sc1 k carp_state.BACKUP).carp_vhosts[k]? = _
      rw [carp_set_state_vhosts]
      simp [sc1, modify_vhe, List.getElem?_modify, hvhe, v2]
    have hidx : sc2.sc_carpdevidx = sc.sc_carpdevidx := by
      show (carp_set_state sc1 k carp_state.BACKUP).sc_carpdevidx = _
      rw [carp_set_state_carpdevidx]
      rfl
    have hne : v2.state ≠ carp_state.INIT := fun h => by cases h
    have hget := carp_setrun_get_vhe _ j k sa_family.AF_UNSPEC sc2 v2 i h2 hv2 hne
      (by rw [hidx]; exact hi) j k
    refine ⟨carp_setrun_entry sc2 sa_family.AF_UNSPEC v2, by rw [hget]; simp, ?_, ?_⟩
    · rw [carp_setrun_entry_state]
    · unfold carp_setrun_entry
      split
      · show (carp_setrun_backup_arm _ _ _ _ v2).ad_tmo = none
        unfold carp_setrun_backup_arm
        dsimp only
        split <;> split <;> rfl
      · rfl
  refine ⟨hyes, fun h => by rw [hdisp, if_neg h], ⟨?_, hyes⟩⟩
  rintro ⟨v, hv, hb, _⟩
  by_contra hn
  rw [hdisp, if_neg hn, get_vhe_eq hsc, hvhe] at hv
  cases hv
  rw [hstate] at hb
  cases hb


/-- The instance of C2 at `ex_world` and an advertisement with base interval 0. -/
theorem carp_backup_faster_peer_witness :
    carp_input_accepted ex_SHA1Final ex_world ex_ifp ex_ch_fast true sa_family.AF_INET 0 0
        ex_sc ex_vhe ∧
      timercmp_lt (carp_timing ex_ch_fast.carp_advbase ex_ch_fast.carp_advskew)
        (carp_timing ex_sc.sc_advbase ex_vhe.advskew) = true ∧
      (carp_proto_input_c ex_SHA1Final ex_world ex_ifp ex_ch_fast true
        sa_family.AF_INET).carpstat.carps_preempt = ex_world.carpstat.carps_preempt :=
  ⟨by decide, by decide,
    (carp_backup_faster_peer ex_SHA1Final ex_world ex_ifp ex_ch_fast true sa_family.AF_INET 0 0
      ex_sc ex_vhe (by decide) (by decide) (by decide) (by decide) (by decide)).2.1⟩

/-- C3 as stated fails: at `ex_world` (pre-emption off, the default) the peer of
`ex_ch` is strictly slower (base 2 against 1) with equal demotion count, the
carrier is present, and the entry is still BACKUP after the call. -/
theorem carp_backup_slower_peer_counterexample :
    carp_input_accepted ex_SHA1Final ex_world ex_ifp ex_ch true sa_family.AF_INET 0 0
        ex_sc ex_vhe ∧
      ex_vhe.state = carp_state.BACKUP ∧
      timercmp_lt (carp_timing ex_sc.sc_advbase ex_vhe.advskew)
        (carp_timing ex_ch.carp_advbase ex_ch.carp_advskew) = true ∧
      (ex_ch.carp_demote : Int) ≤ carp_group_demote_count ex_world ex_sc ∧
      if_get ex_world ex_sc.sc_carpdevidx = some ex_ifnet ∧
      (get_vhe (carp_proto_input_c ex_SHA1Final ex_world ex_ifp ex_ch true sa_family.AF_INET)
        0 0).map (fun v => v.state) = some carp_state.BACKUP := by
  decide

/-- The instance of the amended C3 at `ex_world_preempt`: with pre-emption on the
same advertisement moves the entry to MASTER. -/
theorem carp_backup_slower_peer_witness :
    carp_input_accepted ex_SHA1Final ex_world_preempt ex_ifp ex_ch true sa_family.AF_INET 0 0
        ex_sc ex_vhe ∧
      timercmp_lt (carp_timing ex_sc.sc_advbase ex_vhe.advskew)
        (carp_timing ex_ch.carp_advbase ex_ch.carp_advskew) = true ∧
      ∃ v, get_vhe (carp_proto_input_c ex_SHA1Final ex_world_preempt ex_ifp ex_ch true
          sa_family.AF_INET) 0 0 = some v ∧ v.state = carp_state.MASTER :=
  ⟨by decide, by decide,
    (carp_backup_slower_peer ex_SHA1Final ex_world_preempt ex_ifp ex_ch true sa_family.AF_INET
      0 0 ex_sc ex_vhe ex_ifnet (by decide) (by decide) (by decide) (by decide)
      (by decide)).mpr (Or.inl ⟨by decide, by decide⟩)⟩

/-- The instance of C4 at `ex_world_master` and an advertisement with the local
timing: the entry yields. -/
theorem carp_master_yield_witness :
    carp_input_accepted ex_SHA1Final ex_world_master ex_ifp ex_ch_tie true sa_family.AF_INET
        0 0 ex_sc_master ex_vhe_master ∧
      ex_vhe_master.state = carp_state.MASTER ∧
      ∃ v, get_vhe (carp_proto_input_c ex_SHA1Final ex_world_master ex_ifp ex_ch_tie true
          sa_family.AF_INET) 0 0 = some v ∧ v.state = carp_state.BACKUP ∧ v.ad_tmo = none :=
  ⟨by decide, by decide,
    (carp_master_yield ex_SHA1Final ex_world_master ex_ifp ex_ch_tie true sa_family.AF_INET
      0 0 ex_sc_master ex_vhe_master ex_ifnet (by decide) (by decide) (by decide)).1
      (by decide)⟩

theorem get_vhe_modify_sc_vhosts (w : carp_world) (j : Nat) (f : carp_softc → carp_softc)
    (hf : ∀ sc, (f sc).carp_vhosts = sc.carp_vhosts) (j1 k1 : Nat) :
    get_vhe (modify_sc w j f) j1 k1 = get_vhe w j1 k1 := by
  unfold get_vhe modify_sc
  simp only [List.getElem?_modify]
  by_cases hj : j = j1
  · subst hj
    cases h : w.softcs[j]? with
    | none => simp
    | some sc => simp [hf]
  · simp [hj]

/-- C5 (bad authentication): for an advertisement of the right version addressed
to a known vhid on an up-and-running coordinator, whatever the state of the
entry, if `carp_hmac_verify` rejects the digest then `carp_proto_input_c` bumps
`carps_badauth` by exactly one (and `if_ierrors` of the coordinator) and does
nothing else: every entry of every coordinator, state and timers included, is
as before. -/
theorem carp_input_bad_auth (SHA1Final : SHA1_CTX → List Nat) (w : carp_world)
    (ifp : rcvif) (ch : carp_header) (ismulti : Bool) (af : sa_family) (j k : Nat)
    (sc : carp_softc) (vhe : carp_vhost_entry)
    (hfound : carp_input_found w ifp ch ismulti af j k sc vhe)
    (hver : ch.carp_version = CARP_VERSION)
    (hbad : carp_hmac_verify SHA1Final vhe ch.carp_counter ch.carp_md ≠ 0) :
    carp_proto_input_c SHA1Final w ifp ch ismulti af =
        modify_sc (carpstat_inc w carps_counter.carps_badauth) j
          (fun sc => { sc with if_ierrors := sc.if_ierrors + 1 }) ∧
      (carp_proto_input_c SHA1Final w ifp ch ismulti af).carpstat.carps_badauth =
        w.carpstat.carps_badauth + 1 ∧
      ∀ j1 k1, get_vhe (carp_proto_input_c SHA1Final w ifp ch ismulti af) j1 k1 =
        get_vhe w j1 k1 := by
  obtain ⟨h0, hl, hsc, hvhe, hup, hrun⟩ := hfound
  have hg : get_vhe w j k = some vhe := by rw [get_vhe_eq hsc, hvhe]
  have heq : carp_proto_input_c SHA1Final w ifp ch ismulti af =
      modify_sc (carpstat_inc w carps_counter.carps_badauth) j
        (fun sc => { sc with if_ierrors := sc.if_ierrors + 1 }) := by
    unfold carp_proto_input_c
    simp only [h0, if_false, hl, hsc, hg, hup, hrun, hver, hbad, ne_eq, not_true_eq_false,
      and_self, not_false_eq_true, if_true]
  rw [heq]
  refine ⟨rfl, rfl, fun j1 k1 => ?_⟩
  exact get_vhe_modify_sc_vhosts _ j _ (by intro; rfl) j1 k1

/-- C6, amended (replay rejection): an advertisement of the right version for a
known vhid on an up-and-running coordinator whose digest verifies and whose
64-bit counter equals the entry's own replay cookie (`vhe_replay_cookie`, the
counter `carp_prepare_ad` writes into the advertisements the entry sends) is
rejected: every entry of every coordinator is as before; `carps_badauth` goes
up by one when the carrier interface is present and has `IFF_SIMPLEX` set and
stays otherwise. -/
theorem carp_input_own_cookie (SHA1Final : SHA1_CTX → List Nat) (w : carp_world)
    (ifp : rcvif) (ch : carp_header) (ismulti : Bool) (af : sa_family) (j k : Nat)
    (sc : carp_softc) (vhe : carp_vhost_entry)
    (hfound : carp_input_found w ifp ch ismulti af j k sc vhe)
    (hver : ch.carp_version = CARP_VERSION)
    (hok : carp_hmac_verify SHA1Final vhe ch.carp_counter ch.carp_md = 0)
    (hreplay : vhe.vhe_replay_cookie = ch.carp_counter) :
    (∀ j1 k1, get_vhe (carp_proto_input_c SHA1Final w ifp ch ismulti af) j1 k1 =
        get_vhe w j1 k1) ∧
      (carp_proto_input_c SHA1Final w ifp ch ismulti af).carpstat.carps_badauth =
        w.carpstat.carps_badauth +
          (if (if_get w sc.sc_carpdevidx).any (fun ifp2 => ifp2.if_flags_simplex) then 1
           else 0) := by
  obtain ⟨h0, hl, hsc, hvhe, hup, hrun⟩ := hfound
  have hg : get_vhe w j k = some vhe := by rw [get_vhe_eq hsc, hvhe]
  have heq : carp_proto_input_c SHA1Final w ifp ch ismulti af =
      match if_get w sc.sc_carpdevidx with
      | none => w
      | some ifp2 =>
        if ifp2.if_flags_simplex = true then
          modify_sc (carpstat_inc w carps_counter.carps_badauth) j
            (fun sc => { sc with if_ierrors := sc.if_ierrors + 1 })
        else w := by
    unfold carp_proto_input_c
    simp only [h0, if_false, hl, hsc, hg, hup, hrun, hver, hok, hreplay, ne_eq,
      not_true_eq_false, and_self, not_false_eq_true, if_true]
  rw [heq]
  cases hi : if_get w sc.sc_carpdevidx with
  | none => simp
  | some ifp2 =>
    cases hs : ifp2.if_flags_simplex with
    | false => simp [hs]
    | true =>
      simp only [hs, if_true, Option.any_some]
      exact ⟨fun j1 k1 => get_vhe_modify_sc_vhosts _ j _ (by intro; rfl) j1 k1, rfl⟩


/-- The instance of C5 at `ex_world` and the advertisement `ex_ch_bad`. -/
theorem carp_input_bad_auth_witness :
    carp_input_found ex_world ex_ifp ex_ch_bad true sa_family.AF_INET 0 0 ex_sc ex_vhe ∧
      carp_hmac_verify ex_SHA1Final ex_vhe ex_ch_bad.carp_counter ex_ch_bad.carp_md ≠ 0 ∧
      (carp_proto_input_c ex_SHA1Final ex_world ex_ifp ex_ch_bad true
        sa_family.AF_INET).carpstat.carps_badauth = ex_world.carpstat.carps_badauth + 1 :=
  ⟨by decide, by decide,
    (carp_input_bad_auth ex_SHA1Final ex_world ex_ifp ex_ch_bad true sa_family.AF_INET 0 0
      ex_sc ex_vhe (by decide) (by decide) (by decide)).2.1⟩

/-- C6 as stated fails: at `ex_world6` the advertisement `ex_ch_tie` (counter 9,
valid digest) is accepted and turns the MASTER entry into BACKUP with `md_tmo`
not pending; delivered again next, with the same counter, it is not rejected:
it arms `md_tmo`, and `carps_badauth` does not move. -/
theorem carp_input_replay_counterexample :
    carp_input_accepted ex_SHA1Final ex_world6 ex_ifp ex_ch_tie true sa_family.AF_INET 0 0
        ex_sc6 ex_vhe_master ∧
      carp_hmac_verify ex_SHA1Final ex_vhe_master ex_ch_tie.carp_counter ex_ch_tie.carp_md = 0 ∧
      (get_vhe (carp_proto_input_c ex_SHA1Final ex_world6 ex_ifp ex_ch_tie true
          sa_family.AF_INET) 0 0).map (fun v => (v.state, v.md_tmo)) =
        some (carp_state.BACKUP, none) ∧
      (get_vhe (carp_proto_input_c ex_SHA1Final
          (carp_proto_input_c ex_SHA1Final ex_world6 ex_ifp ex_ch_tie true sa_family.AF_INET)
          ex_ifp ex_ch_tie true sa_family.AF_INET) 0 0).map (fun v => (v.state, v.md_tmo)) =
        some (carp_state.BACKUP, some { tv_sec := 3, tv_usec := 0 }) ∧
      (carp_proto_input_c ex_SHA1Final
          (carp_proto_input_c ex_SHA1Final ex_world6 ex_ifp ex_ch_tie true sa_family.AF_INET)
          ex_ifp ex_ch_tie true sa_family.AF_INET).carpstat.carps_badauth =
        (carp_proto_input_c ex_SHA1Final ex_world6 ex_ifp ex_ch_tie true
          sa_family.AF_INET).carpstat.carps_badauth := by
  decide

/-- The instance of the amended C6 at `ex_world` and the advertisement
`ex_ch_own`. -/
theorem carp_input_own_cookie_witness :
    carp_input_found ex_world ex_ifp ex_ch_own true sa_family.AF_INET 0 0 ex_sc ex_vhe ∧
      ex_vhe.vhe_replay_cookie = ex_ch_own.carp_counter ∧
      (carp_proto_input_c ex_SHA1Final ex_world ex_ifp ex_ch_own true
        sa_family.AF_INET).carpstat.carps_badauth = ex_world.carpstat.carps_badauth + 1 :=
  ⟨by decide, by decide,
    (carp_input_own_cookie ex_SHA1Final ex_world ex_ifp ex_ch_own true sa_family.AF_INET 0 0
      ex_sc ex_vhe (by decide) (by decide) (by decide) (by decide)).2⟩

/-! ## Theorems: the selection loop -/

section SelectTheorems

variable {α : Type} (lt : α → α → Bool) (cand : ifaddr → Option α) (W : α → Prop)

theorem select_fold_spec (ho : select_order lt W) (last : α) :
    ∀ (l : List ifaddr) (st : α × Nat), W st.1 →
      (∀ ifa ∈ l, ∀ x, cand ifa = some x → W x) →
      let r := l.foldl (select_step lt cand last) st
      W r.1 ∧
      (r = st ∨ (st.2 < r.2 ∧ (∃ ifa ∈ l, cand ifa = some r.1) ∧ lt last r.1 = true ∧
        lt r.1 st.1 = true)) ∧
      (∀ ifa ∈ l, ∀ x, cand ifa = some x → lt last x = true → lt x st.1 = true →
        lt x r.1 = false) := by
  intro l
  induction l with
  | nil =>
    intro st hst _
    exact ⟨hst, Or.inl rfl, fun ifa h => absurd h (List.not_mem_nil _)⟩
  | cons a l ih =>
    intro st hst hW
    simp only [List.foldl_cons]
    have hWl : ∀ ifa ∈ l, ∀ x, cand ifa = some x → W x :=
      fun ifa h => hW ifa (List.mem_cons_of_mem _ h)
    -- the step on `a`
    cases hc : cand a with
    | none =>
      have hstep : select_step lt cand last st a = st := by simp [select_step, hc]
      rw [hstep]
      obtain ⟨h1, h2, h3⟩ := ih st hst hWl
      refine ⟨h1, ?_, ?_⟩
      · rcases h2 with h2 | ⟨h2a, ⟨ifa, hm, hca⟩, h2c, h2d⟩
        · exact Or.inl h2
        · exact Or.inr ⟨h2a, ⟨ifa, List.mem_cons_of_mem _ hm, hca⟩, h2c, h2d⟩
      · intro ifa hm x hx
        rcases List.mem_cons.mp hm with rfl | hm
        · rw [hc] at hx; cases hx
        · exact h3 ifa hm x hx
    | some x0 =>
      have hx0 : W x0 := hW a (List.mem_cons_self _ _) x0 hc
      by_cases htake : lt last x0 = true ∧ lt x0 st.1 = true
      · have hstep : select_step lt cand last st a = (x0, st.2 + 1) := by
          simp [select_step, hc, htake]
        rw [hstep]
        obtain ⟨h1, h2, h3⟩ := ih (x0, st.2 + 1) hx0 hWl
        have hle : (l.foldl (select_step lt cand last) (x0, st.2 + 1)).1 = x0 ∨
            lt (l.foldl (select_step lt cand last) (x0, st.2 + 1)).1 x0 = true := by
          rcases h2 with h2 | ⟨_, _, _, h2d⟩
          · left; rw [h2]
          · right; exact h2d
        refine ⟨h1, Or.inr ?_, ?_⟩
        · rcases h2 with h2 | ⟨h2a, ⟨ifa, hm, hca⟩, h2c, h2d⟩
          · rw [h2]
            exact ⟨Nat.lt_succ_self _, ⟨a, List.mem_cons_self _ _, hc⟩, htake.1, htake.2⟩
          · exact ⟨by simp only at h2a; omega, ⟨ifa, List.mem_cons_of_mem _ hm, hca⟩, h2c,
              ho.trans _ _ _ h1 hx0 hst h2d htake.2⟩
        · intro ifa hm x hx hlx hxs
          have hWx : W x := hW ifa hm x hx
          -- no value below the final one
          by_cases hxx0 : lt x x0 = true
          · rcases List.mem_cons.mp hm with rfl | hm
            · rw [hc] at hx; cases hx
              rw [ho.irrefl x0 hx0] at hxx0; cases hxx0
            · exact h3 ifa hm x hx hlx hxx0
          · cases hf : lt x (l.foldl (select_step lt cand last) (x0, st.2 + 1)).1 with
            | false => rfl
            | true =>
              exfalso
              rcases hle with hle | hle
              · rw [hle] at hf; exact hxx0 hf
              · exact hxx0 (ho.trans _ _ _ hWx h1 hx0 hf hle)
      · have hstep : select_step lt cand last st a = st := by
          simp only [select_step, hc]
          rw [if_neg htake]
        rw [hstep]
        obtain ⟨h1, h2, h3⟩ := ih st hst hWl
        refine ⟨h1, ?_, ?_⟩
        · rcases h2 with h2 | ⟨h2a, ⟨ifa, hm, hca⟩, h2c, h2d⟩
          · exact Or.inl h2
          · exact Or.inr ⟨h2a, ⟨ifa, List.mem_cons_of_mem _ hm, hca⟩, h2c, h2d⟩
        · intro ifa hm x hx hlx hxs
          rcases List.mem_cons.mp hm with rfl | hm
          · rw [hc] at hx; cases hx
            exact absurd ⟨hlx, hxs⟩ htake
          · exact h3 ifa hm x hx hlx hxs


theorem select_pass_spec (ho : select_order lt W) (top last : α) (htop : W top)
    (addrs : List ifaddr) (hW : ∀ ifa ∈ addrs, ∀ x, cand ifa = some x → W x) :
    W (select_pass lt cand top last addrs).1 ∧
    ((select_pass lt cand top last addrs).2 = 0 →
      (select_pass lt cand top last addrs).1 = top ∧
      ∀ ifa ∈ addrs, ∀ x, cand ifa = some x → ¬ (lt last x = true ∧ lt x top = true)) ∧
    ((select_pass lt cand top last addrs).2 ≠ 0 →
      (∃ ifa ∈ addrs, cand ifa = some (select_pass lt cand top last addrs).1) ∧
      lt last (select_pass lt cand top last addrs).1 = true ∧
      lt (select_pass lt cand top last addrs).1 top = true ∧
      ∀ ifa ∈ addrs, ∀ x, cand ifa = some x → lt last x = true → lt x top = true →
        lt x (select_pass lt cand top last addrs).1 = false) := by
  obtain ⟨h1, h2, h3⟩ := select_fold_spec lt cand W ho last addrs (top, 0) htop hW
  refine ⟨h1, ?_, ?_⟩
  · intro h0
    rcases h2 with h2 | ⟨h2a, _⟩
    · have e : (select_pass lt cand top last addrs).1 = top := by
        show (List.foldl (select_step lt cand last) (top, 0) addrs).1 = top
        rw [h2]
      refine ⟨e, ?_⟩
      intro ifa hm x hx ⟨hlx, hxt⟩
      have := h3 ifa hm x hx hlx hxt
      have e2 : (List.foldl (select_step lt cand last) (top, 0) addrs).1 = top := by rw [h2]
      rw [e2, hxt] at this
      cases this
    · exact absurd h0 (by
        show (List.foldl (select_step lt cand last) (top, 0) addrs).2 ≠ 0
        simp only at h2a
        omega)
  · intro hne
    rcases h2 with h2 | ⟨_, h2b, h2c, h2d⟩
    · exact absurd (by
        show (List.foldl (select_step lt cand last) (top, 0) addrs).2 = 0
        rw [h2]) hne
    · exact ⟨h2b, h2c, h2d, h3⟩

theorem countP_lt_countP {β : Type} (p q : β → Bool) (l : List β)
    (himp : ∀ x ∈ l, p x = true → q x = true)
    (hex : ∃ x ∈ l, q x = true ∧ p x = false) : l.countP p < l.countP q := by
  induction l with
  | nil => obtain ⟨x, hx, _⟩ := hex; cases hx
  | cons a l ih =>
    have hle : l.countP p ≤ l.countP q := by
      apply List.countP_mono_left
      intro x hx hp
      exact himp x (List.mem_cons_of_mem _ hx) hp
    obtain ⟨x, hx, hq, hp⟩ := hex
    rw [List.countP_cons, List.countP_cons]
    rcases List.mem_cons.mp hx with rfl | hx
    · simp only [hq, hp, if_true]
      simp only [Bool.false_eq_true, if_false]
      omega
    · have hlt := ih (fun y hy => himp y (List.mem_cons_of_mem _ hy)) ⟨x, hx, hq, hp⟩
      by_cases hpa : p a = true
      · have hqa := himp a (List.mem_cons_self _ _) hpa
        simp only [hpa, hqa, if_true]
        omega
      · have hpa2 : p a = false := by cases h : p a <;> simp_all
        by_cases hqa : q a = true
        · simp only [hpa2, hqa, if_true, Bool.false_eq_true, if_false]
          omega
        · simp only [hpa2, hqa, Bool.false_eq_true, if_false]
          omega

theorem select_count_lt (ho : select_order lt W) (top last : α) (htop : W top) (hlast : W last)
    (addrs : List ifaddr) (hW : ∀ ifa ∈ addrs, ∀ x, cand ifa = some x → W x)
    (hne : (select_pass lt cand top last addrs).2 ≠ 0) :
    select_count lt cand top (select_pass lt cand top last addrs).1 addrs <
      select_count lt cand top last addrs := by
  obtain ⟨hWr, _, h2⟩ := select_pass_spec lt cand W ho top last htop addrs hW
  obtain ⟨⟨ifa, hm, hca⟩, hlr, hrt, _⟩ := h2 hne
  unfold select_count
  apply countP_lt_countP
  · intro b hb hp
    cases hcb : cand b with
    | none => rw [hcb] at hp; cases hp
    | some x =>
      rw [hcb] at hp
      simp only [Bool.and_eq_true] at hp ⊢
      exact ⟨ho.trans _ _ _ hlast hWr (hW b hb x hcb) hlr hp.1, hp.2⟩
  · refine ⟨ifa, hm, ?_, ?_⟩
    · simp only [hca, Bool.and_eq_true]
      exact ⟨hlr, hrt⟩
    · simp only [hca, ho.irrefl _ hWr, Bool.false_and]


theorem select_count_le (top last : α) (addrs : List ifaddr) :
    select_count lt cand top last addrs ≤ addrs.length := by
  unfold select_count
  exact List.countP_le_length _

theorem select_loop_eq (ho : select_order lt W) (top : α) (htop : W top)
    (upd : SHA1_CTX → α → SHA1_CTX) (addrs : List ifaddr)
    (hW : ∀ ifa ∈ addrs, ∀ x, cand ifa = some x → W x) :
    ∀ (fuel : Nat) (last : α) (c : SHA1_CTX), W last →
      select_count lt cand top last addrs < fuel →
      select_loop lt cand top upd fuel last addrs c =
        some ((select_list lt cand top fuel last addrs).foldl upd c) := by
  intro fuel
  induction fuel with
  | zero => intro last c _ h; omega
  | succ fuel ih =>
    intro last c hlast hcnt
    unfold select_loop select_list
    by_cases hne : (select_pass lt cand top last addrs).2 ≠ 0
    · rw [if_pos hne, if_pos hne, List.foldl_cons]
      have hlt := select_count_lt lt cand W ho top last htop hlast addrs hW hne
      exact ih _ _ (select_pass_spec lt cand W ho top last htop addrs hW).1 (by omega)
    · rw [if_neg hne, if_neg hne, List.foldl_nil]

theorem select_list_spec (ho : select_order lt W) (top : α) (htop : W top)
    (addrs : List ifaddr) (hW : ∀ ifa ∈ addrs, ∀ x, cand ifa = some x → W x) :
    ∀ (fuel : Nat) (last : α), W last →
      select_count lt cand top last addrs < fuel →
      (select_list lt cand top fuel last addrs).Pairwise (fun x y => lt x y = true) ∧
      ∀ x, x ∈ select_list lt cand top fuel last addrs ↔
        ((∃ ifa ∈ addrs, cand ifa = some x) ∧ lt last x = true ∧ lt x top = true) := by
  intro fuel
  induction fuel with
  | zero => intro last _ h; omega
  | succ fuel ih =>
    intro last hlast hcnt
    obtain ⟨hWr, h0, h1⟩ := select_pass_spec lt cand W ho top last htop addrs hW
    unfold select_list
    by_cases hne : (select_pass lt cand top last addrs).2 ≠ 0
    · rw [if_pos hne]
      obtain ⟨hmem, hlr, hrt, hmin⟩ := h1 hne
      have hlt := select_count_lt lt cand W ho top last htop hlast addrs hW hne
      obtain ⟨ihp, ihm⟩ := ih _ hWr (by omega)
      constructor
      · rw [List.pairwise_cons]
        exact ⟨fun y hy => ((ihm y).mp hy).2.1, ihp⟩
      · intro x
        rw [List.mem_cons, ihm]
        constructor
        · rintro (rfl | ⟨hx, hrx, hxt⟩)
          · exact ⟨hmem, hlr, hrt⟩
          · obtain ⟨ifa, hm, hc⟩ := hx
            exact ⟨⟨ifa, hm, hc⟩, ho.trans _ _ _ hlast hWr (hW ifa hm x hc) hlr hrx, hxt⟩
        · rintro ⟨⟨ifa, hm, hc⟩, hlx, hxt⟩
          have hWx := hW ifa hm x hc
          rcases ho.tri x _ hWx hWr with h | h | h
          · rw [hmin ifa hm x hc hlx hxt] at h; cases h
          · exact Or.inl h
          · exact Or.inr ⟨⟨ifa, hm, hc⟩, h, hxt⟩
    · rw [if_neg hne]
      simp only [List.Pairwise.nil, List.not_mem_nil, false_iff, true_and]
      intro x ⟨⟨ifa, hm, hc⟩, hlx, hxt⟩
      exact (h0 (by simpa using hne)).2 ifa hm x hc ⟨hlx, hxt⟩

end SelectTheorems

/-! ## Theorems: the keyed-hash authenticator -/

theorem inet_order : select_order inet_lt (fun _ => True) where
  irrefl := by intro x _; simp [inet_lt]
  trans := by
    intro x y z _ _ _ h1 h2
    simp only [inet_lt, decide_eq_true_eq] at *
    omega
  tri := by
    intro x y _ _
    simp only [inet_lt, decide_eq_true_eq]
    omega

theorem carp_hmac_inet_step_eq (last : Nat) (st : Nat × Nat) (ifa : ifaddr) :
    carp_hmac_inet_step last st ifa = select_step inet_lt inet_cand last st ifa := by
  cases ifa <;> simp [carp_hmac_inet_step, select_step, inet_cand, inet_lt]

theorem carp_hmac_inet_pass_eq (last : Nat) (addrs : List ifaddr) :
    carp_hmac_inet_pass last addrs = select_pass inet_lt inet_cand 4294967295 last addrs := by
  unfold carp_hmac_inet_pass select_pass
  congr 1
  funext st ifa
  exact carp_hmac_inet_step_eq last st ifa

theorem carp_hmac_inet_loop_eq (fuel cur : Nat) (addrs : List ifaddr) (c : SHA1_CTX) :
    carp_hmac_inet_loop fuel cur addrs c =
      select_loop inet_lt inet_cand 4294967295
        (fun c a => SHA1Update c (in_addr_bytes a)) fuel cur addrs c := by
  induction fuel generalizing cur c with
  | zero => rfl
  | succ fuel ih =>
    unfold carp_hmac_inet_loop select_loop
    simp only [carp_hmac_inet_pass_eq, ih]

theorem inet_cand_some (ifa : ifaddr) (a : Nat) : inet_cand ifa = some a ↔ ifa = ifaddr.inet a := by
  cases ifa <;> simp [inet_cand]

/-- C8, amended (canonical address order): for every list of owned addresses the
IPv4 selection loop of `carp_hmac_prepare_ctx` ends within one pass per address
plus one, and the sequence of addresses it mixes into the context is strictly
ascending in host byte order and holds exactly the owned IPv4 addresses other
than 0.0.0.0 and 255.255.255.255, each once. -/
theorem carp_hmac_inet_canonical (addrs : List ifaddr) (c : SHA1_CTX) :
    ∃ sel : List Nat,
      carp_hmac_inet_loop (addrs.length + 1) 0 addrs c =
        some (sel.foldl (fun c a => SHA1Update c (in_addr_bytes a)) c) ∧
      sel.Pairwise (fun a b => a < b) ∧
      ∀ a, a ∈ sel ↔ (ifaddr.inet a ∈ addrs ∧ 0 < a ∧ a < 4294967295) := by
  have hW : ∀ ifa ∈ addrs, ∀ x, inet_cand ifa = some x → (fun _ : Nat => True) x :=
    fun _ _ _ _ => trivial
  have hcnt : select_count inet_lt inet_cand 4294967295 0 addrs < addrs.length + 1 :=
    Nat.lt_succ_of_le (select_count_le inet_lt inet_cand 4294967295 0 addrs)
  refine ⟨select_list inet_lt inet_cand 4294967295 (addrs.length + 1) 0 addrs, ?_, ?_, ?_⟩
  · rw [carp_hmac_inet_loop_eq]
    exact select_loop_eq inet_lt inet_cand _ inet_order 4294967295 trivial _ addrs hW _ 0 c
      trivial hcnt
  · have h := (select_list_spec inet_lt inet_cand _ inet_order 4294967295 trivial addrs hW
      (addrs.length + 1) 0 trivial hcnt).1
    refine h.imp ?_
    intro a b hab
    simpa [inet_lt] using hab
  · intro a
    rw [(select_list_spec inet_lt inet_cand _ inet_order 4294967295 trivial addrs hW
      (addrs.length + 1) 0 trivial hcnt).2 a]
    simp only [inet_cand_some, inet_lt, decide_eq_true_eq]
    constructor
    · rintro ⟨⟨ifa, hm, rfl⟩, h1, h2⟩
      exact ⟨hm, h1, h2⟩
    · rintro ⟨hm, h1, h2⟩
      exact ⟨⟨_, hm, rfl⟩, h1, h2⟩

theorem inet_fold_length (sel : List Nat) (c : SHA1_CTX) :
    (sel.foldl (fun c a => SHA1Update c (in_addr_bytes a)) c).length =
      c.length + 4 * sel.length := by
  induction sel generalizing c with
  | nil => simp
  | cons a sel ih =>
    rw [List.foldl_cons, ih]
    simp only [SHA1Update, in_addr_bytes, List.length_append, List.length_cons,
      List.length_nil]
    omega

/-- C8 as stated fails: when the one owned address is 0.0.0.0 the loop mixes
nothing into the context, so no sequence that contains every owned address is
the one it mixes. -/
theorem carp_hmac_inet_canonical_counterexample :
    ¬ ∃ sel : List Nat,
      carp_hmac_inet_loop ([ifaddr.inet 0].length + 1) 0 [ifaddr.inet 0] [] =
        some (sel.foldl (fun c a => SHA1Update c (in_addr_bytes a)) []) ∧
      sel.Pairwise (fun a b => a < b) ∧
      ∀ a, a ∈ sel ↔ ifaddr.inet a ∈ [ifaddr.inet 0] := by
  rintro ⟨sel, h1, _, h3⟩
  have hloop : carp_hmac_inet_loop ([ifaddr.inet 0].length + 1) 0 [ifaddr.inet 0] [] =
      some [] := by decide
  rw [hloop] at h1
  have hlen := inet_fold_length sel []
  have h0 : (0 : Nat) ∈ sel := (h3 0).mpr (List.mem_singleton.mpr rfl)
  have hpos : 0 < sel.length := List.length_pos_of_mem h0
  have e : sel.foldl (fun c a => SHA1Update c (in_addr_bytes a)) [] = [] :=
    (Option.some.inj h1).symm
  rw [e] at hlen
  simp only [List.length_nil] at hlen
  omega


theorem carp_hmac_generate_md (SHA1Final : SHA1_CTX → List Nat) (vhe : carp_vhost_entry)
    (counter : Nat) (md md2 : List Nat) (ctx : Nat) (h : ctx < HMAC_MAX) :
    carp_hmac_generate SHA1Final vhe counter md ctx =
      carp_hmac_generate SHA1Final vhe counter md2 ctx := by
  unfold carp_hmac_generate
  rw [if_neg (by omega), if_neg (by omega)]

theorem carp_hmac_verify_eq (SHA1Final : SHA1_CTX → List Nat) (vhe : carp_vhost_entry)
    (counter : Nat) (md : List Nat) :
    carp_hmac_verify SHA1Final vhe counter md =
      if md.take 20 = (carp_hmac_generate SHA1Final vhe counter [] HMAC_ORIG).take 20 then 0
      else if md.take 20 = (carp_hmac_generate SHA1Final vhe counter [] HMAC_NOV6LL).take 20
      then 0 else 1 := by
  unfold carp_hmac_verify
  simp only [HMAC_MAX, carp_hmac_verify_from, timingsafe_bcmp, HMAC_ORIG, HMAC_NOV6LL]
  rw [carp_hmac_generate_md SHA1Final vhe counter
    (carp_hmac_generate SHA1Final vhe counter [] 0) [] (0 + 1) (by decide)]
  split_ifs <;> simp_all

/-- C9: `carp_hmac_verify` returns 0 iff the received digest agrees, over its 20
bytes, with the digest `carp_hmac_generate` computes over the received counter
from the context that includes link-local addresses or from the one that
excludes them, and returns 1 otherwise; the digest `carp_prepare_ad` writes is
accepted by every entry that holds the same two contexts and pad. -/
theorem carp_hmac_verify_accepts (SHA1Final : SHA1_CTX → List Nat) (vhe : carp_vhost_entry)
    (counter : Nat) (md : List Nat) :
    (carp_hmac_verify SHA1Final vhe counter md = 0 ↔
      (md.take 20 = (carp_hmac_generate SHA1Final vhe counter [] HMAC_ORIG).take 20 ∨
        md.take 20 = (carp_hmac_generate SHA1Final vhe counter [] HMAC_NOV6LL).take 20)) ∧
    (carp_hmac_verify SHA1Final vhe counter md ≠ 0 →
      carp_hmac_verify SHA1Final vhe counter md = 1) ∧
    ∀ (v2 : carp_vhost_entry) (ch : carp_header) (rnd : Nat),
      carp_hmac_verify SHA1Final { v2 with vhe_sha1 := vhe.vhe_sha1, vhe_pad := vhe.vhe_pad }
        (carp_prepare_ad SHA1Final vhe ch rnd).2.carp_counter
        (carp_prepare_ad SHA1Final vhe ch rnd).2.carp_md = 0 := by
  refine ⟨?_, ?_, ?_⟩
  · rw [carp_hmac_verify_eq]
    split_ifs <;> simp_all
  · rw [carp_hmac_verify_eq]
    split_ifs <;> simp_all
  · intro v2 ch rnd
    rw [carp_hmac_verify_eq]
    have e : (carp_prepare_ad SHA1Final vhe ch rnd).2.carp_md =
        carp_hmac_generate SHA1Final
          { v2 with vhe_sha1 := vhe.vhe_sha1, vhe_pad := vhe.vhe_pad }
          (carp_prepare_ad SHA1Final vhe ch rnd).2.carp_counter [] HMAC_NOV6LL := by
      unfold carp_prepare_ad carp_prepare_ad_cookie
      have hlt : ¬ HMAC_NOV6LL ≥ HMAC_MAX := by decide
      by_cases h0 : vhe.vhe_replay_cookie = 0
      · simp only [h0, if_true]
        unfold carp_hmac_generate
        rw [if_neg hlt, if_neg hlt]
      · simp only [h0, if_false]
        unfold carp_hmac_generate
        rw [if_neg hlt, if_neg hlt]
    rw [e]
    split_ifs <;> simp_all

theorem carp_update_lsmask_loop_spec (l : List carp_vhost_entry) :
    ∀ (mask : Nat) (count : Int), 0 ≤ count → count + l.length ≤ INT_MAX →
      (carp_update_lsmask_loop l mask count).2 = count + l.length ∧
      ∀ i : Nat, (carp_update_lsmask_loop l mask count).1.testBit i =
        (mask.testBit i ||
          (decide (count ≤ i ∧ i < 32) &&
            ((l[i - count.toNat]?).any (fun v => decide (v.state = carp_state.MASTER))))) := by
  induction l with
  | nil =>
    intro mask count _ _
    simp [carp_update_lsmask_loop]
  | cons v l ih =>
    intro mask count h0 hmax
    have hlen : ((v :: l).length : Int) = (l.length : Int) + 1 := by simp
    have hne : count ≠ INT_MAX := by unfold INT_MAX at *; omega
    unfold carp_update_lsmask_loop
    simp only [hne, if_false]
    obtain ⟨ih1, ih2⟩ := ih
      (if v.state = carp_state.MASTER ∧ count < 32 ∧ count ≥ 0
        then mask ||| (1 <<< count.toNat) else mask)
      (count + 1) (by omega) (by omega)
    refine ⟨by rw [ih1]; omega, ?_⟩
    intro i
    rw [ih2 i]
    have hc : (count.toNat : Int) = count := Int.toNat_of_nonneg h0
    by_cases hi : (i : Int) = count
    · -- the bit of this entry
      have hi2 : i = count.toNat := by omega
      have e1 : i - count.toNat = 0 := by omega
      have e2 : ¬ (count + 1 ≤ (i : Int) ∧ i < 32) := by omega
      simp only [e1, e2, decide_False, Bool.false_and, Bool.or_false, List.getElem?_cons_zero,
        Option.any_some]
      by_cases hm : v.state = carp_state.MASTER
      · by_cases h32 : i < 32
        · have hcond : v.state = carp_state.MASTER ∧ count < 32 ∧ count ≥ 0 :=
            ⟨hm, by omega, h0⟩
          have hcond2 : (count ≤ (i : Int) ∧ i < 32) := ⟨by omega, h32⟩
          simp only [hcond, and_self, if_true, hcond2, decide_True, Bool.true_and, hm,
            Nat.testBit_or, Nat.one_shiftLeft, Nat.testBit_two_pow, hi2]
          simp
          right; omega
        · have hcond : ¬ (v.state = carp_state.MASTER ∧ count < 32 ∧ count ≥ 0) := by omega
          have hcond2 : ¬ (count ≤ (i : Int) ∧ i < 32) := by omega
          simp only [hcond, if_false, hcond2, decide_False, Bool.false_and, Bool.or_false]
      · have hcond : ¬ (v.state = carp_state.MASTER ∧ count < 32 ∧ count ≥ 0) :=
          fun h => hm h.1
        rw [if_neg hcond]
        simp [hm]
    · -- another bit
      have hbit : (if v.state = carp_state.MASTER ∧ count < 32 ∧ count ≥ 0
          then mask ||| (1 <<< count.toNat) else mask).testBit i = mask.testBit i := by
        split
        · have hne2 : count.toNat ≠ i := by omega
          simp [Nat.testBit_or, Nat.one_shiftLeft, Nat.testBit_two_pow, hne2]
        · rfl
      rw [hbit]
      by_cases hlt : count ≤ (i : Int)
      · have hgt : count + 1 ≤ (i : Int) := by omega
        have e1 : i - count.toNat = (i - (count + 1).toNat) + 1 := by omega
        rw [e1, List.getElem?_cons_succ]
        have e3 : (count + 1 ≤ (i : Int) ∧ i < 32) = (count ≤ (i : Int) ∧ i < 32) := by
          apply propext; constructor <;> intro h <;> omega
        simp only [e3]
      · have e2 : ¬ (count + 1 ≤ (i : Int) ∧ i < 32) := by omega
        have e3 : ¬ (count ≤ (i : Int) ∧ i < 32) := by omega
        simp only [e2, e3, decide_False, Bool.false_and]

theorem carp_set_state_lsmask_eq (sc : carp_softc) (k : Nat) (state : carp_state)
    (hbal : sc.sc_balancing ≠ CARP_BAL_NONE) :
    (carp_set_state sc k state).sc_lsmask =
        (carp_update_lsmask_loop (carp_set_state sc k state).carp_vhosts 0 0).1 ∧
      (carp_set_state sc k state).sc_lscount =
        (carp_update_lsmask_loop (carp_set_state sc k state).carp_vhosts 0 0).2 := by
  rw [carp_set_state_vhosts]
  unfold carp_set_state carp_update_lsmask
  have hb : (modify_vhe sc k (fun vhe => { vhe with state := state })).sc_balancing ≠
      CARP_BAL_NONE := hbal
  dsimp only
  rw [if_neg hb]
  exact ⟨rfl, rfl⟩

/-- C10 (load mask): for a coordinator with load balancing enabled whose entry
count fits an `int`, after `carp_set_state` bit i of `sc_lsmask` is set, for
every i < 32, iff the entry at position i of the list exists and is MASTER, and
`sc_lscount` is the number of entries of the list. -/
theorem carp_set_state_lsmask (sc : carp_softc) (k : Nat) (state : carp_state)
    (hbal : sc.sc_balancing ≠ CARP_BAL_NONE)
    (hlen : (sc.carp_vhosts.length : Int) ≤ INT_MAX) :
    (∀ i : Nat, i < 32 →
      ((carp_set_state sc k state).sc_lsmask.testBit i = true ↔
        ∃ vhe, (carp_set_state sc k state).carp_vhosts[i]? = some vhe ∧
          vhe.state = carp_state.MASTER)) ∧
    (carp_set_state sc k state).sc_lscount = (carp_set_state sc k state).carp_vhosts.length := by
  obtain ⟨hm, hc⟩ := carp_set_state_lsmask_eq sc k state hbal
  have hl : (0 : Int) + ((carp_set_state sc k state).carp_vhosts.length : Int) ≤ INT_MAX := by
    rw [carp_set_state_vhosts, List.length_modify]
    omega
  obtain ⟨h1, h2⟩ := carp_update_lsmask_loop_spec (carp_set_state sc k state).carp_vhosts 0 0
    (le_refl 0) hl
  constructor
  · intro i hi
    rw [hm, h2 i]
    have hcond : ((0 : Int) ≤ (i : Int) ∧ i < 32) := ⟨by omega, hi⟩
    simp only [Nat.zero_testBit, Bool.false_or, hcond, and_self, decide_True, Bool.true_and,
      Int.toNat_zero, Nat.sub_zero]
    cases (carp_set_state sc k state).carp_vhosts[i]? with
    | none => simp
    | some v => simp
  · rw [hc, h1]
    omega


/-- The instance of C10 at `ex_sc_bal` when its first entry becomes MASTER. -/
theorem carp_set_state_lsmask_witness :
    ex_sc_bal.sc_balancing ≠ CARP_BAL_NONE ∧
      (carp_set_state ex_sc_bal 0 carp_state.MASTER).sc_lsmask = 3 ∧
      (carp_set_state ex_sc_bal 0 carp_state.MASTER).sc_lscount =
        (carp_set_state ex_sc_bal 0 carp_state.MASTER).carp_vhosts.length :=
  ⟨by decide, by decide,
    (carp_set_state_lsmask ex_sc_bal 0 carp_state.MASTER (by decide) (by decide)).2⟩

/-! ## Theorems: the load-sharing bucket -/

theorem and_one_shiftLeft_eq_zero (n i : Nat) : (1 <<< i) &&& n = 0 ↔ n.testBit i = false := by
  rw [Nat.and_comm, Nat.one_shiftLeft, Nat.and_two_pow]
  cases h : n.testBit i <;> simp

/-- C11 (load-sharing bucket): for a carp interface whose coordinator has
balancing enabled and 1 <= sc_lscount <= 32, and a packet with neither `M_BCAST`
nor `M_MCAST` set and `drop` non-zero, `carp_lsdrop` returns 0 iff bit
(ntohl(fold) mod sc_lscount) of `sc_lsmask` is set and 1 otherwise, where fold
is src[0] xor dst[0] for IPv4 and the xor of all four words of src and dst for
IPv6; the packet is left as it is. -/
theorem carp_lsdrop_bucket (ntohl : Nat → Nat) (sc : carp_softc) (m : mbuf) (af : sa_family)
    (src dst : Nat → Nat) (drop : Int)
    (hbal : sc.sc_balancing ≠ CARP_BAL_NONE)
    (hcount : 1 ≤ sc.sc_lscount ∧ sc.sc_lscount ≤ 32)
    (hm : m.m_bcast = false ∧ m.m_mcast = false)
    (hdrop : drop ≠ 0) :
    carp_lsdrop_fold sa_family.AF_INET src dst = src 0 ^^^ dst 0 ∧
    carp_lsdrop_fold sa_family.AF_INET6 src dst =
      src 0 ^^^ dst 0 ^^^ (src 1 ^^^ dst 1) ^^^ (src 2 ^^^ dst 2) ^^^ (src 3 ^^^ dst 3) ∧
    carp_lsdrop ntohl (some (if_type.IFT_CARP, some sc)) (some m) af (some src) (some dst) drop =
      (if sc.sc_lsmask.testBit (ntohl (carp_lsdrop_fold af src dst) % sc.sc_lscount.toNat) = true
        then 0 else 1, some m) := by
  refine ⟨rfl, rfl, ?_⟩
  obtain ⟨h1, h2⟩ := hcount
  obtain ⟨hb, hmc⟩ := hm
  have hn : (sc.sc_lscount % 4294967296).toNat = sc.sc_lscount.toNat := by
    rw [Int.emod_eq_of_lt (by omega) (by omega)]
  have hpos : 0 < sc.sc_lscount.toNat := by omega
  have hidx : ntohl (carp_lsdrop_fold af src dst) % sc.sc_lscount.toNat < 32 := by
    have := Nat.mod_lt (ntohl (carp_lsdrop_fold af src dst)) hpos
    omega
  unfold carp_lsdrop
  simp only [ne_eq, not_true_eq_false, if_false, hbal, hb, hmc, hdrop, hn,
    Bool.false_eq_true, false_and, false_or, if_neg (not_lt.mpr h2),
    if_neg (show ¬ sc.sc_lscount = 0 by omega), if_neg (not_le.mpr hidx),
    and_one_shiftLeft_eq_zero]
  cases h : sc.sc_lsmask.testBit (ntohl (carp_lsdrop_fold af src dst) % sc.sc_lscount.toNat) <;>
    simp

/-- The instance of C11 at `ex_sc_ls`: an IPv4 packet whose hash falls into
bucket 1 is accepted. -/
theorem carp_lsdrop_bucket_witness :
    carp_lsdrop ex_ntohl (some (if_type.IFT_CARP, some ex_sc_ls)) (some ex_mbuf)
        sa_family.AF_INET (some (fun _ => 16777216)) (some (fun _ => 0)) 1 = (0, some ex_mbuf) := by
  have h := (carp_lsdrop_bucket ex_ntohl ex_sc_ls ex_mbuf sa_family.AF_INET
    (fun _ => 16777216) (fun _ => 0) 1 (by decide) (by decide) (by decide) (by decide)).2.2
  rw [h]
  decide

/-! ## Theorems: the identity set of a coordinator -/

theorem carp_check_dup_vhids_for_some (vhid : Int) (l : List Nat) (i : Nat) (h0 : 0 ∈ l) :
    ∃ b, carp_check_dup_vhids_for vhid l i = some b ∧
      ((∃ v ∈ l.takeWhile (fun v => decide (v ≠ 0)), vhid = (v : Int)) → b = true) := by
  induction l generalizing i with
  | nil => simp at h0
  | cons v rest ih =>
    rw [carp_check_dup_vhids_for]
    by_cases hi : (i : Int) < INT_MAX
    · rw [if_pos hi]
      by_cases hv : v = 0
      · subst hv
        refine ⟨false, by simp, ?_⟩
        simp
      · rw [if_neg hv]
        by_cases hm : vhid = (v : Int)
        · rw [if_pos hm]
          exact ⟨true, rfl, fun _ => rfl⟩
        · rw [if_neg hm]
          have h0r : 0 ∈ rest := by
            rcases List.mem_cons.mp h0 with h | h
            · exact absurd h.symm hv
            · exact h
          obtain ⟨b, hb, hb2⟩ := ih (i + 1) h0r
          refine ⟨b, hb, ?_⟩
          rintro ⟨x, hx, hxe⟩
          rw [List.takeWhile_cons_of_pos (by simpa using hv)] at hx
          rcases List.mem_cons.mp hx with h | h
          · subst h; exact absurd hxe hm
          · exact hb2 ⟨x, h, hxe⟩
    · rw [if_neg hi]
      exact ⟨true, rfl, fun _ => rfl⟩

theorem carp_check_dup_vhids_vr_some (sc : carp_softc) (carpr : carpreq)
    (h0 : 0 ∈ carpr.carpr_vhids) (l : List carp_vhost_entry) :
    ∃ b, carp_check_dup_vhids_vr sc (some carpr) l = some b ∧
      ((∃ vhe ∈ l, ∃ v ∈ carpr_vhid_set carpr, vhe.vhid = (v : Int)) → b = true) := by
  induction l with
  | nil => exact ⟨false, rfl, by simp⟩
  | cons vhe rest ih =>
    obtain ⟨b1, hb1, hb1c⟩ := carp_check_dup_vhids_for_some vhe.vhid carpr.carpr_vhids 0 h0
    obtain ⟨b2, hb2, hb2c⟩ := ih
    unfold carp_check_dup_vhids_vr carp_check_dup_vhids_vhe
    simp only [hb1]
    cases b1 with
    | true => exact ⟨true, rfl, fun _ => rfl⟩
    | false =>
      simp only []
      cases hany : sc.carp_vhosts.any (fun vhe0 => decide (vhe.vhid = vhe0.vhid)) with
      | true => exact ⟨true, rfl, fun _ => rfl⟩
      | false =>
        simp only []
        refine ⟨b2, hb2, ?_⟩
        rintro ⟨x, hx, v, hv, hxe⟩
        rcases List.mem_cons.mp hx with h | h
        · subst h
          have := hb1c ⟨v, hv, hxe⟩
          exact absurd this (by simp)
        · exact hb2c ⟨x, h, v, hv, hxe⟩

theorem carp_check_dup_vhids_some (sc : carp_softc) (carpr : carpreq)
    (h0 : 0 ∈ carpr.carpr_vhids) (cif : List carp_softc) :
    ∃ d, carp_check_dup_vhids sc (some carpr) cif = some d ∧ (d = 0 ∨ d = EINVAL) ∧
      ((∃ vr ∈ cif, ∃ vhe ∈ vr.carp_vhosts, ∃ v ∈ carpr_vhid_set carpr, vhe.vhid = (v : Int)) →
        d = EINVAL) := by
  induction cif with
  | nil => exact ⟨0, rfl, Or.inl rfl, by simp⟩
  | cons vr rest ih =>
    obtain ⟨b, hb, hbc⟩ := carp_check_dup_vhids_vr_some sc carpr h0 vr.carp_vhosts
    obtain ⟨d, hd, hd1, hd2⟩ := ih
    unfold carp_check_dup_vhids
    simp only [hb]
    cases b with
    | true => exact ⟨EINVAL, rfl, Or.inr rfl, fun _ => rfl⟩
    | false =>
      simp only []
      refine ⟨d, hd, hd1, ?_⟩
      rintro ⟨x, hx, hrest⟩
      rcases List.mem_cons.mp hx with h | h
      · subst h
        exact absurd (hbc hrest) (by simp)
      · exact hd2 ⟨x, h, hrest⟩


theorem drop_eq_cons_of_getElem? {α : Type} (l : List α) (i : Nat) (a : α)
    (h : l[i]? = some a) : l.drop i = a :: l.drop (i + 1) := by
  obtain ⟨hi, rfl⟩ := List.getElem?_eq_some.mp h
  exact List.drop_eq_getElem_cons hi

theorem carp_vhids_ioctl_check_spec (sc : carp_softc) (ifp : Option ifnet)
    (cif : List carp_softc) (carpr : carpreq) (h0c : 0 ∈ carpr.carpr_vhids)
    (rest : List Nat) (i : Nat) (taken : List Nat) (h0 : 0 ∈ rest)
    (hlen : i + (rest.takeWhile (fun v => decide (v ≠ 0))).length ≤
      carpr.carpr_advskews.length) :
    carp_vhids_ioctl_check sc ifp cif carpr rest i taken = some (Except.error EINVAL) ∨
    (carp_vhids_ioctl_check sc ifp cif carpr rest i taken =
        some (Except.ok (i + (rest.takeWhile (fun v => decide (v ≠ 0))).length)) ∧
      (rest.takeWhile (fun v => decide (v ≠ 0))).Nodup ∧
      (∀ v ∈ rest.takeWhile (fun v => decide (v ≠ 0)), v ∉ taken) ∧
      (rest.takeWhile (fun v => decide (v ≠ 0)) ≠ [] → ifp ≠ none →
        carp_check_dup_vhids sc (some carpr) cif = some 0) ∧
      (∀ p ∈ (rest.takeWhile (fun v => decide (v ≠ 0))).zip (carpr.carpr_advskews.drop i),
        p.2 < 255)) := by
  induction rest generalizing i taken with
  | nil => simp at h0
  | cons v rest ih =>
    unfold carp_vhids_ioctl_check
    by_cases hv : v = 0
    · subst hv
      right
      simp
    · rw [if_neg hv]
      have h0r : 0 ∈ rest := by
        rcases List.mem_cons.mp h0 with h | h
        · exact absurd h.symm hv
        · exact h
      have htw : (v :: rest).takeWhile (fun v => decide (v ≠ 0)) =
          v :: rest.takeWhile (fun v => decide (v ≠ 0)) :=
        List.takeWhile_cons_of_pos (by simpa using hv)
      by_cases hi : i ≥ 256
      · left; rw [if_pos hi]
      · rw [if_neg hi]
        by_cases ht : v ∈ taken
        · left; rw [if_pos ht]
        · rw [if_neg ht]
          have hdup : ∃ d, carp_vhids_ioctl_dup sc ifp cif carpr = some d ∧
              (d = 0 → ifp ≠ none → carp_check_dup_vhids sc (some carpr) cif = some 0) := by
            cases ifp with
            | none => exact ⟨0, rfl, fun _ h => absurd rfl h⟩
            | some x =>
              obtain ⟨d, hd, _, _⟩ := carp_check_dup_vhids_some sc carpr h0c cif
              exact ⟨d, hd, fun h _ => by rw [hd, h]⟩
          obtain ⟨d, hd, hd0⟩ := hdup
          rw [hd]
          simp only []
          by_cases hdz : d ≠ 0
          · left; rw [if_pos hdz]
          · rw [if_neg hdz]
            have hdz' : d = 0 := not_not.mp hdz
            rw [htw] at hlen
            have hil : i < carpr.carpr_advskews.length := by
              simp only [List.length_cons] at hlen; omega
            have hget : carpr.carpr_advskews[i]? = some (carpr.carpr_advskews[i]) :=
              List.getElem?_eq_getElem hil
            rw [hget]
            simp only []
            by_cases hs : carpr.carpr_advskews[i] ≥ 255
            · left; rw [if_pos hs]
            · rw [if_neg hs]
              have hlen' : i + 1 + (rest.takeWhile (fun v => decide (v ≠ 0))).length ≤
                  carpr.carpr_advskews.length := by
                simp only [List.length_cons] at hlen; omega
              rcases ih (i + 1) (v :: taken) h0r hlen' with h | ⟨h1, h2, h3, h4, h5⟩
              · left; exact h
              · right
                rw [htw]
                refine ⟨?_, ?_, ?_, ?_, ?_⟩
                · rw [h1]
                  simp only [List.length_cons]
                  congr 2
                  omega
                · refine List.nodup_cons.mpr ⟨fun hin => ?_, h2⟩
                  exact h3 v hin (List.mem_cons_self _ _)
                · intro x hx
                  rcases List.mem_cons.mp hx with h | h
                  · subst h; exact ht
                  · exact fun hxt => h3 x h (List.mem_cons_of_mem _ hxt)
                · intro _ hifp
                  exact hd0 hdz' hifp
                · intro p hp
                  rw [drop_eq_cons_of_getElem? _ _ _ hget, List.zip_cons_cons] at hp
                  rcases List.mem_cons.mp hp with h | h
                  · subst h
                    simp only
                    omega
                  · exact h5 p h


theorem carp_vhids_ioctl_invalid (in6_ifattach_linklocal : carp_softc → List ifaddr)
    (within : Nat → Bool) (ifp : Option ifnet) (cif : List carp_softc) (mallocs : List Bool)
    (sc : carp_softc) (carpr : carpreq) (h0 : 0 ∈ carpr.carpr_vhids)
    (hlen : (carpr_vhid_set carpr).length ≤ carpr.carpr_advskews.length)
    (hbad : ¬ (carpr_vhid_set carpr).Nodup ∨
      (ifp ≠ none ∧ ∃ vr ∈ cif, ∃ vhe ∈ vr.carp_vhosts, ∃ v ∈ carpr_vhid_set carpr,
        vhe.vhid = (v : Int)) ∨
      (∃ p ∈ carpr_set carpr, 255 ≤ p.2)) :
    carp_vhids_ioctl in6_ifattach_linklocal within ifp cif mallocs sc carpr =
      some (if memcmp sc.sc_vhids carpr.carpr_vhids sc.sc_vhids.length = 0 then 0 else EINVAL,
        sc, carpr) ∧ carpr.carpr_vhids[0]? ≠ some 0 := by
  have hset : carpr_vhid_set carpr ≠ [] := by
    intro he
    rcases hbad with h | ⟨_, _, _, _, _, v, hv, _⟩ | ⟨p, hp, _⟩
    · rw [he] at h; exact h List.nodup_nil
    · rw [he] at hv; simp at hv
    · unfold carpr_set at hp; rw [he] at hp; simp at hp
  obtain ⟨v0, rest, hl⟩ : ∃ v0 rest, carpr.carpr_vhids = v0 :: rest := by
    cases h : carpr.carpr_vhids with
    | nil => rw [h] at h0; simp at h0
    | cons a b => exact ⟨a, b, rfl⟩
  have hv0 : v0 ≠ 0 := by
    intro h
    apply hset
    unfold carpr_vhid_set
    rw [hl, h]
    simp
  have hhead : carpr.carpr_vhids[0]? = some v0 := by rw [hl]; simp
  refine ⟨?_, by rw [hhead]; simpa using hv0⟩
  unfold carp_vhids_ioctl
  rw [hhead]
  simp only []
  by_cases hm : memcmp sc.sc_vhids carpr.carpr_vhids sc.sc_vhids.length = 0
  · rw [if_pos (Or.inr hm), if_pos hm]
  · rw [if_neg (by rintro (h | h); exact hv0 h; exact hm h), if_neg hm]
    rcases carp_vhids_ioctl_check_spec sc ifp cif carpr h0 carpr.carpr_vhids 0 [] h0
      (by unfold carpr_vhid_set at hlen; omega) with h | ⟨_, h2, _, h4, h5⟩
    · rw [h]
    · exfalso
      rcases hbad with h | ⟨hifp, hconf⟩ | ⟨p, hp, hp2⟩
      · exact h h2
      · have hd := h4 hset hifp
        obtain ⟨d, hd1, _, hd3⟩ := carp_check_dup_vhids_some sc carpr h0 cif
        have := hd3 hconf
        rw [hd1] at hd
        rw [this] at hd
        exact absurd (Option.some.inj hd) (by decide)
      · have := h5 p (by simpa [carpr_set, carpr_vhid_set] using hp)
        omega

/-- C12 (atomic reconfiguration): when the proposed identity set of a request
(terminated by a zero inside `carpr_vhids`) repeats a vhid, or holds a vhid of
an entry of another coordinator on the carrier interface, or has a skew of
255 or more, `carp_vhids_ioctl` returns with the coordinator exactly as it
was before the call: its entries with their vhids, skews, states, leader
flags and timers, and its arrays `sc_vhids` and `sc_advskews`. -/
theorem carp_vhids_ioctl_atomic (in6_ifattach_linklocal : carp_softc → List ifaddr)
    (within : Nat → Bool) (ifp : Option ifnet) (cif : List carp_softc) (mallocs : List Bool)
    (sc : carp_softc) (carpr : carpreq) (h0 : 0 ∈ carpr.carpr_vhids)
    (hlen : (carpr_vhid_set carpr).length ≤ carpr.carpr_advskews.length)
    (hbad : ¬ (carpr_vhid_set carpr).Nodup ∨
      (ifp ≠ none ∧ ∃ vr ∈ cif, ∃ vhe ∈ vr.carp_vhosts, ∃ v ∈ carpr_vhid_set carpr,
        vhe.vhid = (v : Int)) ∨
      (∃ p ∈ carpr_set carpr, 255 ≤ p.2)) :
    ∃ e, carp_vhids_ioctl in6_ifattach_linklocal within ifp cif mallocs sc carpr =
      some (e, sc, carpr) :=
  ⟨_, (carp_vhids_ioctl_invalid in6_ifattach_linklocal within ifp cif mallocs sc carpr h0 hlen
    hbad).1⟩

/-- The instance of C12 at `ex_sc` and a request that proposes vhid 7 twice. -/
theorem carp_vhids_ioctl_atomic_witness :
    ∃ e, carp_vhids_ioctl ex_in6_ifattach_linklocal (fun _ => false) none [] [] ex_sc
      ex_carpr_dup = some (e, ex_sc, ex_carpr_dup) :=
  carp_vhids_ioctl_atomic ex_in6_ifattach_linklocal (fun _ => false) none [] [] ex_sc
    ex_carpr_dup (by decide) (by decide) (Or.inl (by decide))

/-- C14 (duplicate identities are refused): for a request whose `carpr_vhids`
differ from the stored `sc_vhids`, `carp_vhids_ioctl` returns `EINVAL` if the
proposed set contains the same vhid twice, or if the carrier interface exists
and an entry of another coordinator on it has one of the proposed vhids. -/
theorem carp_vhids_ioctl_dup_einval (in6_ifattach_linklocal : carp_softc → List ifaddr)
    (within : Nat → Bool) (ifp : Option ifnet) (cif : List carp_softc) (mallocs : List Bool)
    (sc : carp_softc) (carpr : carpreq) (h0 : 0 ∈ carpr.carpr_vhids)
    (hlen : (carpr_vhid_set carpr).length ≤ carpr.carpr_advskews.length)
    (hdiff : memcmp sc.sc_vhids carpr.carpr_vhids sc.sc_vhids.length ≠ 0)
    (hdup : ¬ (carpr_vhid_set carpr).Nodup ∨
      (ifp ≠ none ∧ ∃ vr ∈ cif, ∃ vhe ∈ vr.carp_vhosts, ∃ v ∈ carpr_vhid_set carpr,
        vhe.vhid = (v : Int))) :
    ∃ sc1 carpr1, carp_vhids_ioctl in6_ifattach_linklocal within ifp cif mallocs sc carpr =
      some (EINVAL, sc1, carpr1) := by
  have h := (carp_vhids_ioctl_invalid in6_ifattach_linklocal within ifp cif mallocs sc carpr h0
    hlen (by rcases hdup with h | h; exact Or.inl h; exact Or.inr (Or.inl h))).1
  rw [if_neg hdiff] at h
  exact ⟨sc, carpr, h⟩

/-- The instance of C14 at `ex_sc` and a request that proposes vhid 7 twice. -/
theorem carp_vhids_ioctl_dup_einval_witness :
    ∃ sc1 carpr1, carp_vhids_ioctl ex_in6_ifattach_linklocal (fun _ => false) none [] [] ex_sc
      ex_carpr_dup = some (EINVAL, sc1, carpr1) :=
  carp_vhids_ioctl_dup_einval ex_in6_ifattach_linklocal (fun _ => false) none [] [] ex_sc
    ex_carpr_dup (by decide) (by decide) (by decide) (Or.inl (by decide))


theorem carp_new_vhost_ident (sc : carp_softc) (v s : Int) (ok : Bool)
    (h : (carp_new_vhost sc v s ok).1 = 0) :
    (carp_new_vhost sc v s ok).2.carp_vhosts.map vhe_ident =
      sc.carp_vhosts.map vhe_ident ++ [(v, s)] := by
  unfold carp_new_vhost at h ⊢
  split at h
  · exact absurd (show EINVAL = 0 from h) (by decide)
  · split at h
    · exact absurd (show ENOMEM = 0 from h) (by decide)
    · rename_i h1 h2
      rw [if_neg h1, if_neg h2]
      dsimp only at h ⊢
      split at h
      · rename_i h3
        rw [if_pos h3]
        have : sc.carp_vhosts = [] := List.isEmpty_iff.mp h3
        rw [this]
        rfl
      · rename_i h3
        rw [if_neg h3]
        split at h
        · exact absurd (show ERANGE = 0 from h) (by decide)
        · rename_i h4
          rw [if_neg h4]
          simp [vhe_ident]

theorem carp_vhids_ioctl_sort_for_ident (carpr : carpreq) (j : Nat) (rest : List Nat) (i : Nat)
    (sc : carp_softc) (ms : List Bool) (sc1 : carp_softc) (ms1 : List Bool)
    (hlen : i + (rest.takeWhile (fun v => decide (v ≠ 0))).length ≤
      carpr.carpr_advskews.length)
    (h : carp_vhids_ioctl_sort_for carpr j rest i sc ms = some (0, sc1, ms1)) :
    sc1.carp_vhosts.map vhe_ident = sc.carp_vhosts.map vhe_ident ++
      (((rest.takeWhile (fun v => decide (v ≠ 0))).zip (carpr.carpr_advskews.drop i)).filter
        (fun p => decide (p.1 = j))).map carpr_ident := by
  induction rest generalizing i sc ms with
  | nil => unfold carp_vhids_ioctl_sort_for at h; exact absurd h (by simp)
  | cons v rest ih =>
    unfold carp_vhids_ioctl_sort_for at h
    by_cases hv : v = 0
    · subst hv
      rw [if_pos rfl] at h
      simp only [Option.some.injEq, Prod.mk.injEq, true_and] at h
      rw [← h.1]
      simp
    · rw [if_neg hv] at h
      have htw : (v :: rest).takeWhile (fun v => decide (v ≠ 0)) =
          v :: rest.takeWhile (fun v => decide (v ≠ 0)) :=
        List.takeWhile_cons_of_pos (by simpa using hv)
      rw [htw] at hlen
      have hil : i < carpr.carpr_advskews.length := by
        simp only [List.length_cons] at hlen; omega
      have hget : carpr.carpr_advskews[i]? = some (carpr.carpr_advskews[i]) :=
        List.getElem?_eq_getElem hil
      have hlen1 : i + 1 + (rest.takeWhile (fun v => decide (v ≠ 0))).length ≤
          carpr.carpr_advskews.length := by
        simp only [List.length_cons] at hlen; omega
      rw [htw, drop_eq_cons_of_getElem? _ _ _ hget, List.zip_cons_cons]
      by_cases hi : i ≥ sc.sc_vhids.length
      · rw [if_pos hi] at h
        simp only [Option.some.injEq, Prod.mk.injEq] at h
        exact absurd h.1 (by decide)
      · rw [if_neg hi] at h
        by_cases hj : v ≠ j
        · rw [if_pos hj] at h
          rw [List.filter_cons_of_neg (by simpa using hj)]
          exact ih (i + 1) sc ms hlen1 h
        · rw [if_neg hj, hget] at h
          dsimp only at h
          have hj1 : v = j := not_not.mp hj
          by_cases hr : (carp_new_vhost sc (v : Int) (carpr.carpr_advskews[i] : Int)
              (ms.head?.getD true)).1 ≠ 0
          · rw [if_pos hr] at h
            simp only [Option.some.injEq, Prod.mk.injEq] at h
            exact absurd h.1 (by decide)
          · rw [if_neg hr] at h
            have hr0 := not_not.mp hr
            have := ih (i + 1) _ _ hlen1 h
            rw [this, List.filter_cons_of_pos (by simpa using hj1)]
            dsimp only
            rw [carp_new_vhost_ident _ _ _ _ hr0]
            simp [carpr_ident]

theorem carp_vhids_ioctl_sort_ident (carpr : carpreq) (js : List Nat)
    (sc : carp_softc) (ms : List Bool) (sc1 : carp_softc) (ms1 : List Bool)
    (hlen : (carpr_vhid_set carpr).length ≤ carpr.carpr_advskews.length)
    (h : carp_vhids_ioctl_sort carpr js sc ms = some (0, sc1, ms1)) :
    sc1.carp_vhosts.map vhe_ident = sc.carp_vhosts.map vhe_ident ++
      js.flatMap (fun j =>
        ((carpr_set carpr).filter (fun p => decide (p.1 = j))).map carpr_ident) := by
  induction js generalizing sc ms with
  | nil =>
    unfold carp_vhids_ioctl_sort at h
    simp only [Option.some.injEq, Prod.mk.injEq, true_and] at h
    rw [← h.1]
    simp
  | cons j js ih =>
    unfold carp_vhids_ioctl_sort at h
    cases hf : carp_vhids_ioctl_sort_for carpr j carpr.carpr_vhids 0 sc ms with
    | none => rw [hf] at h; exact absurd h (by simp)
    | some r =>
      obtain ⟨e, sc2, ms2⟩ := r
      rw [hf] at h
      dsimp only at h
      by_cases he : e ≠ 0
      · rw [if_pos he] at h
        simp only [Option.some.injEq, Prod.mk.injEq] at h
        exact absurd h.1 he
      · rw [if_neg he] at h
        have he0 : e = 0 := not_not.mp he
        subst he0
        have h1 := carp_vhids_ioctl_sort_for_ident carpr j carpr.carpr_vhids 0 sc ms sc2 ms2
          (by unfold carpr_vhid_set at hlen; omega) hf
        rw [ih sc2 ms2 h, h1]
        simp [carpr_set, carpr_vhid_set, List.flatMap_cons]


theorem carp_set_state_ident (sc : carp_softc) (k : Nat) (st : carp_state) :
    (carp_set_state sc k st).carp_vhosts.map vhe_ident = sc.carp_vhosts.map vhe_ident := by
  rw [carp_set_state_vhosts]
  exact map_modify_of_eq vhe_ident (fun v => { v with state := st }) (fun _ => rfl) _ _

theorem carp_set_state_all_ident (sc : carp_softc) (st : carp_state) :
    (carp_set_state_all sc st).carp_vhosts.map vhe_ident = sc.carp_vhosts.map vhe_ident := by
  rw [carp_set_state_all_vhosts, List.map_map]
  rfl

theorem modify_vhe_ident (sc : carp_softc) (k : Nat) (f : carp_vhost_entry → carp_vhost_entry)
    (hf : ∀ v, vhe_ident (f v) = vhe_ident v) :
    (modify_vhe sc k f).carp_vhosts.map vhe_ident = sc.carp_vhosts.map vhe_ident :=
  map_modify_of_eq vhe_ident f hf _ _

theorem carp_setrun_backup_arm_ident (n n6 : Int) (tv : timeval) (af : sa_family)
    (v : carp_vhost_entry) : vhe_ident (carp_setrun_backup_arm n n6 tv af v) = vhe_ident v := by
  unfold carp_setrun_backup_arm
  cases af
  · dsimp only
    split <;> split <;> rfl
  · rfl
  · rfl

theorem carp_setrun_body_ident (self : carp_softc → carp_softc)
    (hself : ∀ s, (self s).carp_vhosts.map vhe_ident = s.carp_vhosts.map vhe_ident)
    (ifp : Option ifnet) (sc : carp_softc) (k : Nat) (af : sa_family) :
    (carp_setrun_body self ifp sc k af).carp_vhosts.map vhe_ident =
      sc.carp_vhosts.map vhe_ident := by
  unfold carp_setrun_body
  split
  · rfl
  · split
    · exact carp_set_state_all_ident _ _
    · dsimp only
      split
      · split
        · rw [hself, carp_set_state_ident]
        · rw [modify_vhe_ident _ _ _ (carp_setrun_backup_arm_ident _ _ _ _)]
          split <;> rfl
        · exact modify_vhe_ident _ _ _ (fun _ => rfl)
      · rfl

theorem carp_setrun_sc_ident (ifp : Option ifnet) (sc : carp_softc) (k : Nat) (af : sa_family) :
    (carp_setrun_sc ifp sc k af).carp_vhosts.map vhe_ident = sc.carp_vhosts.map vhe_ident :=
  carp_setrun_body_ident _
    (fun s => carp_setrun_body_ident _ (fun _ => rfl) ifp s k sa_family.AF_UNSPEC) ifp sc k af

theorem carp_setrun_all_ident (ifp : Option ifnet) (sc : carp_softc) (af : sa_family) :
    (carp_setrun_all ifp sc af).carp_vhosts.map vhe_ident = sc.carp_vhosts.map vhe_ident := by
  unfold carp_setrun_all
  generalize List.range sc.carp_vhosts.length = l
  induction l generalizing sc with
  | nil => rfl
  | cons k l ih => rw [List.foldl_cons, ih, carp_setrun_sc_ident]

theorem carp_set_vhe_enaddr_ident (sc : carp_softc) (v : carp_vhost_entry) :
    vhe_ident (carp_set_vhe_enaddr sc v) = vhe_ident v := by
  unfold carp_set_vhe_enaddr
  split <;> rfl

theorem carp_set_enaddr_ident (in6_ifattach_linklocal : carp_softc → List ifaddr)
    (ifp : Option ifnet) (sc : carp_softc) :
    (carp_set_enaddr in6_ifattach_linklocal ifp sc).carp_vhosts.map vhe_ident =
      sc.carp_vhosts.map vhe_ident := by
  have hmap : (sc.carp_vhosts.map (carp_set_vhe_enaddr sc)).map vhe_ident =
      sc.carp_vhosts.map vhe_ident := by
    rw [List.map_map]
    congr 1
    funext v
    exact carp_set_vhe_enaddr_ident sc v
  unfold carp_set_enaddr
  dsimp only
  repeat' split
  all_goals first
    | exact hmap
    | (rw [carp_setrun_all_ident, carp_set_state_all_ident]; exact hmap)


theorem carp_vhids_ioctl_check_ok (sc : carp_softc) (ifp : Option ifnet)
    (cif : List carp_softc) (carpr : carpreq) (rest : List Nat) (i : Nat) (taken : List Nat)
    (r : Except Int Nat)
    (h : carp_vhids_ioctl_check sc ifp cif carpr rest i taken = some r) :
    (∀ e, r = Except.error e → e = EINVAL) ∧
    (∀ n, r = Except.ok n → 0 ∈ rest ∧
      (rest.takeWhile (fun v => decide (v ≠ 0)) = [] ∨
        i + (rest.takeWhile (fun v => decide (v ≠ 0))).length ≤
          carpr.carpr_advskews.length)) := by
  induction rest generalizing i taken with
  | nil => unfold carp_vhids_ioctl_check at h; exact absurd h (by simp)
  | cons v rest ih =>
    unfold carp_vhids_ioctl_check at h
    have herr : ∀ {x : Option (Except Int Nat)}, x = some r →
        x = some (Except.error EINVAL) →
        (∀ e, r = Except.error e → e = EINVAL) ∧
        (∀ n, r = Except.ok n → 0 ∈ v :: rest ∧
          ((v :: rest).takeWhile (fun v => decide (v ≠ 0)) = [] ∨
            i + ((v :: rest).takeWhile (fun v => decide (v ≠ 0))).length ≤
              carpr.carpr_advskews.length)) := by
      intro x hx hx2
      rw [hx2] at hx
      have := Option.some.inj hx
      subst this
      exact ⟨fun e he => (Except.error.inj he).symm, fun n hn => by cases hn⟩
    by_cases hv : v = 0
    · subst hv
      rw [if_pos rfl] at h
      have := Option.some.inj h
      subst this
      refine ⟨fun e he => (by cases he), fun n _ => ⟨List.mem_cons_self _ _, Or.inl ?_⟩⟩
      simp
    · rw [if_neg hv] at h
      have htw : (v :: rest).takeWhile (fun v => decide (v ≠ 0)) =
          v :: rest.takeWhile (fun v => decide (v ≠ 0)) :=
        List.takeWhile_cons_of_pos (by simpa using hv)
      by_cases hi : i ≥ 256
      · rw [if_pos hi] at h; exact herr h rfl
      · rw [if_neg hi] at h
        by_cases ht : v ∈ taken
        · rw [if_pos ht] at h; exact herr h rfl
        · rw [if_neg ht] at h
          cases hd : carp_vhids_ioctl_dup sc ifp cif carpr with
          | none => rw [hd] at h; exact absurd h (by simp)
          | some d =>
            rw [hd] at h
            dsimp only at h
            by_cases hdz : d ≠ 0
            · rw [if_pos hdz] at h; exact herr h rfl
            · rw [if_neg hdz] at h
              cases hg : carpr.carpr_advskews[i]? with
              | none => rw [hg] at h; exact absurd h (by simp)
              | some skew =>
                rw [hg] at h
                dsimp only at h
                by_cases hs : skew ≥ 255
                · rw [if_pos hs] at h; exact herr h rfl
                · rw [if_neg hs] at h
                  obtain ⟨h1, h2⟩ := ih (i + 1) (v :: taken) h
                  refine ⟨h1, fun n hn => ?_⟩
                  obtain ⟨h3, h4⟩ := h2 n hn
                  refine ⟨List.mem_cons_of_mem _ h3, Or.inr ?_⟩
                  rw [htw]
                  simp only [List.length_cons]
                  have hil : i < carpr.carpr_advskews.length :=
                    (List.getElem?_eq_some.mp hg).1
                  rcases h4 with h4 | h4
                  · rw [h4]; simp only [List.length_nil]; omega
                  · omega

theorem filter_key_length_le_one (P : List (Nat × Nat)) (hnd : (P.map Prod.fst).Nodup)
    (j : Nat) : (P.filter (fun p => decide (p.1 = j))).length ≤ 1 := by
  induction P with
  | nil => simp
  | cons p P ih =>
    rw [List.map_cons, List.nodup_cons] at hnd
    by_cases hp : p.1 = j
    · rw [List.filter_cons_of_pos (by simpa using hp)]
      have : P.filter (fun p => decide (p.1 = j)) = [] := by
        rw [List.filter_eq_nil_iff]
        intro q hq hqj
        apply hnd.1
        rw [List.mem_map]
        exact ⟨q, hq, by rw [hp]; simpa using hqj⟩
      rw [this]
      simp
    · rw [List.filter_cons_of_neg (by simpa using hp)]
      exact ih hnd.2

theorem sorted_rebuild_pairwise (P : List (Nat × Nat)) (hnd : (P.map Prod.fst).Nodup)
    (js : List Nat) (hjs : js.Pairwise (fun a b => a < b)) :
    ((js.flatMap (fun j => (P.filter (fun p => decide (p.1 = j))).map carpr_ident)).map
      Prod.fst).Pairwise (fun a b => a < b) := by
  rw [List.map_flatMap, List.pairwise_flatMap]
  constructor
  · intro j _
    have hle := filter_key_length_le_one P hnd j
    generalize P.filter (fun p => decide (p.1 = j)) = l at hle
    match l, hle with
    | [], _ => simp
    | [_], _ => simp
  · refine hjs.imp ?_
    intro a b hab x hx y hy
    simp only [List.map_map, List.mem_map, List.mem_filter, Function.comp_apply,
      decide_eq_true_eq] at hx hy
    obtain ⟨p, ⟨_, hp⟩, rfl⟩ := hx
    obtain ⟨q, ⟨_, hq⟩, rfl⟩ := hy
    simp only [carpr_ident]
    omega

theorem sorted_rebuild_mem (P : List (Nat × Nat)) (x : Int × Int) :
    x ∈ (List.range' 1 255).flatMap
        (fun j => (P.filter (fun p => decide (p.1 = j))).map carpr_ident) ↔
      ∃ p ∈ P, 1 ≤ p.1 ∧ p.1 < 256 ∧ carpr_ident p = x := by
  simp only [List.mem_flatMap, List.mem_map, List.mem_filter, decide_eq_true_eq,
    List.mem_range']
  constructor
  · rintro ⟨j, ⟨i, hi, rfl⟩, p, ⟨hp, hpj⟩, rfl⟩
    exact ⟨p, hp, by omega, by omega, rfl⟩
  · rintro ⟨p, hp, h1, h2, rfl⟩
    exact ⟨p.1, ⟨p.1 - 1, by omega, by omega⟩, p, ⟨hp, rfl⟩, rfl⟩

theorem carpr_set_fst (carpr : carpreq)
    (hlen : (carpr_vhid_set carpr).length ≤ carpr.carpr_advskews.length) :
    (carpr_set carpr).map Prod.fst = carpr_vhid_set carpr := by
  unfold carpr_set
  exact List.map_fst_zip _ _ hlen

theorem carp_vhids_ioctl_rebuilt (in6_ifattach_linklocal : carp_softc → List ifaddr)
    (within : Nat → Bool) (ifp : Option ifnet) (cif : List carp_softc) (mallocs : List Bool)
    (sc : carp_softc) (carpr : carpreq) (sc1 : carp_softc) (carpr1 : carpreq)
    (hnew : carpr.carpr_vhids[0]? ≠ some 0 ∧
      memcmp sc.sc_vhids carpr.carpr_vhids sc.sc_vhids.length ≠ 0)
    (hacc : carp_vhids_ioctl in6_ifattach_linklocal within ifp cif mallocs sc carpr =
      some (0, sc1, carpr1)) :
    (carpr_vhid_set carpr).Nodup ∧
    (carpr_vhid_set carpr).length ≤ carpr.carpr_advskews.length ∧
    sc1.carp_vhosts.map vhe_ident =
      (List.range' 1 255).flatMap
        (fun j => ((carpr_set carpr).filter (fun p => decide (p.1 = j))).map carpr_ident) := by
  unfold carp_vhids_ioctl at hacc
  cases hh : carpr.carpr_vhids[0]? with
  | none => rw [hh] at hacc; exact absurd hacc (by simp)
  | some v0 =>
    rw [hh] at hacc
    dsimp only at hacc
    have hv0 : v0 ≠ 0 := fun h => hnew.1 (by rw [hh, h])
    rw [if_neg (by rintro (h | h); exact hv0 h; exact hnew.2 h)] at hacc
    cases hc : carp_vhids_ioctl_check sc ifp cif carpr carpr.carpr_vhids 0 [] with
    | none => rw [hc] at hacc; exact absurd hacc (by simp)
    | some r =>
      obtain ⟨he, hok⟩ := carp_vhids_ioctl_check_ok sc ifp cif carpr _ _ _ r hc
      rw [hc] at hacc
      cases r with
      | error e =>
        dsimp only at hacc
        have := he e rfl
        subst this
        simp only [Option.some.injEq, Prod.mk.injEq] at hacc
        exact absurd hacc.1 (by decide)
      | ok n =>
        obtain ⟨h0, hlen1⟩ := hok n rfl
        have hlen0 : 0 + (carpr.carpr_vhids.takeWhile (fun v => decide (v ≠ 0))).length ≤
            carpr.carpr_advskews.length := by
          rcases hlen1 with h | h
          · rw [h]; simp
          · exact h
        have hlen : (carpr_vhid_set carpr).length ≤ carpr.carpr_advskews.length := by
          unfold carpr_vhid_set; omega
        have hnd : (carpr_vhid_set carpr).Nodup := by
          rcases carp_vhids_ioctl_check_spec sc ifp cif carpr h0 carpr.carpr_vhids 0 [] h0
            hlen0 with h | ⟨_, h2, _⟩
          · rw [h] at hc; cases hc
          · exact h2
        refine ⟨hnd, hlen, ?_⟩
        dsimp only at hacc
        generalize hcq : (if n ≤ 1 then { carpr with carpr_balancing := CARP_BAL_NONE }
          else if carpr.carpr_balancing = CARP_BAL_NONE ∧ sc.sc_balancing = CARP_BAL_NONE
          then { carpr with carpr_balancing := CARP_BAL_IP } else carpr) = cq at hacc
        have hcq1 : cq.carpr_vhids = carpr.carpr_vhids ∧
            cq.carpr_advskews = carpr.carpr_advskews := by
          rw [← hcq]
          split
          · exact ⟨rfl, rfl⟩
          · split <;> exact ⟨rfl, rfl⟩
        have hcqs : carpr_set cq = carpr_set carpr := by
          unfold carpr_set carpr_vhid_set
          rw [hcq1.1, hcq1.2]
        cases hs : carp_vhids_ioctl_sort cq (List.range' 1 255)
            { carp_destroy_vhosts (carp_del_all_timeouts within sc) with
              sc_vhids := List.replicate
                (carp_destroy_vhosts (carp_del_all_timeouts within sc)).sc_vhids.length 0 }
            mallocs with
        | none => rw [hs] at hacc; exact absurd hacc (by simp)
        | some r2 =>
          obtain ⟨e, sc2, ms2⟩ := r2
          rw [hs] at hacc
          dsimp only at hacc
          by_cases hez : e ≠ 0
          · rw [if_pos hez] at hacc
            simp only [Option.some.injEq, Prod.mk.injEq] at hacc
            exact absurd hacc.1 hez
          · rw [if_neg hez] at hacc
            have he0 : e = 0 := not_not.mp hez
            subst he0
            simp only [Option.some.injEq, Prod.mk.injEq, true_and] at hacc
            rw [← hacc.1, carp_set_state_all_ident, carp_set_enaddr_ident,
              carp_vhids_ioctl_sort_ident cq _ _ _ sc2 ms2
                (by unfold carpr_vhid_set; rw [hcq1.1, hcq1.2]; omega) hs, hcqs]
            rfl

/-- C13 (sorted rebuild): when `carp_vhids_ioctl` accepts (returns 0 for) a
request whose vhids (bytes) differ from the stored ones and start with a
non-zero vhid, the entry list of the coordinator afterwards is in strictly
ascending vhid order, every entry carries a proposed vhid with the skew
proposed for it, and every proposed vhid has its entry with its skew. -/
theorem carp_vhids_ioctl_sorted (in6_ifattach_linklocal : carp_softc → List ifaddr)
    (within : Nat → Bool) (ifp : Option ifnet) (cif : List carp_softc) (mallocs : List Bool)
    (sc : carp_softc) (carpr : carpreq) (sc1 : carp_softc) (carpr1 : carpreq)
    (hu8 : ∀ v ∈ carpr.carpr_vhids, v < 256)
    (hnew : carpr.carpr_vhids[0]? ≠ some 0 ∧
      memcmp sc.sc_vhids carpr.carpr_vhids sc.sc_vhids.length ≠ 0)
    (hacc : carp_vhids_ioctl in6_ifattach_linklocal within ifp cif mallocs sc carpr =
      some (0, sc1, carpr1)) :
    (sc1.carp_vhosts.map (fun vhe => vhe.vhid)).Pairwise (fun a b => a < b) ∧
    (∀ vhe ∈ sc1.carp_vhosts, ∃ p ∈ carpr_set carpr,
      vhe.vhid = (p.1 : Int) ∧ vhe.advskew = (p.2 : Int)) ∧
    (∀ p ∈ carpr_set carpr, ∃ vhe ∈ sc1.carp_vhosts,
      vhe.vhid = (p.1 : Int) ∧ vhe.advskew = (p.2 : Int)) := by
  obtain ⟨hnd, hlen, hid⟩ := carp_vhids_ioctl_rebuilt in6_ifattach_linklocal within ifp cif
    mallocs sc carpr sc1 carpr1 hnew hacc
  have hfst := carpr_set_fst carpr hlen
  refine ⟨?_, ?_, ?_⟩
  · have h := sorted_rebuild_pairwise (carpr_set carpr) (by rw [hfst]; exact hnd)
      (List.range' 1 255) (List.pairwise_lt_range' 1 255)
    rw [← hid, List.map_map] at h
    exact h
  · intro vhe hvhe
    have hm : vhe_ident vhe ∈ sc1.carp_vhosts.map vhe_ident := List.mem_map_of_mem _ hvhe
    rw [hid, sorted_rebuild_mem] at hm
    obtain ⟨p, hp, _, _, hpe⟩ := hm
    have h1 := congrArg Prod.fst hpe
    have h2 := congrArg Prod.snd hpe
    exact ⟨p, hp, h1.symm, h2.symm⟩
  · intro p hp
    have hp1 : p.1 ∈ carpr_vhid_set carpr := by
      rw [← hfst]; exact List.mem_map_of_mem _ hp
    have hpv : p.1 ∈ carpr.carpr_vhids := (List.takeWhile_sublist _).subset hp1
    have hpn : p.1 ≠ 0 := by
      have := List.mem_takeWhile_imp hp1
      simpa using this
    have hm : carpr_ident p ∈ sc1.carp_vhosts.map vhe_ident := by
      rw [hid, sorted_rebuild_mem]
      exact ⟨p, hp, by omega, hu8 _ hpv, rfl⟩
    obtain ⟨vhe, hvhe, hve⟩ := List.mem_map.mp hm
    exact ⟨vhe, hvhe, congrArg Prod.fst hve, congrArg Prod.snd hve⟩


set_option maxRecDepth 100000 in
/-- The instance of C13 at `ex_sc` and the request `ex_carpr` (vhid 7 with skew
10, then vhid 3 with skew 20): the request is accepted and the entries come
out as vhid 3 with skew 20, then vhid 7 with skew 10. -/
theorem carp_vhids_ioctl_sorted_witness :
    ∃ sc1 carpr1,
      carp_vhids_ioctl ex_in6_ifattach_linklocal (fun _ => false) none [] [] ex_sc ex_carpr =
        some (0, sc1, carpr1) ∧
      sc1.carp_vhosts.map vhe_ident = [(3, 20), (7, 10)] ∧
      (sc1.carp_vhosts.map (fun vhe => vhe.vhid)).Pairwise (fun a b => a < b) := by
  have hev : (carp_vhids_ioctl ex_in6_ifattach_linklocal (fun _ => false) none [] [] ex_sc
      ex_carpr).map (fun r => (r.1, r.2.1.carp_vhosts.map vhe_ident)) =
      some (0, [(3, 20), (7, 10)]) := by decide
  cases h : carp_vhids_ioctl ex_in6_ifattach_linklocal (fun _ => false) none [] [] ex_sc
      ex_carpr with
  | none => rw [h] at hev; cases hev
  | some r =>
    obtain ⟨e, sc1, carpr1⟩ := r
    rw [h] at hev
    simp only [Option.map_some', Option.some.injEq, Prod.mk.injEq] at hev
    obtain ⟨he, hid⟩ := hev
    subst he
    exact ⟨sc1, carpr1, rfl, hid,
      (carp_vhids_ioctl_sorted ex_in6_ifattach_linklocal (fun _ => false) none [] [] ex_sc
        ex_carpr sc1 carpr1 (by decide) (by decide) h).1⟩

set_option maxRecDepth 100000 in
/-- C15 (per-identity skew update) fails on the code: the coordinator
`ex_sc_rebuilt` was configured with vhid 7 (skew 10) and vhid 3 (skew 20) in
this order, so its entries are vhid 3, vhid 7 and `sc_vhids` is 7, 3.  A set
request that repeats the vhids 7, 3 with the skews 30, 20 leaves the entry
with vhid 7 with skew 20 and the entry with vhid 3 with skew 30: the skews
go to the entries by list position. -/
theorem carp_ioctl_advskews_by_position :
    ex_sc_rebuilt.carp_vhosts.map vhe_ident = [(3, 20), (7, 10)] ∧
    ex_sc_rebuilt.sc_vhids = ex_carpr_skew.carpr_vhids ∧
    ex_carpr_skew.carpr_vhids[0]? = some 7 ∧ ex_carpr_skew.carpr_advskews[0]? = some 30 ∧
    (carp_ioctl_SIOCSVH_vhids ex_in6_ifattach_linklocal (fun _ => false) none [] []
        ex_sc_rebuilt ex_carpr_skew).map
      (fun r => r.toOption.map (fun x => x.2.carp_vhosts.map vhe_ident)) =
      some (some [(3, 30), (7, 20)]) := by
  refine ⟨by decide, by decide, by decide, by decide, by decide⟩

/-! ## Theorems: the demotion counters -/

theorem carp_demote_clamp_eq (dm adj : Int) (hdm : dm ≤ INT_MAX) :
    carp_demote_clamp dm adj = max 0 (min INT_MAX (dm + adj)) := by
  unfold carp_demote_clamp
  simp only [INT_MAX, INT_MIN, max_def, min_def] at hdm ⊢
  split_ifs <;> omega

theorem carp_group_demote_adj_loop_spec (adj : Int) (gs : List Nat) (hnd : gs.Nodup)
    (groups : List ifg_group) (need : Bool) :
    (∀ g, (carp_group_demote_adj_loop adj gs groups need).1[g]? =
      (groups[g]?).map (fun grp =>
        if g ∈ gs ∧ grp.ifg_all = false
        then { grp with ifg_carp_demoted := carp_demote_clamp grp.ifg_carp_demoted adj }
        else grp)) ∧
    (carp_group_demote_adj_loop adj gs groups need).2 =
      (need || gs.any (fun g => (groups[g]?).any (fun grp =>
        !grp.ifg_all && decide (adj > 0 ∧ carp_demote_clamp grp.ifg_carp_demoted adj = 1)))) := by
  induction gs generalizing groups need with
  | nil =>
    unfold carp_group_demote_adj_loop
    refine ⟨fun g => ?_, by simp⟩
    cases groups[g]? <;> simp
  | cons g rest ih =>
    obtain ⟨hg, hrest⟩ := List.nodup_cons.mp hnd
    unfold carp_group_demote_adj_loop
    cases hgrp : groups[g]? with
    | none =>
      dsimp only
      obtain ⟨h1, h2⟩ := ih hrest groups need
      refine ⟨fun g1 => ?_, ?_⟩
      · rw [h1 g1]
        cases hg1 : groups[g1]? with
        | none => rfl
        | some grp1 =>
          have hne : g1 ≠ g := fun h => by rw [h, hgrp] at hg1; cases hg1
          simp [hne]
      · rw [h2]; simp [hgrp]
    | some grp =>
      dsimp only
      by_cases hall : grp.ifg_all = true
      · rw [if_pos hall]
        obtain ⟨h1, h2⟩ := ih hrest groups need
        refine ⟨fun g1 => ?_, ?_⟩
        · rw [h1 g1]
          cases hg1 : groups[g1]? with
          | none => rfl
          | some grp1 =>
            simp only [Option.map_some', List.mem_cons]
            by_cases hne : g1 = g
            · subst hne
              rw [hgrp] at hg1
              cases hg1
              simp [hall]
            · simp [hne]
        · rw [h2]; simp [hgrp, hall]
      · rw [if_neg hall]
        have hall' : grp.ifg_all = false := by simpa using hall
        obtain ⟨h1, h2⟩ := ih hrest
          (groups.set g { grp with ifg_carp_demoted := carp_demote_clamp grp.ifg_carp_demoted adj })
          (if adj > 0 ∧ carp_demote_clamp grp.ifg_carp_demoted adj = 1 then true else need)
        have hset : ∀ (x : ifg_group) (g1 : Nat), g1 ≠ g → (groups.set g x)[g1]? = groups[g1]? := by
          intro x g1 hne
          rw [List.getElem?_set_ne (Ne.symm hne)]
        refine ⟨fun g1 => ?_, ?_⟩
        · rw [h1 g1]
          by_cases hne : g1 = g
          · subst hne
            have hlt : g1 < groups.length := (List.getElem?_eq_some.mp hgrp).1
            rw [List.getElem?_set_self hlt, hgrp]
            simp [hg, hall']
          · rw [hset _ g1 hne]
            cases hg1 : groups[g1]? with
            | none => rfl
            | some grp1 => simp [hne]
        · rw [h2]
          have hany : ∀ (x : ifg_group) (f : ifg_group → Bool),
              rest.any (fun g1 => ((groups.set g x)[g1]?).any f) =
                rest.any (fun g1 => (groups[g1]?).any f) := by
            intro x f
            rw [Bool.eq_iff_iff]
            simp only [List.any_eq_true]
            constructor
            · rintro ⟨g1, hg1, h⟩
              rw [hset x g1 (fun h => hg (h ▸ hg1))] at h
              exact ⟨g1, hg1, h⟩
            · rintro ⟨g1, hg1, h⟩
              rw [← hset x g1 (fun h => hg (h ▸ hg1))] at h
              exact ⟨g1, hg1, h⟩
          rw [hany]
          simp only [List.any_cons, hgrp, Option.any_some, hall', Bool.not_false, Bool.true_and]
          by_cases hc : adj > 0 ∧ carp_demote_clamp grp.ifg_carp_demoted adj = 1
          · simp [hc]
          · simp [hc]


theorem ifref_groups_modify_sc (w : carp_world) (ifp : ifref) (j : Nat)
    (f : carp_softc → carp_softc) (hf : ∀ sc, (f sc).if_groups = sc.if_groups) :
    ifref_groups (modify_sc w j f) ifp = ifref_groups w ifp := by
  unfold ifref_groups modify_sc
  cases ifp with
  | carp j1 =>
    dsimp only
    rw [List.getElem?_modify]
    by_cases h : j = j1
    · subst h
      cases w.softcs[j]? <;> simp [hf]
    · simp [h]
  | phys i => rfl

theorem carp_group_demote_adj_eq (w : carp_world) (ifp : ifref) (adj : Int) :
    carp_group_demote_adj w ifp adj =
      if (carp_group_demote_adj_loop adj (ifref_groups w ifp) w.ifgroups false).2 = true
      then carp_send_ad_all (carp_group_demote_adj_stores w ifp adj)
      else carp_group_demote_adj_stores w ifp adj := by
  cases ifp with
  | carp j =>
    have h := ifref_groups_modify_sc w (ifref.carp j) j
      (fun sc => { sc with sc_demote_cnt := carp_demote_clamp sc.sc_demote_cnt adj })
      (fun _ => rfl)
    rw [← h]
    rfl
  | phys i => rfl

theorem carp_group_demote_adj_stores_ifgroups (w : carp_world) (ifp : ifref) (adj : Int) :
    (carp_group_demote_adj_stores w ifp adj).ifgroups =
      (carp_group_demote_adj_loop adj (ifref_groups w ifp) w.ifgroups false).1 := by
  cases ifp with
  | carp j =>
    have h := ifref_groups_modify_sc w (ifref.carp j) j
      (fun sc => { sc with sc_demote_cnt := carp_demote_clamp sc.sc_demote_cnt adj })
      (fun _ => rfl)
    rw [← h]
    rfl
  | phys i => rfl

theorem carp_group_demote_adj_stores_group (w : carp_world) (ifp : ifref) (adj : Int)
    (hnd : (ifref_groups w ifp).Nodup) (g : Nat) (grp : ifg_group)
    (hg : g ∈ ifref_groups w ifp) (hgrp : w.ifgroups[g]? = some grp)
    (hnall : grp.ifg_all = false) :
    (carp_group_demote_adj_stores w ifp adj).ifgroups[g]? =
      some { grp with ifg_carp_demoted := carp_demote_clamp grp.ifg_carp_demoted adj } := by
  rw [carp_group_demote_adj_stores_ifgroups,
    (carp_group_demote_adj_loop_spec adj _ hnd w.ifgroups false).1 g, hgrp]
  simp [hg, hnall]

/-- C16, amended (saturating demotion adjustment): `carp_group_demote_adj` ends
in the world after its stores, or in `carp_send_ad_all` run on that world; in
that world the own counter of the coordinator (when the interface is a carp
interface) and the counter of every interface group of the interface other
than the catch-all group hold the old value plus `adj` clamped to
[0, INT_MAX], with no wrap-around. -/
theorem carp_group_demote_adj_saturates (w : carp_world) (ifp : ifref) (adj : Int)
    (hnd : (ifref_groups w ifp).Nodup) :
    (carp_group_demote_adj w ifp adj = carp_group_demote_adj_stores w ifp adj ∨
      carp_group_demote_adj w ifp adj =
        carp_send_ad_all (carp_group_demote_adj_stores w ifp adj)) ∧
    (∀ j sc, ifp = ifref.carp j → w.softcs[j]? = some sc → sc.sc_demote_cnt ≤ INT_MAX →
      ∃ sc1, (carp_group_demote_adj_stores w ifp adj).softcs[j]? = some sc1 ∧
        sc1.sc_demote_cnt = max 0 (min INT_MAX (sc.sc_demote_cnt + adj))) ∧
    (∀ g grp, g ∈ ifref_groups w ifp → w.ifgroups[g]? = some grp → grp.ifg_all = false →
      grp.ifg_carp_demoted ≤ INT_MAX →
      ∃ grp1, (carp_group_demote_adj_stores w ifp adj).ifgroups[g]? = some grp1 ∧
        grp1.ifg_carp_demoted = max 0 (min INT_MAX (grp.ifg_carp_demoted + adj))) := by
  refine ⟨?_, ?_, ?_⟩
  · rw [carp_group_demote_adj_eq]
    split
    · exact Or.inr rfl
    · exact Or.inl rfl
  · intro j sc hifp hsc hmax
    subst hifp
    refine ⟨{ sc with sc_demote_cnt := carp_demote_clamp sc.sc_demote_cnt adj }, ?_,
      carp_demote_clamp_eq _ _ hmax⟩
    unfold carp_group_demote_adj_stores
    simp only [modify_sc, List.getElem?_modify, hsc, if_true, Option.map_some']
    rfl
  · intro g grp hg hgrp hnall hmax
    exact ⟨_, carp_group_demote_adj_stores_group w ifp adj hnd g grp hg hgrp hnall,
      carp_demote_clamp_eq _ _ hmax⟩

/-- C16 as stated fails: at `ex_world` both the own counter of the coordinator and
the counter of its group are 0, and after `carp_group_demote_adj` with the
delta -1 both are still 0, not the value 0 + (-1) clamped to
[INT_MIN, INT_MAX], which is -1. -/
theorem carp_group_demote_adj_counterexample :
    (ex_world.softcs[0]?).map (fun sc => sc.sc_demote_cnt) = some 0 ∧
    (ex_world.ifgroups[0]?).map (fun grp => grp.ifg_carp_demoted) = some 0 ∧
    ((carp_group_demote_adj ex_world (ifref.carp 0) (-1)).softcs[0]?).map
      (fun sc => sc.sc_demote_cnt) = some 0 ∧
    ((carp_group_demote_adj ex_world (ifref.carp 0) (-1)).ifgroups[0]?).map
      (fun grp => grp.ifg_carp_demoted) = some 0 ∧
    max INT_MIN (min INT_MAX (0 + (-1))) = -1 := by
  refine ⟨by decide, by decide, by decide, by decide, by decide⟩

/-- The instance of the amended C16 at `ex_world` with the delta 5: the counter
of the group of the coordinator goes from 0 to 5. -/
theorem carp_group_demote_adj_saturates_witness :
    ∃ grp1, (carp_group_demote_adj_stores ex_world (ifref.carp 0) 5).ifgroups[0]? = some grp1 ∧
      grp1.ifg_carp_demoted = max 0 (min INT_MAX (0 + 5)) :=
  (carp_group_demote_adj_saturates ex_world (ifref.carp 0) 5 (by decide)).2.2 0
    { ifg_all := false, ifg_carp_demoted := 0 } (by decide) (by decide) rfl (by decide)


theorem carp_group_demote_count_loop_spec (groups : List ifg_group) (gs : List Nat) (count : Int)
    (hgrp : ∀ g ∈ gs, ∀ grp, groups[g]? = some grp →
      0 ≤ grp.ifg_carp_demoted ∧ grp.ifg_carp_demoted ≤ INT_MAX)
    (hc : 0 ≤ count ∧ count ≤ INT_MAX) :
    0 ≤ ((gs.filterMap (fun g => groups[g]?)).map (fun grp => grp.ifg_carp_demoted)).sum ∧
    carp_group_demote_count_loop groups gs count =
      if count + ((gs.filterMap (fun g => groups[g]?)).map
          (fun grp => grp.ifg_carp_demoted)).sum > INT_MAX then 255
      else count + ((gs.filterMap (fun g => groups[g]?)).map
          (fun grp => grp.ifg_carp_demoted)).sum := by
  induction gs generalizing count with
  | nil =>
    unfold carp_group_demote_count_loop
    simp only [List.filterMap_nil, List.map_nil, List.sum_nil, add_zero, le_refl, true_and]
    rw [if_neg (by omega)]
  | cons g rest ih =>
    have hrest : ∀ g ∈ rest, ∀ grp, groups[g]? = some grp →
        0 ≤ grp.ifg_carp_demoted ∧ grp.ifg_carp_demoted ≤ INT_MAX :=
      fun g1 hg1 => hgrp g1 (List.mem_cons_of_mem _ hg1)
    unfold carp_group_demote_count_loop
    cases hg : groups[g]? with
    | none =>
      dsimp only
      simp only [List.filterMap_cons, hg]
      exact ih count hrest hc
    | some grp =>
      dsimp only
      obtain ⟨hg0, hg1⟩ := hgrp g (List.mem_cons_self _ _) grp hg
      simp only [List.filterMap_cons, hg, List.map_cons, List.sum_cons]
      by_cases hov : count + grp.ifg_carp_demoted > INT_MAX ∨
          count + grp.ifg_carp_demoted < INT_MIN
      · rw [if_pos hov]
        obtain ⟨hs, _⟩ := ih 0 hrest ⟨le_refl 0, by decide⟩
        refine ⟨by omega, ?_⟩
        have : count + grp.ifg_carp_demoted > INT_MAX := by
          rcases hov with h | h
          · exact h
          · simp only [INT_MIN] at h; omega
        rw [if_pos (by omega)]
      · rw [if_neg hov]
        have hc1 : 0 ≤ count + grp.ifg_carp_demoted ∧ count + grp.ifg_carp_demoted ≤ INT_MAX := by
          constructor
          · omega
          · by_contra h
            exact hov (Or.inl (by omega))
        obtain ⟨hs, he⟩ := ih (count + grp.ifg_carp_demoted) hrest hc1
        refine ⟨by omega, ?_⟩
        rw [he, add_assoc]

/-- C17 (wire demotion count): for a coordinator whose own counter and whose
interface-group counters are non-negative, `carp_group_demote_count` returns a
value in [0, 255], equal to min(255, sum of the group counters) when that sum
is not zero and to min(255, own counter) when it is zero; the byte
`carp_send_ad` writes, `carp_group_demote_count(sc) & 0xff`, is that value. -/
theorem carp_group_demote_count_wire (w : carp_world) (sc : carp_softc)
    (hown : 0 ≤ sc.sc_demote_cnt)
    (hgrp : ∀ g ∈ sc.if_groups, ∀ grp, w.ifgroups[g]? = some grp →
      0 ≤ grp.ifg_carp_demoted ∧ grp.ifg_carp_demoted ≤ INT_MAX) :
    0 ≤ carp_group_demote_count w sc ∧ carp_group_demote_count w sc ≤ 255 ∧
    (carp_group_demote_sum w sc ≠ 0 →
      carp_group_demote_count w sc = min 255 (carp_group_demote_sum w sc)) ∧
    (carp_group_demote_sum w sc = 0 →
      carp_group_demote_count w sc = min 255 sc.sc_demote_cnt) ∧
    carp_send_ad_demote w sc = carp_group_demote_count w sc := by
  obtain ⟨hs, he⟩ := carp_group_demote_count_loop_spec w.ifgroups sc.if_groups 0 hgrp
    ⟨le_refl 0, by decide⟩
  have hsum : carp_group_demote_sum w sc =
      ((sc.if_groups.filterMap (fun g => w.ifgroups[g]?)).map
        (fun grp => grp.ifg_carp_demoted)).sum := rfl
  rw [← hsum] at hs he
  rw [zero_add] at he
  have key : carp_group_demote_count w sc =
      if carp_group_demote_sum w sc ≠ 0 then min 255 (carp_group_demote_sum w sc)
      else min 255 sc.sc_demote_cnt := by
    unfold carp_group_demote_count
    rw [he]
    simp only [INT_MAX, min_def]
    split_ifs <;> omega
  have hr : 0 ≤ carp_group_demote_count w sc ∧ carp_group_demote_count w sc ≤ 255 := by
    rw [key]
    simp only [min_def]
    split_ifs <;> omega
  refine ⟨hr.1, hr.2, fun h => by rw [key, if_pos h], fun h => by rw [key, if_neg (not_not.mpr h)],
    ?_⟩
  unfold carp_send_ad_demote
  exact Int.emod_eq_of_lt hr.1 (by omega)

/-- The instance of C17 at `ex_world` and its coordinator `ex_sc`. -/
theorem carp_group_demote_count_wire_witness :
    0 ≤ carp_group_demote_count ex_world ex_sc ∧ carp_group_demote_count ex_world ex_sc ≤ 255 :=
  have h := carp_group_demote_count_wire ex_world ex_sc (by decide) (by decide)
  ⟨h.1, h.2.1⟩

theorem carp_demote_clamp_pos (c adj : Int) (hc : 0 ≤ c) (hadj : 1 < adj) :
    carp_demote_clamp c adj ≠ 1 := by
  unfold carp_demote_clamp
  simp only [INT_MAX, INT_MIN]
  split_ifs <;> omega

/-- C18, amended (demotion burst): for a positive delta `adj` and a group of the
interface other than the catch-all group whose demotion count is 0 before the
call, `carp_group_demote_adj` stores `adj` in that count; when `adj` is 1 it
goes on to `carp_send_ad_all`, and when `adj` is greater than 1 and no group
counter of the interface is negative it does not. -/
theorem carp_group_demote_adj_burst (w : carp_world) (ifp : ifref) (adj : Int)
    (g : Nat) (grp : ifg_group) (hnd : (ifref_groups w ifp).Nodup)
    (hg : g ∈ ifref_groups w ifp) (hgrp : w.ifgroups[g]? = some grp)
    (hnall : grp.ifg_all = false) (h0 : grp.ifg_carp_demoted = 0)
    (hadj : 0 < adj ∧ adj ≤ INT_MAX) :
    (∃ grp1, (carp_group_demote_adj_stores w ifp adj).ifgroups[g]? = some grp1 ∧
      grp1.ifg_carp_demoted = adj) ∧
    (adj = 1 → carp_group_demote_adj w ifp adj =
      carp_send_ad_all (carp_group_demote_adj_stores w ifp adj)) ∧
    (1 < adj →
      (∀ g1 ∈ ifref_groups w ifp, ∀ grp1, w.ifgroups[g1]? = some grp1 →
        0 ≤ grp1.ifg_carp_demoted) →
      carp_group_demote_adj w ifp adj = carp_group_demote_adj_stores w ifp adj) := by
  have hclamp : carp_demote_clamp grp.ifg_carp_demoted adj = adj := by
    rw [h0]
    unfold carp_demote_clamp
    obtain ⟨h1, h2⟩ := hadj
    simp only [INT_MAX, INT_MIN] at h2 ⊢
    split_ifs <;> omega
  have hneed := (carp_group_demote_adj_loop_spec adj _ hnd w.ifgroups false).2
  refine ⟨⟨_, carp_group_demote_adj_stores_group w ifp adj hnd g grp hg hgrp hnall, hclamp⟩,
    ?_, ?_⟩
  · intro h1
    rw [carp_group_demote_adj_eq, hneed, if_pos]
    simp only [Bool.false_or, List.any_eq_true]
    refine ⟨g, hg, ?_⟩
    rw [hgrp]
    have hc1 : carp_demote_clamp grp.ifg_carp_demoted adj = 1 := by rw [hclamp, h1]
    simp [hnall, hc1, hadj.1]
  · intro h1 hnn
    rw [carp_group_demote_adj_eq, hneed, if_neg]
    simp only [Bool.false_or, List.any_eq_true, not_exists, not_and]
    intro g1 hg1
    cases hgrp1 : w.ifgroups[g1]? with
    | none => simp
    | some grp1 =>
      have := carp_demote_clamp_pos grp1.ifg_carp_demoted adj (hnn g1 hg1 grp1 hgrp1) h1
      simp [this]

/-- C18 as stated fails: at `ex_world_master` the group of the coordinator has
demotion count 0 and a MASTER entry is ready to advertise; after
`carp_group_demote_adj` with the delta 2 the count is 2 and no advertisement
went out (`carps_opackets` is still 0), while `carp_send_ad_all` on the same
state sends one. -/
theorem carp_group_demote_adj_burst_counterexample :
    (ex_world_master.ifgroups[0]?).map (fun grp => (grp.ifg_all, grp.ifg_carp_demoted)) =
      some (false, 0) ∧
    ((carp_group_demote_adj ex_world_master (ifref.carp 0) 2).ifgroups[0]?).map
      (fun grp => grp.ifg_carp_demoted) = some 2 ∧
    carp_group_demote_adj ex_world_master (ifref.carp 0) 2 =
      carp_group_demote_adj_stores ex_world_master (ifref.carp 0) 2 ∧
    (carp_group_demote_adj ex_world_master (ifref.carp 0) 2).carpstat.carps_opackets = 0 ∧
    (carp_send_ad_all
      (carp_group_demote_adj_stores ex_world_master (ifref.carp 0) 2)).carpstat.carps_opackets =
      1 := by
  refine ⟨by decide, by decide, by decide, by decide, by decide⟩

/-- The instance of the amended C18 at `ex_world_master` with the delta 1: the
burst is triggered. -/
theorem carp_group_demote_adj_burst_witness :
    carp_group_demote_adj ex_world_master (ifref.carp 0) 1 =
      carp_send_ad_all (carp_group_demote_adj_stores ex_world_master (ifref.carp 0) 1) :=
  (carp_group_demote_adj_burst ex_world_master (ifref.carp 0) 1 0
    { ifg_all := false, ifg_carp_demoted := 0 } (by decide) (by decide) (by decide) rfl rfl
    (by decide)).2.1 rfl

/-! ## Theorems: the send-error streaks -/

theorem softcs_modify_sc_self (w : carp_world) (j : Nat) (f : carp_softc → carp_softc)
    (sc : carp_softc) (h : w.softcs[j]? = some sc) :
    (modify_sc w j f).softcs[j]? = some (f sc) := by
  simp [modify_sc, List.getElem?_modify, h]

theorem carp_send_ad_account_fail (demote_adj : carp_world → Int → carp_world)
    (w : carp_world) (j : Nat) (enobufs : Bool) (sc : carp_softc)
    (hsc : w.softcs[j]? = some sc) :
    carp_send_ad_account demote_adj w j true enobufs =
      modify_sc
        (if sendad_errors_inc sc.sc_sendad_errors = 3 * sc.sc_vhe_count
          then demote_adj (carp_send_ad_account_failed w j enobufs) 1
          else carp_send_ad_account_failed w j enobufs)
        j (fun sc => { sc with sc_sendad_success := 0 }) := by
  have hmod : ∀ w1 : carp_world, w1.softcs = w.softcs →
      modify_sc w1 j (fun sc1 =>
        { sc1 with if_oerrors := sc1.if_oerrors + 1,
                   sc_sendad_errors := sendad_errors_inc sc.sc_sendad_errors }) =
      modify_sc w1 j (fun sc1 =>
        { sc1 with if_oerrors := sc1.if_oerrors + 1,
                   sc_sendad_errors := sendad_errors_inc sc1.sc_sendad_errors })
      := by
    intro w1 hw1
    unfold modify_sc
    congr 1
    apply List.ext_getElem?
    intro i
    simp only [List.getElem?_modify]
    by_cases hi : j = i
    · subst hi
      rw [hw1, hsc]
      simp
    · simp [hi]
  unfold carp_send_ad_account carp_send_ad_account_failed
  rw [hsc]
  simp only [if_true]
  cases enobufs
  · simp only [Bool.false_eq_true, if_false]
    rw [← hmod w rfl]
    rfl
  · simp only [if_true]
    rw [← hmod (carpstat_inc w carps_counter.carps_onomem) rfl]
    rfl

theorem carp_send_ad_account_ok (demote_adj : carp_world → Int → carp_world)
    (w : carp_world) (j : Nat) (enobufs : Bool) (sc : carp_softc)
    (hsc : w.softcs[j]? = some sc) :
    carp_send_ad_account demote_adj w j false enobufs =
      if sc.sc_sendad_errors ≥ 3 * sc.sc_vhe_count then
        if sc.sc_sendad_success + 1 ≥ 3 * sc.sc_vhe_count then
          modify_sc
            (demote_adj (modify_sc w j (fun sc1 =>
              { sc1 with sc_sendad_success := sc.sc_sendad_success + 1 })) (-1))
            j (fun sc => { sc with sc_sendad_errors := 0 })
        else modify_sc w j (fun sc1 =>
          { sc1 with sc_sendad_success := sc.sc_sendad_success + 1 })
      else modify_sc w j (fun sc => { sc with sc_sendad_errors := 0 }) := by
  unfold carp_send_ad_account
  rw [hsc]
  simp only [Bool.false_eq_true, if_false]


theorem failure_streak_append (e : Nat) (l : List Bool) (f : Bool) :
    failure_streak e (l ++ [f]) = if f then failure_streak e l + 1 else 0 := by
  unfold failure_streak
  rw [List.foldl_append]
  cases f <;> simp

theorem failure_streak_cons (e : Nat) (f : Bool) (l : List Bool) :
    failure_streak e (f :: l) = failure_streak (if f then e + 1 else 0) l := by
  unfold failure_streak
  rw [List.foldl_cons]

theorem append_singleton_suffix {α : Type} (a b : List α) (x y : α)
    (h : a ++ [x] <:+ b ++ [y]) : x = y ∧ a <:+ b := by
  obtain ⟨t, ht⟩ := h
  rw [← List.append_assoc] at ht
  have h1 := List.append_inj' ht rfl
  exact ⟨by simpa using h1.2, ⟨t, h1.1⟩⟩

theorem failure_streak_suffix (l : List Bool) :
    List.replicate (failure_streak 0 l) true <:+ l := by
  induction l using List.reverseRecOn with
  | nil => exact List.nil_suffix
  | append_singleton l f ih =>
    rw [failure_streak_append]
    cases f with
    | false => exact List.nil_suffix
    | true =>
      simp only [if_true]
      rw [List.replicate_succ']
      obtain ⟨t, ht⟩ := ih
      exact ⟨t, by rw [← List.append_assoc, ht]⟩

theorem le_failure_streak (k : Nat) (l : List Bool) (h : List.replicate k true <:+ l) :
    k ≤ failure_streak 0 l := by
  induction l using List.reverseRecOn generalizing k with
  | nil =>
    have := List.eq_nil_of_suffix_nil h
    cases k with
    | zero => exact Nat.zero_le _
    | succ k => simp [List.replicate_succ] at this
  | append_singleton l f ih =>
    cases k with
    | zero => exact Nat.zero_le _
    | succ k =>
      rw [List.replicate_succ'] at h
      obtain ⟨h1, h2⟩ := append_singleton_suffix _ _ _ _ h
      subst h1
      rw [failure_streak_append]
      simp only [if_true]
      exact Nat.succ_le_succ (ih k h2)

theorem failure_streak_lt (n : Nat) (l : List Bool)
    (h : ¬ List.replicate n true <:+: l) (p : List Bool) (hp : p <+: l) :
    failure_streak 0 p < n := by
  by_contra hge
  apply h
  have hs := failure_streak_suffix p
  have h1 : List.replicate n true <:+ List.replicate (failure_streak 0 p) true := by
    refine ⟨List.replicate (failure_streak 0 p - n) true, ?_⟩
    rw [List.append_replicate_replicate]
    congr 1
    omega
  exact (h1.trans hs).isInfix.trans hp.isInfix

theorem carp_send_ad_account_seq_cons (demote_adj : carp_world → Int → carp_world)
    (w : carp_world) (j : Nat) (r : Bool × Bool) (rest : List (Bool × Bool)) :
    carp_send_ad_account_seq demote_adj w j (r :: rest) =
      carp_send_ad_account_seq demote_adj (carp_send_ad_account demote_adj w j r.1 r.2) j rest :=
  rfl

theorem carp_send_ad_account_failed_softcs (w : carp_world) (j : Nat) (enobufs : Bool)
    (sc : carp_softc) (hsc : w.softcs[j]? = some sc) :
    (carp_send_ad_account_failed w j enobufs).softcs[j]? =
      some { sc with if_oerrors := sc.if_oerrors + 1,
                     sc_sendad_errors := sendad_errors_inc sc.sc_sendad_errors } ∧
    (carp_send_ad_account_failed w j enobufs).ifgroups = w.ifgroups := by
  unfold carp_send_ad_account_failed
  cases enobufs
  · exact ⟨softcs_modify_sc_self _ _ _ _ hsc, rfl⟩
  · exact ⟨softcs_modify_sc_self _ _ _ _ hsc, rfl⟩

theorem carp_send_ad_account_seq_below (demote_adj : carp_world → Int → carp_world)
    (j : Nat) (N : Int) (hN : 1 ≤ N ∧ 3 * N ≤ INT_MAX) (results : List (Bool × Bool))
    (w : carp_world) (sc : carp_softc) (e0 : Nat) (hsc : w.softcs[j]? = some sc)
    (hcount : sc.sc_vhe_count = N) (herr : sc.sc_sendad_errors = (e0 : Int))
    (hsuc : sc.sc_sendad_success = 0)
    (hshort : ∀ p, p <+: results.map Prod.fst → (failure_streak e0 p : Int) < 3 * N) :
    carp_send_ad_account_seq demote_adj w j results =
      carp_send_ad_account_seq (fun w _ => w) w j results ∧
    (carp_send_ad_account_seq demote_adj w j results).ifgroups = w.ifgroups ∧
    ∃ sc1, (carp_send_ad_account_seq demote_adj w j results).softcs[j]? = some sc1 ∧
      sc1.sc_vhe_count = N ∧ sc1.sc_demote_cnt = sc.sc_demote_cnt ∧
      sc1.sc_sendad_errors = (failure_streak e0 (results.map Prod.fst) : Int) ∧
      sc1.sc_sendad_success = 0 := by
  induction results generalizing w sc e0 with
  | nil => exact ⟨rfl, rfl, sc, hsc, hcount, rfl, herr, hsuc⟩
  | cons r rest ih =>
    obtain ⟨f, e⟩ := r
    have he0 : (e0 : Int) < 3 * N := hshort [] (List.nil_prefix)
    have hrest : ∀ p, p <+: rest.map Prod.fst →
        (failure_streak (if f then e0 + 1 else 0) p : Int) < 3 * N := by
      intro p hp
      rw [← failure_streak_cons]
      apply hshort
      rw [List.map_cons]
      exact (List.prefix_cons_inj f).mpr hp
    rw [carp_send_ad_account_seq_cons, carp_send_ad_account_seq_cons]
    simp only [List.map_cons, failure_streak_cons]
    cases f with
    | true =>
      have h1 : ((e0 + 1 : Nat) : Int) < 3 * N := by
        have := hrest [] (List.nil_prefix)
        simpa [failure_streak] using this
      have hmax : sc.sc_sendad_errors < INT_MAX := by rw [herr]; omega
      have hinc : sendad_errors_inc sc.sc_sendad_errors = ((e0 + 1 : Nat) : Int) := by
        unfold sendad_errors_inc
        rw [if_pos hmax, herr]
        push_cast
        rfl
      have hne : ¬ sendad_errors_inc sc.sc_sendad_errors = 3 * sc.sc_vhe_count := by
        rw [hinc, hcount]; omega
      have ha : ∀ da : carp_world → Int → carp_world,
          carp_send_ad_account da w j true e =
            modify_sc (carp_send_ad_account_failed w j e) j
              (fun sc => { sc with sc_sendad_success := 0 }) := by
        intro da
        rw [carp_send_ad_account_fail da w j e sc hsc, if_neg hne]
      obtain ⟨hf1, hf2⟩ := carp_send_ad_account_failed_softcs w j e sc hsc
      have hsc1 := softcs_modify_sc_self (carp_send_ad_account_failed w j e) j
        (fun sc => { sc with sc_sendad_success := 0 }) _ hf1
      rw [ha demote_adj, ha (fun w _ => w)]
      obtain ⟨i1, i2, sc1, i3, i4, i5, i6, i7⟩ := ih _ _ (e0 + 1) hsc1 hcount hinc rfl hrest
      exact ⟨i1, i2.trans hf2, sc1, i3, i4, i5, i6, i7⟩
    | false =>
      have hlt : ¬ sc.sc_sendad_errors ≥ 3 * sc.sc_vhe_count := by
        rw [herr, hcount]; omega
      have ha : ∀ da : carp_world → Int → carp_world,
          carp_send_ad_account da w j false e =
            modify_sc w j (fun sc => { sc with sc_sendad_errors := 0 }) := by
        intro da
        rw [carp_send_ad_account_ok da w j e sc hsc, if_neg hlt]
      have hsc1 := softcs_modify_sc_self w j
        (fun sc => { sc with sc_sendad_errors := 0 }) _ hsc
      rw [ha demote_adj, ha (fun w _ => w)]
      obtain ⟨i1, i2, sc1, i3, i4, i5, i6, i7⟩ := ih _ _ 0 hsc1 hcount rfl hsuc hrest
      exact ⟨i1, i2, sc1, i3, i4, i5, i6, i7⟩


/-- C19 (automatic demotion threshold): for a coordinator with N >= 1 entries
(`sc_vhe_count`) whose streaks `sc_sendad_errors` and `sc_sendad_success` are 0,
and any sequence of send results without a run of 3*N consecutive failures,
the bookkeeping of `carp_send_ad` never calls `carp_group_demote_adj` (the
outcome does not depend on it), the group counters and the own demotion
counter are unchanged, and `sc_sendad_errors` is the length of the run of
failures at the end of the sequence, 0 after a success.  When that run has
length 3*N - 1, the next failed send calls `carp_group_demote_adj` exactly once,
with +1. -/
theorem carp_send_ad_demote_threshold (demote_adj : carp_world → Int → carp_world)
    (w : carp_world) (j : Nat) (sc : carp_softc) (N : Int) (results : List (Bool × Bool))
    (hsc : w.softcs[j]? = some sc) (hN : 1 ≤ N ∧ 3 * N ≤ INT_MAX)
    (hcount : sc.sc_vhe_count = N)
    (h0 : sc.sc_sendad_errors = 0 ∧ sc.sc_sendad_success = 0)
    (hshort : ¬ List.replicate (3 * N).toNat true <:+: results.map Prod.fst) :
    carp_send_ad_account_seq demote_adj w j results =
      carp_send_ad_account_seq (fun w _ => w) w j results ∧
    (carp_send_ad_account_seq demote_adj w j results).ifgroups = w.ifgroups ∧
    (∃ sc1, (carp_send_ad_account_seq demote_adj w j results).softcs[j]? = some sc1 ∧
      sc1.sc_demote_cnt = sc.sc_demote_cnt ∧
      sc1.sc_sendad_errors = (failure_streak 0 (results.map Prod.fst) : Int) ∧
      sc1.sc_sendad_success = 0) ∧
    (List.replicate ((3 * N).toNat - 1) true <:+ results.map Prod.fst → ∀ enobufs,
      carp_send_ad_account demote_adj (carp_send_ad_account_seq demote_adj w j results) j
          true enobufs =
        modify_sc
          (demote_adj
            (carp_send_ad_account_failed (carp_send_ad_account_seq demote_adj w j results) j
              enobufs) 1)
          j (fun sc => { sc with sc_sendad_success := 0 })) := by
  have hlt : ∀ p, p <+: results.map Prod.fst → (failure_streak 0 p : Int) < 3 * N := by
    intro p hp
    have := failure_streak_lt _ _ hshort p hp
    omega
  obtain ⟨i1, i2, sc1, i3, i4, i5, i6, i7⟩ := carp_send_ad_account_seq_below demote_adj j N hN
    results w sc 0 hsc hcount (by rw [h0.1]; rfl) h0.2 hlt
  refine ⟨i1, i2, ⟨sc1, i3, i5, i6, i7⟩, ?_⟩
  intro hsuf enobufs
  have hge := le_failure_streak _ _ hsuf
  have hl := hlt _ (List.prefix_refl _)
  have hinc : sendad_errors_inc sc1.sc_sendad_errors = 3 * sc1.sc_vhe_count := by
    unfold sendad_errors_inc
    rw [i6, i4, if_pos (by omega)]
    omega
  rw [carp_send_ad_account_fail demote_adj _ j enobufs sc1 i3, if_pos hinc]

/-- The instance of C19 at `ex_world` (one entry, so the threshold is 3) and the
results `ex_results`, whose runs of failures have length 2: no adjustment, and
the failure streak at the end is 2. -/
theorem carp_send_ad_demote_threshold_witness :
    carp_send_ad_account_seq (fun w adj => carp_group_demote_adj w (ifref.carp 0) adj)
        ex_world 0 ex_results =
      carp_send_ad_account_seq (fun w _ => w) ex_world 0 ex_results ∧
    (carp_send_ad_account_seq (fun w adj => carp_group_demote_adj w (ifref.carp 0) adj)
        ex_world 0 ex_results).ifgroups = ex_world.ifgroups :=
  have h := carp_send_ad_demote_threshold
    (fun w adj => carp_group_demote_adj w (ifref.carp 0) adj) ex_world 0 ex_sc 1 ex_results
    rfl (by decide) rfl (by decide) (by decide)
  ⟨h.1, h.2.1⟩

theorem carp_send_ad_account_seq_pending (demote_adj : carp_world → Int → carp_world)
    (j : Nat) (N : Int) (results : List (Bool × Bool))
    (w : carp_world) (sc : carp_softc) (s0 : Nat) (hsc : w.softcs[j]? = some sc)
    (hcount : sc.sc_vhe_count = N) (herr : 3 * N ≤ sc.sc_sendad_errors)
    (hsuc : sc.sc_sendad_success = (s0 : Int))
    (hok : ∀ r ∈ results, r.1 = false) (hlen : ((s0 + results.length : Nat) : Int) < 3 * N) :
    carp_send_ad_account_seq demote_adj w j results =
      carp_send_ad_account_seq (fun w _ => w) w j results ∧
    (carp_send_ad_account_seq demote_adj w j results).ifgroups = w.ifgroups ∧
    ∃ sc1, (carp_send_ad_account_seq demote_adj w j results).softcs[j]? = some sc1 ∧
      sc1.sc_vhe_count = N ∧ sc1.sc_demote_cnt = sc.sc_demote_cnt ∧
      sc1.sc_sendad_errors = sc.sc_sendad_errors ∧
      sc1.sc_sendad_success = ((s0 + results.length : Nat) : Int) := by
  induction results generalizing w sc s0 with
  | nil => exact ⟨rfl, rfl, sc, hsc, hcount, rfl, rfl, by simpa using hsuc⟩
  | cons r rest ih =>
    obtain ⟨f, e⟩ := r
    have hf : f = false := hok (f, e) (List.mem_cons_self _ _)
    subst hf
    have hrest : ∀ r ∈ rest, r.1 = false := fun r hr => hok r (List.mem_cons_of_mem _ hr)
    simp only [List.length_cons] at hlen
    push_cast at hlen
    have h1 : sc.sc_sendad_errors ≥ 3 * sc.sc_vhe_count := by rw [hcount]; exact herr
    have h2 : ¬ sc.sc_sendad_success + 1 ≥ 3 * sc.sc_vhe_count := by
      rw [hcount, hsuc]; omega
    have ha : ∀ da : carp_world → Int → carp_world,
        carp_send_ad_account da w j false e =
          modify_sc w j (fun sc1 => { sc1 with sc_sendad_success := sc.sc_sendad_success + 1 })
        := by
      intro da
      rw [carp_send_ad_account_ok da w j e sc hsc, if_pos h1, if_neg h2]
    have hsc1 := softcs_modify_sc_self w j
      (fun sc1 => { sc1 with sc_sendad_success := sc.sc_sendad_success + 1 }) _ hsc
    rw [carp_send_ad_account_seq_cons, carp_send_ad_account_seq_cons, ha demote_adj,
      ha (fun w _ => w)]
    obtain ⟨i1, i2, sc1, i3, i4, i5, i6, i7⟩ := ih _ _ (s0 + 1) hsc1 hcount herr
      (by simp only [hsuc]; push_cast; rfl) hrest (by push_cast; omega)
    refine ⟨i1, i2, sc1, i3, i4, i5, i6, ?_⟩
    rw [i7]
    simp only [List.length_cons]
    push_cast
    omega

/-- C20 (automatic un-demotion): for a coordinator with N entries whose
failure streak `sc_sendad_errors` has reached 3*N and whose success streak
`sc_sendad_success` is 0, a run of fewer than 3*N successful sends never calls
`carp_group_demote_adj`, leaves the demotion counters and the failure streak
as they are and counts the successes; if that run has length 3*N - 1, the next
success calls `carp_group_demote_adj` exactly once, with -1, and then sets
`sc_sendad_errors` to 0; a failed send after the run calls nothing and leaves
the success streak at 0 with the failure streak still at 3*N or more, the
state this claim starts from. -/
theorem carp_send_ad_undemote (demote_adj : carp_world → Int → carp_world)
    (w : carp_world) (j : Nat) (sc : carp_softc) (N : Int) (results : List (Bool × Bool))
    (hsc : w.softcs[j]? = some sc) (hcount : sc.sc_vhe_count = N)
    (herr : 3 * N ≤ sc.sc_sendad_errors ∧ sc.sc_sendad_errors ≤ INT_MAX)
    (hsuc : sc.sc_sendad_success = 0)
    (hok : ∀ r ∈ results, r.1 = false) (hlen : (results.length : Int) < 3 * N) :
    carp_send_ad_account_seq demote_adj w j results =
      carp_send_ad_account_seq (fun w _ => w) w j results ∧
    (carp_send_ad_account_seq demote_adj w j results).ifgroups = w.ifgroups ∧
    (∃ sc1, (carp_send_ad_account_seq demote_adj w j results).softcs[j]? = some sc1 ∧
      sc1.sc_demote_cnt = sc.sc_demote_cnt ∧
      sc1.sc_sendad_errors = sc.sc_sendad_errors ∧
      sc1.sc_sendad_success = (results.length : Int)) ∧
    ((results.length : Int) + 1 = 3 * N → ∀ enobufs,
      carp_send_ad_account demote_adj (carp_send_ad_account_seq demote_adj w j results) j
          false enobufs =
        modify_sc
          (demote_adj
            (modify_sc (carp_send_ad_account_seq demote_adj w j results) j
              (fun sc1 => { sc1 with sc_sendad_success := 3 * N })) (-1))
          j (fun sc => { sc with sc_sendad_errors := 0 })) ∧
    (∀ enobufs,
      carp_send_ad_account demote_adj (carp_send_ad_account_seq demote_adj w j results) j
          true enobufs =
        carp_send_ad_account (fun w _ => w)
          (carp_send_ad_account_seq demote_adj w j results) j true enobufs ∧
      (carp_send_ad_account demote_adj (carp_send_ad_account_seq demote_adj w j results) j
          true enobufs).ifgroups = w.ifgroups ∧
      ∃ sc2, (carp_send_ad_account demote_adj
          (carp_send_ad_account_seq demote_adj w j results) j true enobufs).softcs[j]? =
            some sc2 ∧
        sc2.sc_vhe_count = N ∧ sc2.sc_demote_cnt = sc.sc_demote_cnt ∧
        sc2.sc_sendad_success = 0 ∧
        3 * N ≤ sc2.sc_sendad_errors ∧ sc2.sc_sendad_errors ≤ INT_MAX) := by
  obtain ⟨i1, i2, sc1, i3, i4, i5, i6, i7⟩ := carp_send_ad_account_seq_pending demote_adj j N
    results w sc 0 hsc hcount herr.1 (by rw [hsuc]; rfl) hok (by simpa using hlen)
  have i7' : sc1.sc_sendad_success = (results.length : Int) := by simpa using i7
  refine ⟨i1, i2, ⟨sc1, i3, i5, i6, i7'⟩, ?_, ?_⟩
  · intro hlast enobufs
    have h1 : sc1.sc_sendad_errors ≥ 3 * sc1.sc_vhe_count := by rw [i4, i6]; exact herr.1
    have h2 : sc1.sc_sendad_success + 1 ≥ 3 * sc1.sc_vhe_count := by
      rw [i4, i7']; omega
    rw [carp_send_ad_account_ok demote_adj _ j enobufs sc1 i3, if_pos h1, if_pos h2,
      i7', hlast]
  · intro enobufs
    have hinc : ¬ sendad_errors_inc sc1.sc_sendad_errors = 3 * sc1.sc_vhe_count := by
      unfold sendad_errors_inc
      rw [i4, i6]
      obtain ⟨h1, h2⟩ := herr
      simp only [INT_MAX] at h2 ⊢
      split_ifs <;> omega
    have ha : ∀ da : carp_world → Int → carp_world,
        carp_send_ad_account da (carp_send_ad_account_seq demote_adj w j results) j true
            enobufs =
          modify_sc
            (carp_send_ad_account_failed (carp_send_ad_account_seq demote_adj w j results) j
              enobufs)
            j (fun sc => { sc with sc_sendad_success := 0 }) := by
      intro da
      rw [carp_send_ad_account_fail da _ j enobufs sc1 i3, if_neg hinc]
    obtain ⟨hf1, hf2⟩ := carp_send_ad_account_failed_softcs
      (carp_send_ad_account_seq demote_adj w j results) j enobufs sc1 i3
    have hsc2 := softcs_modify_sc_self
      (carp_send_ad_account_failed (carp_send_ad_account_seq demote_adj w j results) j enobufs)
      j (fun sc => { sc with sc_sendad_success := 0 }) _ hf1
    rw [ha demote_adj, ha (fun w _ => w)]
    refine ⟨rfl, hf2.trans i2, _, hsc2, i4, i5, rfl, ?_⟩
    show 3 * N ≤ sendad_errors_inc sc1.sc_sendad_errors ∧
      sendad_errors_inc sc1.sc_sendad_errors ≤ INT_MAX
    unfold sendad_errors_inc
    rw [i6]
    obtain ⟨h1, h2⟩ := herr
    simp only [INT_MAX] at h2 ⊢
    split_ifs <;> omega

/-- The instance of C20 at `ex_world_demoted` (one entry, three failures
counted) after two successful sends: the third success calls
`carp_group_demote_adj` with -1 and clears the failure streak. -/
theorem carp_send_ad_undemote_witness :
    carp_send_ad_account (fun w adj => carp_group_demote_adj w (ifref.carp 0) adj)
        (carp_send_ad_account_seq (fun w adj => carp_group_demote_adj w (ifref.carp 0) adj)
          ex_world_demoted 0 [(false, false), (false, false)]) 0 false false =
      modify_sc
        (carp_group_demote_adj
          (modify_sc
            (carp_send_ad_account_seq (fun w adj => carp_group_demote_adj w (ifref.carp 0) adj)
              ex_world_demoted 0 [(false, false), (false, false)]) 0
            (fun sc1 => { sc1 with sc_sendad_success := 3 * 1 })) (ifref.carp 0) (-1))
        0 (fun sc => { sc with sc_sendad_errors := 0 }) :=
  (carp_send_ad_undemote (fun w adj => carp_group_demote_adj w (ifref.carp 0) adj)
    ex_world_demoted 0 ex_sc_demoted 1 [(false, false), (false, false)] rfl rfl
    (by decide) rfl (by decide) (by decide)).2.2.2.1 (by decide) false

/-! ## Theorems: the link state and stale master-down events -/

theorem carp_set_state_link_spec (l : List carp_vhost_entry) (ls : link_state) :
    carp_set_state_link l ls =
      if ∃ v ∈ l, v.state = carp_state.MASTER then link_state.LINK_STATE_UP
      else if ∃ v ∈ l, v.state = carp_state.BACKUP then link_state.LINK_STATE_DOWN
      else ls := by
  induction l generalizing ls with
  | nil => simp [carp_set_state_link]
  | cons v rest ih =>
    unfold carp_set_state_link
    cases hst : v.state with
    | MASTER => simp [hst]
    | BACKUP =>
      simp only [reduceCtorEq, if_false, if_true, ih, List.mem_cons, exists_eq_or_imp, hst,
        false_or, true_or]
      split_ifs <;> rfl
    | INIT =>
      simp only [reduceCtorEq, if_false, ih, List.mem_cons, exists_eq_or_imp, hst, false_or]

/-- C28 (derived link state): after `carp_set_state` the link state of the
coordinator's interface is UP iff at least one entry is MASTER, DOWN iff no
entry is MASTER and at least one is BACKUP, and INVALID iff every entry is
INIT. -/
theorem carp_set_state_link_state (sc : carp_softc) (k : Nat) (state : carp_state) :
    ((carp_set_state sc k state).if_link_state = link_state.LINK_STATE_UP ↔
      ∃ v ∈ (carp_set_state sc k state).carp_vhosts, v.state = carp_state.MASTER) ∧
    ((carp_set_state sc k state).if_link_state = link_state.LINK_STATE_DOWN ↔
      (∀ v ∈ (carp_set_state sc k state).carp_vhosts, v.state ≠ carp_state.MASTER) ∧
        ∃ v ∈ (carp_set_state sc k state).carp_vhosts, v.state = carp_state.BACKUP) ∧
    ((carp_set_state sc k state).if_link_state = link_state.LINK_STATE_INVALID ↔
      ∀ v ∈ (carp_set_state sc k state).carp_vhosts, v.state = carp_state.INIT) := by
  have hl : (carp_set_state sc k state).if_link_state =
      carp_set_state_link (carp_set_state sc k state).carp_vhosts
        link_state.LINK_STATE_INVALID := rfl
  rw [hl, carp_set_state_link_spec]
  generalize (carp_set_state sc k state).carp_vhosts = l
  by_cases hm : ∃ v ∈ l, v.state = carp_state.MASTER
  · rw [if_pos hm]
    refine ⟨⟨fun _ => hm, fun _ => rfl⟩, ⟨fun h => (by cases h), ?_⟩, ⟨fun h => (by cases h), ?_⟩⟩
    · rintro ⟨h1, _⟩
      obtain ⟨v, hv, hs⟩ := hm
      exact absurd hs (h1 v hv)
    · intro h
      obtain ⟨v, hv, hs⟩ := hm
      rw [h v hv] at hs
      cases hs
  · rw [if_neg hm]
    have hnm : ∀ v ∈ l, v.state ≠ carp_state.MASTER := fun v hv hs => hm ⟨v, hv, hs⟩
    by_cases hb : ∃ v ∈ l, v.state = carp_state.BACKUP
    · rw [if_pos hb]
      refine ⟨⟨fun h => (by cases h), fun h => absurd h hm⟩, ⟨fun _ => ⟨hnm, hb⟩, fun _ => rfl⟩,
        ⟨fun h => (by cases h), ?_⟩⟩
      intro h
      obtain ⟨v, hv, hs⟩ := hb
      rw [h v hv] at hs
      cases hs
    · rw [if_neg hb]
      refine ⟨⟨fun h => (by cases h), fun h => absurd h hm⟩,
        ⟨fun h => (by cases h), fun h => absurd h.2 hb⟩, ⟨fun _ => ?_, fun _ => rfl⟩⟩
      intro v hv
      cases hs : v.state with
      | INIT => rfl
      | BACKUP => exact absurd ⟨v, hv, hs⟩ hb
      | MASTER => exact absurd ⟨v, hv, hs⟩ hm

/-- C29 (a stale master-down event is harmless): for an entry in MASTER or in
INIT, `carp_master_down` returns the whole state as it was: no entry changes
state, no timer is armed or cancelled, no advertisement goes out, and the load
mask and the pre-emption counter stay.  For an entry in BACKUP whose carrier
interface is present the entry is MASTER afterwards and the pre-emption
counter is one higher. -/
theorem carp_master_down_stale (w : carp_world) (j k : Nat) (sc : carp_softc)
    (vhe : carp_vhost_entry) (hsc : w.softcs[j]? = some sc)
    (hv : sc.carp_vhosts[k]? = some vhe) :
    (vhe.state = carp_state.MASTER ∨ vhe.state = carp_state.INIT →
      carp_master_down w j k = w) ∧
    (vhe.state = carp_state.BACKUP →
      (carp_master_down w j k).carpstat.carps_preempt = w.carpstat.carps_preempt + 1 ∧
      ∀ i, if_get w sc.sc_carpdevidx = some i →
        ∃ v, get_vhe (carp_master_down w j k) j k = some v ∧
          v.state = carp_state.MASTER) := by
  have hg : get_vhe w j k = some vhe := by rw [get_vhe_eq hsc, hv]
  refine ⟨?_, fun hs => ⟨carp_master_down_backup_preempt w j k vhe hg hs,
    fun i hi => carp_master_down_state w j k sc vhe i hsc hv hs hi⟩⟩
  intro hs
  unfold carp_master_down
  rw [hg]
  rcases hs with hs | hs
  · simp [hs]
  · simp [hs]

/-- The instance of C29 at `ex_world_master`, whose entry is MASTER. -/
theorem carp_master_down_stale_witness :
    carp_master_down ex_world_master 0 0 = ex_world_master :=
  (carp_master_down_stale ex_world_master 0 0 ex_sc_master ex_vhe_master rfl rfl).1
    (Or.inl rfl)

/-! ## Theorems: the fast-fail test -/

/-- C27, amended (fast-fail test): for an entry in BACKUP and an authenticated,
non-replayed advertisement on which the first two tests of the BACKUP case do
not fire, the third test treats the peer as down (calls `carp_master_down`)
iff the local base b is not zero and 3*b is below the peer's base, whenever
3*b differs from the peer's base: then the skews play no part.  When 3*b
equals the peer's base the skews decide: the peer is treated as down iff b
is not zero and the local skew*1000000/256 is below the peer's. -/
theorem carp_backup_fast_fail (SHA1Final : SHA1_CTX → List Nat) (w : carp_world)
    (ifp : rcvif) (ch : carp_header) (ismulti : Bool) (af : sa_family) (j k : Nat)
    (sc : carp_softc) (vhe : carp_vhost_entry)
    (hacc : carp_input_accepted SHA1Final w ifp ch ismulti af j k sc vhe)
    (hstate : vhe.state = carp_state.BACKUP)
    (h1 : ¬ (w.carp_opts_preempt = true ∧
      timercmp_lt (carp_timing sc.sc_advbase vhe.advskew)
        (carp_timing ch.carp_advbase ch.carp_advskew) = true ∧
      (ch.carp_demote : Int) ≥ carp_group_demote_count w sc))
    (h2 : ¬ (ch.carp_demote : Int) > carp_group_demote_count w sc) :
    (3 * sc.sc_advbase ≠ (ch.carp_advbase : Int) →
      carp_proto_input_c SHA1Final w ifp ch ismulti af =
        if sc.sc_advbase ≠ 0 ∧ 3 * sc.sc_advbase < (ch.carp_advbase : Int)
        then carp_master_down w j k else carp_setrun w j k af) ∧
    (3 * sc.sc_advbase = (ch.carp_advbase : Int) →
      carp_proto_input_c SHA1Final w ifp ch ismulti af =
        if sc.sc_advbase ≠ 0 ∧
          Int.tdiv (vhe.advskew * 1000000) 256 < Int.tdiv ((ch.carp_advskew : Int) * 1000000) 256
        then carp_master_down w j k else carp_setrun w j k af) := by
  have hdisp := carp_input_backup SHA1Final w ifp ch ismulti af j k sc vhe hacc hstate
  have key : ∀ c : Prop, [Decidable c] →
      (carp_backup_takes_over w.carp_opts_preempt sc.sc_advbase vhe.advskew
        (carp_group_demote_count w sc) ch.carp_advbase ch.carp_advskew ch.carp_demote ↔ c) →
      carp_proto_input_c SHA1Final w ifp ch ismulti af =
        if c then carp_master_down w j k else carp_setrun w j k af := by
    intro c _ hc
    rw [hdisp]
    by_cases h : c
    · rw [if_pos h, if_pos (hc.mpr h)]
    · rw [if_neg h, if_neg (fun h' => h (hc.mp h'))]
  constructor
  · intro hne
    apply key
    unfold carp_backup_takes_over
    constructor
    · rintro (h | h | ⟨hb, hlt⟩)
      · exact absurd h h1
      · exact absurd h h2
      · refine ⟨hb, ?_⟩
        simp only [timercmp_lt, carp_timing, if_neg hne, decide_eq_true_eq] at hlt
        exact hlt
    · rintro ⟨hb, hlt⟩
      refine Or.inr (Or.inr ⟨hb, ?_⟩)
      simp only [timercmp_lt, carp_timing, if_neg hne, decide_eq_true_eq]
      exact hlt
  · intro heq
    apply key
    unfold carp_backup_takes_over
    constructor
    · rintro (h | h | ⟨hb, hlt⟩)
      · exact absurd h h1
      · exact absurd h h2
      · refine ⟨hb, ?_⟩
        simp only [timercmp_lt, carp_timing, if_pos heq, decide_eq_true_eq] at hlt
        exact hlt
    · rintro ⟨hb, hlt⟩
      refine Or.inr (Or.inr ⟨hb, ?_⟩)
      simp only [timercmp_lt, carp_timing, if_pos heq, decide_eq_true_eq]
      exact hlt

/-- C27 as stated fails: at `ex_world` (base 1, skew 0, pre-emption off, equal
demotion counts) the advertisements `ex_ch_triple` and `ex_ch_triple_skew` have
the same base interval 3 and differ only in the advertised skew (0 and 1);
after the first the entry is still BACKUP, after the second it is MASTER. -/
theorem carp_backup_fast_fail_counterexample :
    carp_input_accepted ex_SHA1Final ex_world ex_ifp ex_ch_triple true sa_family.AF_INET 0 0
        ex_sc ex_vhe ∧
    carp_input_accepted ex_SHA1Final ex_world ex_ifp ex_ch_triple_skew true sa_family.AF_INET 0 0
        ex_sc ex_vhe ∧
    ex_vhe.state = carp_state.BACKUP ∧
    ex_ch_triple.carp_advbase = ex_ch_triple_skew.carp_advbase ∧
    (get_vhe (carp_proto_input_c ex_SHA1Final ex_world ex_ifp ex_ch_triple true
      sa_family.AF_INET) 0 0).map (fun v => v.state) = some carp_state.BACKUP ∧
    (get_vhe (carp_proto_input_c ex_SHA1Final ex_world ex_ifp ex_ch_triple_skew true
      sa_family.AF_INET) 0 0).map (fun v => v.state) = some carp_state.MASTER := by
  decide

/-- The instance of the amended C27 at `ex_world` and the advertisement `ex_ch`
(base 2, which is not 3 times the local base 1): the outcome is that of
`carp_setrun`. -/
theorem carp_backup_fast_fail_witness :
    carp_proto_input_c ex_SHA1Final ex_world ex_ifp ex_ch true sa_family.AF_INET =
      carp_setrun ex_world 0 0 sa_family.AF_INET :=
  ((carp_backup_fast_fail ex_SHA1Final ex_world ex_ifp ex_ch true sa_family.AF_INET 0 0
    ex_sc ex_vhe (by decide) (by decide) (by decide) (by decide)).1 (by decide)).trans
    (if_neg (by decide))

/-! ## Theorems: start-up and the master-down timers -/

theorem sc_static_of_frame {a b : carp_softc} (h : sc_frame a = sc_frame b) :
    sc_static a = sc_static b := by
  have : sc_static (sc_frame a) = sc_static (sc_frame b) := by rw [h]
  exact this

theorem carp_set_state_static (sc : carp_softc) (k : Nat) (st : carp_state) :
    sc_static (carp_set_state sc k st) = sc_static sc := by
  unfold carp_set_state carp_update_lsmask
  dsimp only
  split <;> rfl

theorem carp_setrun_ready_congr (a b : carp_softc) (v1 v2 : carp_vhost_entry)
    (h : sc_static a = sc_static b) (hv : v1.vhid = v2.vhid) :
    carp_setrun_ready a v1 = carp_setrun_ready b v2 := by
  simp only [sc_static, Prod.mk.injEq] at h
  obtain ⟨h1, h2, h3, h4, _, _⟩ := h
  unfold carp_setrun_ready
  rw [h1, h2, h3, h4, hv]

theorem carp_master_down_entry (w : carp_world) (j k : Nat) (sc : carp_softc)
    (vhe : carp_vhost_entry) (i : ifnet) (hsc : w.softcs[j]? = some sc)
    (hv : sc.carp_vhosts[k]? = some vhe) (hs : vhe.state = carp_state.BACKUP)
    (hi : if_get w sc.sc_carpdevidx = some i) :
    ∃ sc3 v2, get_vhe (carp_master_down w j k) j k =
        some (carp_setrun_entry sc3 sa_family.AF_UNSPEC v2) ∧
      vhe_frame v2 = vhe_frame { vhe with state := carp_state.MASTER } ∧
      sc_static sc3 = sc_static sc := by
  have hg : get_vhe w j k = some vhe := by rw [get_vhe_eq hsc, hv]
  rw [carp_master_down_backup w j k vhe hg hs]
  have h1 : (modify_sc w j (fun sc => carp_set_state sc k carp_state.MASTER)).softcs[j]? =
      some (carp_set_state sc k carp_state.MASTER) := by
    simp [modify_sc, List.getElem?_modify, hsc]
  have hv1 : (carp_set_state sc k carp_state.MASTER).carp_vhosts[k]? =
      some { vhe with state := carp_state.MASTER } := by
    rw [carp_set_state_vhosts]
    simp [List.getElem?_modify, hv]
  have hf := world_frame_send_ad
    (modify_sc w j (fun sc => carp_set_state sc k carp_state.MASTER)) j k
  obtain ⟨sc2, hsc2, hfr2⟩ := softcs_of_frame hf j _ h1
  obtain ⟨v2, hv2, hvf2⟩ := vhe_of_sc_frame hfr2 k _ hv1
  have hst2 : v2.state = carp_state.MASTER := by
    have : (vhe_frame v2).state = (vhe_frame { vhe with state := carp_state.MASTER }).state := by
      rw [hvf2]
    exact this
  have hstat2 : sc_static sc2 = sc_static sc :=
    (sc_static_of_frame hfr2).trans (carp_set_state_static sc k _)
  have hidx2 : sc2.sc_carpdevidx = sc.sc_carpdevidx := by
    have := congrArg (fun p => p.2.2.2.2.2) hstat2
    exact this
  generalize hw2 : carp_send_ad
    (modify_sc w j (fun sc => carp_set_state sc k carp_state.MASTER)) j k = w2 at hf hsc2
  have hif2 : if_get w2 sc.sc_carpdevidx = some i := by
    rw [if_get_frame _ w2 hf]
    exact hi
  let arp : carp_softc → carp_softc := fun sc =>
    match sc.carp_vhosts[k]? with
    | none => sc
    | some vhe =>
      if sc.sc_balancing = CARP_BAL_NONE ∧ vhe.vhe_leader = true
      then { sc with sc_delayed_arp := 2 } else sc
  have harp_v : (arp sc2).carp_vhosts = sc2.carp_vhosts := by
    show (match sc2.carp_vhosts[k]? with
      | none => sc2
      | some vhe =>
        if sc2.sc_balancing = CARP_BAL_NONE ∧ vhe.vhe_leader = true
        then { sc2 with sc_delayed_arp := 2 } else sc2).carp_vhosts = _
    rw [hv2]
    dsimp only
    split <;> rfl
  have harp_s : sc_static (arp sc2) = sc_static sc2 := by
    show sc_static (match sc2.carp_vhosts[k]? with
      | none => sc2
      | some vhe =>
        if sc2.sc_balancing = CARP_BAL_NONE ∧ vhe.vhe_leader = true
        then { sc2 with sc_delayed_arp := 2 } else sc2) = _
    rw [hv2]
    dsimp only
    split <;> rfl
  have harp_i : (arp sc2).sc_carpdevidx = sc2.sc_carpdevidx := by
    have := congrArg (fun p => p.2.2.2.2.2) harp_s
    exact this
  have h3 : (modify_sc w2 j arp).softcs[j]? = some (arp sc2) := by
    simp [modify_sc, List.getElem?_modify, hsc2]
  have hv3 : (arp sc2).carp_vhosts[k]? = some v2 := by rw [harp_v, hv2]
  have hif3 : if_get (modify_sc w2 j arp) (arp sc2).sc_carpdevidx = some i := by
    rw [harp_i, hidx2]
    exact hif2
  have hne : v2.state ≠ carp_state.INIT := by rw [hst2]; decide
  have hget := carp_setrun_get_vhe (modify_sc w2 j arp) j k sa_family.AF_UNSPEC (arp sc2) v2 i
    h3 hv3 hne hif3 j k
  refine ⟨arp sc2, v2, ?_, hvf2, harp_s.trans hstat2⟩
  show get_vhe (carp_setrun (modify_sc w2 j arp) j k sa_family.AF_UNSPEC) j k = _
  rw [hget]
  simp

theorem carp_master_down_promoted (w : carp_world) (j k : Nat) (sc : carp_softc)
    (vhe : carp_vhost_entry) (i : ifnet) (hsc : w.softcs[j]? = some sc)
    (hv : sc.carp_vhosts[k]? = some vhe) (hs : vhe.state = carp_state.BACKUP)
    (hi : if_get w sc.sc_carpdevidx = some i) :
    ∃ v, get_vhe (carp_master_down w j k) j k = some v ∧ v.state = carp_state.MASTER ∧
      v.md_tmo = vhe.md_tmo ∧ v.md6_tmo = vhe.md6_tmo ∧
      (carp_setrun_ready sc vhe = true →
        v.ad_tmo = some (carp_setrun_master_tv sc.sc_advbase vhe.advskew)) := by
  obtain ⟨sc3, v2, hget, hfr, hstat⟩ := carp_master_down_entry w j k sc vhe i hsc hv hs hi
  have hf : ∀ {α : Type} (π : carp_vhost_entry → α),
      (∀ x, π (vhe_frame x) = π x) → π v2 = π { vhe with state := carp_state.MASTER } := by
    intro α π hπ
    rw [← hπ v2, hfr, hπ]
  have hst2 : v2.state = carp_state.MASTER := hf (fun x => x.state) (fun _ => rfl)
  have hmd : v2.md_tmo = vhe.md_tmo := hf (fun x => x.md_tmo) (fun _ => rfl)
  have hmd6 : v2.md6_tmo = vhe.md6_tmo := hf (fun x => x.md6_tmo) (fun _ => rfl)
  have hvhid : v2.vhid = vhe.vhid := hf (fun x => x.vhid) (fun _ => rfl)
  have hskew : v2.advskew = vhe.advskew := hf (fun x => x.advskew) (fun _ => rfl)
  have hready := carp_setrun_ready_congr sc3 sc v2 vhe hstat hvhid
  have hbase : sc3.sc_advbase = sc.sc_advbase := by
    have := congrArg (fun p => p.2.2.2.2.1) hstat
    exact this
  refine ⟨_, hget, ?_, ?_, ?_, ?_⟩
  · rw [carp_setrun_entry_state, hst2]
  · unfold carp_setrun_entry
    rw [hst2]
    split <;> exact hmd
  · unfold carp_setrun_entry
    rw [hst2]
    split <;> exact hmd6
  · intro hr
    unfold carp_setrun_entry
    rw [hready, hr, hst2, hbase, hskew]
    rfl


/-- C22, amended (promotion and the master-down timers): for an entry in BACKUP
whose carrier interface is present, after `carp_master_down` the entry is
MASTER and its two master-down timers are as they were before the call (a
pending one is still pending); its advertisement timer is armed when the
coordinator is ready to run (up, vhid > 0, an address, not suppressed). -/
theorem carp_master_down_keeps_md (w : carp_world) (j k : Nat) (sc : carp_softc)
    (vhe : carp_vhost_entry) (i : ifnet) (hsc : w.softcs[j]? = some sc)
    (hv : sc.carp_vhosts[k]? = some vhe) (hs : vhe.state = carp_state.BACKUP)
    (hi : if_get w sc.sc_carpdevidx = some i) :
    ∃ v, get_vhe (carp_master_down w j k) j k = some v ∧ v.state = carp_state.MASTER ∧
      v.md_tmo = vhe.md_tmo ∧ v.md6_tmo = vhe.md6_tmo ∧
      (carp_setrun_ready sc vhe = true →
        v.ad_tmo = some (carp_setrun_master_tv sc.sc_advbase vhe.advskew)) :=
  carp_master_down_promoted w j k sc vhe i hsc hv hs hi

/-- C22 as stated fails: at `ex_world_pending` the entry is in BACKUP with both
master-down timers pending and the carrier present; after `carp_master_down`
it is MASTER, its advertisement timer is armed, and both master-down timers
are still pending. -/
theorem carp_master_down_keeps_md_counterexample :
    (get_vhe ex_world_pending 0 0).map (fun v => (v.state, v.md_tmo.isSome, v.md6_tmo.isSome)) =
      some (carp_state.BACKUP, true, true) ∧
    (get_vhe (carp_master_down ex_world_pending 0 0) 0 0).map
      (fun v => (v.state, v.ad_tmo.isSome, v.md_tmo.isSome, v.md6_tmo.isSome)) =
      some (carp_state.MASTER, true, true, true) := by
  decide

/-- The instance of the amended C22 at `ex_world_pending`. -/
theorem carp_master_down_keeps_md_witness :
    ∃ v, get_vhe (carp_master_down ex_world_pending 0 0) 0 0 = some v ∧
      v.state = carp_state.MASTER ∧ v.md_tmo = ex_vhe_pending.md_tmo ∧
      v.md6_tmo = ex_vhe_pending.md6_tmo ∧
      (carp_setrun_ready { ex_sc with carp_vhosts := [ex_vhe_pending] } ex_vhe_pending = true →
        v.ad_tmo = some (carp_setrun_master_tv ex_sc.sc_advbase ex_vhe_pending.advskew)) :=
  carp_master_down_keeps_md ex_world_pending 0 0 { ex_sc with carp_vhosts := [ex_vhe_pending] }
    ex_vhe_pending ex_ifnet rfl rfl rfl (by decide)

/-- What the `default:` case of the `switch (af)` of `carp_setrun` does: for an
entry in BACKUP on a coordinator that is ready to run (up, vhid > 0, an
address, not suppressed) and whose carrier interface is present, `carp_setrun`
with af = 0 leaves the entry in BACKUP, arms the IPv4 master-down timer iff
`sc_naddrs` is not zero and the IPv6 one iff `sc_naddrs6` is not zero, whether
or not they were pending, and leaves the timer of a family without addresses
as it was. -/
theorem carp_setrun_unspec_by_family (w : carp_world) (j k : Nat) (sc : carp_softc)
    (vhe : carp_vhost_entry) (i : ifnet) (hsc : w.softcs[j]? = some sc)
    (hv : sc.carp_vhosts[k]? = some vhe) (hs : vhe.state = carp_state.BACKUP)
    (hi : if_get w sc.sc_carpdevidx = some i) (hready : carp_setrun_ready sc vhe = true) :
    ∃ v, get_vhe (carp_setrun w j k sa_family.AF_UNSPEC) j k = some v ∧
      v.state = carp_state.BACKUP ∧
      v.md_tmo = (if sc.sc_naddrs ≠ 0
        then some (carp_setrun_backup_tv sc.sc_advbase vhe.advskew) else vhe.md_tmo) ∧
      v.md6_tmo = (if sc.sc_naddrs6 ≠ 0
        then some (carp_setrun_backup_tv sc.sc_advbase vhe.advskew) else vhe.md6_tmo) := by
  have hne : vhe.state ≠ carp_state.INIT := by rw [hs]; decide
  have hget := carp_setrun_get_vhe w j k sa_family.AF_UNSPEC sc vhe i hsc hv hne hi j k
  refine ⟨carp_setrun_entry sc sa_family.AF_UNSPEC vhe, by rw [hget]; simp, ?_, ?_, ?_⟩
  · rw [carp_setrun_entry_state, hs]
  · unfold carp_setrun_entry carp_setrun_backup_arm
    rw [hready, hs]
    simp only [if_true]
    split <;> split <;> rfl
  · unfold carp_setrun_entry carp_setrun_backup_arm
    rw [hready, hs]
    simp only [if_true]
    split <;> split <;> rfl

/-- C23 (family-less re-arm) fails on the code: at `ex_world` the entry is in
BACKUP on a running coordinator with one IPv4 address and neither of its
master-down timers is pending.  The comment above `carp_setrun` says that
with af = 0 the timers already pending are reset, so the IPv4 timer should
still not be pending after the call; the code arms it, for 3 s, because
`sc_naddrs` is not zero. -/
theorem carp_setrun_unspec_arms_idle :
    (get_vhe ex_world 0 0).map (fun v => (v.state, v.md_tmo, v.md6_tmo)) =
      some (carp_state.BACKUP, none, none) ∧
    (ex_world.softcs[0]?).map (fun sc => (sc.if_flags_running, sc.sc_naddrs, sc.sc_naddrs6)) =
      some (true, 1, 0) ∧
    (get_vhe (carp_setrun ex_world 0 0 sa_family.AF_UNSPEC) 0 0).map
      (fun v => (v.state, v.md_tmo, v.md6_tmo)) =
      some (carp_state.BACKUP, some { tv_sec := 3, tv_usec := 0 }, none) := by
  decide

/-- The instance of `carp_setrun_unspec_by_family` at `ex_world`. -/
theorem carp_setrun_unspec_by_family_ex :
    ∃ v, get_vhe (carp_setrun ex_world 0 0 sa_family.AF_UNSPEC) 0 0 = some v ∧
      v.state = carp_state.BACKUP ∧
      v.md_tmo = (if ex_sc.sc_naddrs ≠ 0
        then some (carp_setrun_backup_tv ex_sc.sc_advbase ex_vhe.advskew) else ex_vhe.md_tmo) ∧
      v.md6_tmo = (if ex_sc.sc_naddrs6 ≠ 0
        then some (carp_setrun_backup_tv ex_sc.sc_advbase ex_vhe.advskew) else ex_vhe.md6_tmo) :=
  carp_setrun_unspec_by_family ex_world 0 0 ex_sc ex_vhe ex_ifnet rfl rfl rfl (by decide)
    (by decide)


theorem carp_setrun_body_self (self1 self2 : carp_softc → carp_softc) (ifp : Option ifnet)
    (sc : carp_softc) (k : Nat) (af : sa_family) (vhe : carp_vhost_entry)
    (h : sc.carp_vhosts[k]? = some vhe) (hs : vhe.state ≠ carp_state.INIT) :
    carp_setrun_body self1 ifp sc k af = carp_setrun_body self2 ifp sc k af := by
  unfold carp_setrun_body
  simp only [h]
  cases ifp with
  | none => rfl
  | some i =>
    dsimp only
    split
    · cases hst : vhe.state with
      | INIT => exact absurd hst hs
      | BACKUP => rfl
      | MASTER => rfl
    · rfl

theorem carp_setrun_sc_init (i : ifnet) (sc : carp_softc) (k : Nat) (af : sa_family)
    (vhe : carp_vhost_entry) (h : sc.carp_vhosts[k]? = some vhe)
    (hs : vhe.state = carp_state.INIT) (hready : carp_setrun_ready sc vhe = true) :
    carp_setrun_sc (some i) sc k af =
      carp_setrun_sc (some i)
        (carp_set_state
          { sc with sc_realmac := decide (memcmp i.ac_enaddr sc.ac_enaddr ETHER_ADDR_LEN = 0),
                    if_flags_running := true }
          k carp_state.BACKUP)
        k sa_family.AF_UNSPEC := by
  have hr : ∀ b : Bool, carp_setrun_ready { sc with sc_realmac := b } vhe
      = carp_setrun_ready sc vhe := fun _ => rfl
  have hv1 : (carp_set_state
      { sc with sc_realmac := decide (memcmp i.ac_enaddr sc.ac_enaddr ETHER_ADDR_LEN = 0),
                if_flags_running := true }
      k carp_state.BACKUP).carp_vhosts[k]? = some { vhe with state := carp_state.BACKUP } := by
    rw [carp_set_state_vhosts]
    simp [List.getElem?_modify, h]
  have hlhs : carp_setrun_sc (some i) sc k af =
      carp_setrun_body (fun sc2 => sc2) (some i)
        (carp_set_state
          { sc with sc_realmac := decide (memcmp i.ac_enaddr sc.ac_enaddr ETHER_ADDR_LEN = 0),
                    if_flags_running := true }
          k carp_state.BACKUP)
        k sa_family.AF_UNSPEC := by
    conv_lhs => unfold carp_setrun_sc carp_setrun_body
    simp only [h, hr, hready, if_true, hs]
    conv_rhs => unfold carp_setrun_body
  rw [hlhs]
  unfold carp_setrun_sc
  exact carp_setrun_body_self _ _ _ _ _ _ _ hv1 (by simp)

theorem carp_setrun_sc_static (i : ifnet) (sc : carp_softc) (k : Nat) (af : sa_family)
    (vhe : carp_vhost_entry) (h : sc.carp_vhosts[k]? = some vhe)
    (hs : vhe.state ≠ carp_state.INIT) :
    sc_static (carp_setrun_sc (some i) sc k af) = sc_static sc := by
  rw [carp_setrun_sc_not_init i sc k af vhe h hs]
  split
  · cases hst : vhe.state with
    | INIT => exact absurd hst hs
    | BACKUP => rfl
    | MASTER => rfl
  · rfl

theorem get_vhe_carp_setrun (w : carp_world) (j k : Nat) (af : sa_family) (sc : carp_softc)
    (hsc : w.softcs[j]? = some sc) :
    (carp_setrun w j k af).softcs[j]? =
      some (carp_setrun_sc (if_get w sc.sc_carpdevidx) sc k af) := by
  unfold carp_setrun
  exact softcs_modify_sc_self w j _ sc hsc

theorem carp_setrun_init_entry (w : carp_world) (j k : Nat) (af : sa_family) (sc : carp_softc)
    (vhe : carp_vhost_entry) (i : ifnet) (hsc : w.softcs[j]? = some sc)
    (hv : sc.carp_vhosts[k]? = some vhe) (hi : if_get w sc.sc_carpdevidx = some i)
    (hs : vhe.state = carp_state.INIT) (hready : carp_setrun_ready sc vhe = true) :
    ∃ sc1, (carp_setrun w j k af).softcs[j]? = some sc1 ∧ sc_static sc1 = sc_static sc ∧
      sc1.carp_vhosts[k]? =
        some (carp_setrun_backup_arm sc.sc_naddrs sc.sc_naddrs6
          (carp_setrun_backup_tv sc.sc_advbase vhe.advskew) sa_family.AF_UNSPEC
          { vhe with state := carp_state.BACKUP }) := by
  have hv1 : (carp_set_state
      { sc with sc_realmac := decide (memcmp i.ac_enaddr sc.ac_enaddr ETHER_ADDR_LEN = 0),
                if_flags_running := true }
      k carp_state.BACKUP).carp_vhosts[k]? = some { vhe with state := carp_state.BACKUP } := by
    rw [carp_set_state_vhosts]
    simp [List.getElem?_modify, hv]
  have hst1 : sc_static (carp_set_state
      { sc with sc_realmac := decide (memcmp i.ac_enaddr sc.ac_enaddr ETHER_ADDR_LEN = 0),
                if_flags_running := true }
      k carp_state.BACKUP) = sc_static sc := carp_set_state_static _ _ _
  have hne : ({ vhe with state := carp_state.BACKUP } : carp_vhost_entry).state ≠
      carp_state.INIT := by simp
  refine ⟨_, get_vhe_carp_setrun w j k af sc hsc, ?_, ?_⟩
  · rw [hi, carp_setrun_sc_init i sc k af vhe hv hs hready,
      carp_setrun_sc_static i _ k _ _ hv1 hne, hst1]
  · rw [hi, carp_setrun_sc_init i sc k af vhe hv hs hready,
      carp_setrun_sc_vhosts i _ k _ _ hv1 hne k, if_pos rfl]
    have hready1 := carp_setrun_ready_congr _ sc { vhe with state := carp_state.BACKUP } vhe
      hst1 rfl
    simp only [sc_static, Prod.mk.injEq] at hst1
    obtain ⟨_, _, h3, h4, h5, _⟩ := hst1
    unfold carp_setrun_entry
    rw [hready1, hready, h3, h4, h5]
    rfl

/-- C21 (start-up timing): for an entry in INIT with vhid > 0 and skew s in
0..255 on a coordinator that is up, not suppressed, has its carrier interface,
an IPv4 address and a base interval b >= 1, `carp_setrun` leaves the entry in
BACKUP with its master-down timer armed for 3*b seconds and s*1000000/256
microseconds, and `carp_master_down` after it leaves the entry in MASTER with
its advertisement timer armed for b seconds and s*1000000/256 microseconds. -/
theorem carp_setrun_startup (w : carp_world) (j k : Nat) (af : sa_family) (sc : carp_softc)
    (vhe : carp_vhost_entry) (i : ifnet) (hsc : w.softcs[j]? = some sc)
    (hv : sc.carp_vhosts[k]? = some vhe) (hi : if_get w sc.sc_carpdevidx = some i)
    (hs : vhe.state = carp_state.INIT) (hvhid : vhe.vhid > 0)
    (hskew : 0 ≤ vhe.advskew ∧ vhe.advskew ≤ 255)
    (hup : sc.if_flags_up = true) (hsup : sc.sc_suppress = false)
    (hn : sc.sc_naddrs ≠ 0) (hb : 1 ≤ sc.sc_advbase) :
    (∃ v1, get_vhe (carp_setrun w j k af) j k = some v1 ∧ v1.state = carp_state.BACKUP ∧
      v1.md_tmo = some { tv_sec := 3 * sc.sc_advbase,
                         tv_usec := Int.tdiv (vhe.advskew * 1000000) 256 }) ∧
    (∃ v2, get_vhe (carp_master_down (carp_setrun w j k af) j k) j k = some v2 ∧
      v2.state = carp_state.MASTER ∧
      v2.ad_tmo = some { tv_sec := sc.sc_advbase,
                         tv_usec := Int.tdiv (vhe.advskew * 1000000) 256 }) := by
  have hready : carp_setrun_ready sc vhe = true := by
    unfold carp_setrun_ready
    simp [hup, hsup, hn, hvhid]
  have husec : 0 ≤ Int.tdiv (vhe.advskew * 1000000) 256 :=
    Int.tdiv_nonneg (by omega) (by decide)
  have htvb : carp_setrun_backup_tv sc.sc_advbase vhe.advskew =
      { tv_sec := 3 * sc.sc_advbase, tv_usec := Int.tdiv (vhe.advskew * 1000000) 256 } := by
    unfold carp_setrun_backup_tv
    have h0 : ¬ sc.sc_advbase = 0 := by omega
    simp only [h0, false_and, if_false]
    rw [if_neg (by omega), if_neg (by omega)]
  have htvm : carp_setrun_master_tv sc.sc_advbase vhe.advskew =
      { tv_sec := sc.sc_advbase, tv_usec := Int.tdiv (vhe.advskew * 1000000) 256 } := by
    unfold carp_setrun_master_tv
    have h0 : ¬ sc.sc_advbase = 0 := by omega
    simp only [h0, false_and, if_false]
    rw [if_neg (by omega), if_neg (by omega)]
  obtain ⟨sc1, hsc1, hstat1, hv1⟩ := carp_setrun_init_entry w j k af sc vhe i hsc hv hi hs hready
  have hmd : (carp_setrun_backup_arm sc.sc_naddrs sc.sc_naddrs6
      (carp_setrun_backup_tv sc.sc_advbase vhe.advskew) sa_family.AF_UNSPEC
      { vhe with state := carp_state.BACKUP }).md_tmo =
      some (carp_setrun_backup_tv sc.sc_advbase vhe.advskew) := by
    unfold carp_setrun_backup_arm
    simp only [hn, ne_eq, not_false_eq_true, if_true]
    split <;> rfl
  constructor
  · refine ⟨_, by rw [get_vhe_eq hsc1, hv1], ?_, ?_⟩
    · rw [carp_setrun_backup_arm_state]
    · rw [hmd, htvb]
  · have hidx : sc1.sc_carpdevidx = sc.sc_carpdevidx := by
      have := congrArg (fun p => p.2.2.2.2.2) hstat1
      exact this
    have hbase : sc1.sc_advbase = sc.sc_advbase := by
      have := congrArg (fun p => p.2.2.2.2.1) hstat1
      exact this
    have hi1 : if_get (carp_setrun w j k af) sc1.sc_carpdevidx = some i := by
      rw [hidx]
      exact hi
    obtain ⟨v2, hg2, hst2, _, _, had⟩ := carp_master_down_promoted (carp_setrun w j k af) j k
      sc1 _ i hsc1 hv1 (carp_setrun_backup_arm_state _ _ _ _ _) hi1
    have hvh : (carp_setrun_backup_arm sc.sc_naddrs sc.sc_naddrs6
        (carp_setrun_backup_tv sc.sc_advbase vhe.advskew) sa_family.AF_UNSPEC
        { vhe with state := carp_state.BACKUP }).vhid = vhe.vhid ∧
        (carp_setrun_backup_arm sc.sc_naddrs sc.sc_naddrs6
        (carp_setrun_backup_tv sc.sc_advbase vhe.advskew) sa_family.AF_UNSPEC
        { vhe with state := carp_state.BACKUP }).advskew = vhe.advskew := by
      have := carp_setrun_backup_arm_ident sc.sc_naddrs sc.sc_naddrs6
        (carp_setrun_backup_tv sc.sc_advbase vhe.advskew) sa_family.AF_UNSPEC
        { vhe with state := carp_state.BACKUP }
      simp only [vhe_ident, Prod.mk.injEq] at this
      exact this
    refine ⟨v2, hg2, hst2, ?_⟩
    rw [had (by rw [carp_setrun_ready_congr sc1 sc _ vhe hstat1 hvh.1]; exact hready),
      hbase, hvh.2, htvm]

/-- The instance of C21 at `ex_world_init` (base 1, skew 0): 3 s for the
master-down timer, then 1 s for the advertisement timer. -/
theorem carp_setrun_startup_witness :
    (∃ v1, get_vhe (carp_setrun ex_world_init 0 0 sa_family.AF_UNSPEC) 0 0 = some v1 ∧
      v1.state = carp_state.BACKUP ∧ v1.md_tmo = some { tv_sec := 3, tv_usec := 0 }) ∧
    (∃ v2, get_vhe (carp_master_down (carp_setrun ex_world_init 0 0 sa_family.AF_UNSPEC) 0 0)
        0 0 = some v2 ∧
      v2.state = carp_state.MASTER ∧ v2.ad_tmo = some { tv_sec := 1, tv_usec := 0 }) :=
  carp_setrun_startup ex_world_init 0 0 sa_family.AF_UNSPEC ex_sc_init ex_vhe_init ex_ifnet
    rfl rfl (by decide) rfl (by decide) (by decide) rfl rfl (by decide) (by decide)

/-! ## Theorems: the single leader -/

theorem single_leader_congr {l1 l2 : List carp_vhost_entry}
    (h : l1.map (fun v => v.vhe_leader) = l2.map (fun v => v.vhe_leader)) :
    single_leader l1 = single_leader l2 := by
  cases l1 with
  | nil =>
    cases l2 with
    | nil => rfl
    | cons b l2 => simp at h
  | cons a l1 =>
    cases l2 with
    | nil => simp at h
    | cons b l2 =>
      simp only [List.map_cons, List.cons.injEq] at h
      simp only [single_leader]
      rw [h.1]
      congr 1
      have : ∀ l : List carp_vhost_entry, l.all (fun vhe0 => !vhe0.vhe_leader) =
          (l.map (fun v => v.vhe_leader)).all (fun b => !b) := by
        intro l
        induction l with
        | nil => rfl
        | cons x l ih => simp only [List.all_cons, List.map_cons, ih]
      rw [this l1, this l2, h.2]

theorem single_leader_append (l : List carp_vhost_entry) (v : carp_vhost_entry)
    (hl : l ≠ []) (hv : v.vhe_leader = false) (h : single_leader l = true) :
    single_leader (l ++ [v]) = true := by
  cases l with
  | nil => exact absurd rfl hl
  | cons a l =>
    unfold single_leader at h ⊢
    simp only [List.cons_append, Bool.and_eq_true, List.all_append, List.all_cons, List.all_nil,
      Bool.and_true, Bool.not_eq_true'] at h ⊢
    exact ⟨h.1, h.2, hv⟩

theorem carp_new_vhost_single_leader (sc : carp_softc) (v s : Int) (ok : Bool)
    (h : single_leader sc.carp_vhosts = true) :
    single_leader (carp_new_vhost sc v s ok).2.carp_vhosts = true := by
  unfold carp_new_vhost
  split
  · exact h
  · split
    · exact h
    · dsimp only
      split
      · rfl
      · rename_i h3
        have hne : sc.carp_vhosts ≠ [] := fun he => h3 (by rw [he]; rfl)
        split
        · exact single_leader_append _ _ hne rfl h
        · exact single_leader_append _ _ hne rfl h

theorem carp_vhids_ioctl_sort_for_single_leader (carpr : carpreq) (j : Nat) (rest : List Nat)
    (i : Nat) (sc : carp_softc) (ms : List Bool) (e : Int) (sc1 : carp_softc) (ms1 : List Bool)
    (hsc : single_leader sc.carp_vhosts = true)
    (h : carp_vhids_ioctl_sort_for carpr j rest i sc ms = some (e, sc1, ms1)) :
    single_leader sc1.carp_vhosts = true := by
  induction rest generalizing i sc ms with
  | nil => unfold carp_vhids_ioctl_sort_for at h; exact absurd h (by simp)
  | cons v rest ih =>
    unfold carp_vhids_ioctl_sort_for at h
    split at h
    · simp only [Option.some.injEq, Prod.mk.injEq] at h
      rw [← h.2.1]; exact hsc
    · split at h
      · simp only [Option.some.injEq, Prod.mk.injEq] at h
        rw [← h.2.1]; exact hsc
      · split at h
        · exact ih _ _ _ hsc h
        · split at h
          · exact absurd h (by simp)
          · dsimp only at h
            split at h
            · simp only [Option.some.injEq, Prod.mk.injEq] at h
              rw [← h.2.1]
              exact carp_new_vhost_single_leader _ _ _ _ hsc
            · refine ih _ _ _ ?_ h
              exact carp_new_vhost_single_leader _ _ _ _ hsc

theorem carp_vhids_ioctl_sort_single_leader (carpr : carpreq) (js : List Nat)
    (sc : carp_softc) (ms : List Bool) (e : Int) (sc1 : carp_softc) (ms1 : List Bool)
    (hsc : single_leader sc.carp_vhosts = true)
    (h : carp_vhids_ioctl_sort carpr js sc ms = some (e, sc1, ms1)) :
    single_leader sc1.carp_vhosts = true := by
  induction js generalizing sc ms with
  | nil =>
    unfold carp_vhids_ioctl_sort at h
    simp only [Option.some.injEq, Prod.mk.injEq] at h
    rw [← h.2.1]; exact hsc
  | cons j js ih =>
    unfold carp_vhids_ioctl_sort at h
    cases hf : carp_vhids_ioctl_sort_for carpr j carpr.carpr_vhids 0 sc ms with
    | none => rw [hf] at h; exact absurd h (by simp)
    | some r =>
      obtain ⟨e2, sc2, ms2⟩ := r
      rw [hf] at h
      dsimp only at h
      have h2 := carp_vhids_ioctl_sort_for_single_leader carpr j _ 0 sc ms e2 sc2 ms2 hsc hf
      split at h
      · simp only [Option.some.injEq, Prod.mk.injEq] at h
        rw [← h.2.1]; exact h2
      · exact ih sc2 ms2 h2 h


theorem carp_set_state_leader (sc : carp_softc) (k : Nat) (st : carp_state) :
    (carp_set_state sc k st).carp_vhosts.map (fun v => v.vhe_leader) =
      sc.carp_vhosts.map (fun v => v.vhe_leader) := by
  rw [carp_set_state_vhosts]
  exact map_modify_of_eq (fun v : carp_vhost_entry => v.vhe_leader)
    (fun v : carp_vhost_entry => { v with state := st }) (by intro; rfl) _ _

theorem carp_set_state_all_leader (sc : carp_softc) (st : carp_state) :
    (carp_set_state_all sc st).carp_vhosts.map (fun v => v.vhe_leader) =
      sc.carp_vhosts.map (fun v => v.vhe_leader) := by
  rw [carp_set_state_all_vhosts, List.map_map]
  rfl

theorem modify_vhe_leader (sc : carp_softc) (k : Nat) (f : carp_vhost_entry → carp_vhost_entry)
    (hf : ∀ v, (f v).vhe_leader = v.vhe_leader) :
    (modify_vhe sc k f).carp_vhosts.map (fun v => v.vhe_leader) =
      sc.carp_vhosts.map (fun v => v.vhe_leader) :=
  map_modify_of_eq (fun v => v.vhe_leader) f hf _ _

theorem carp_setrun_backup_arm_leader (n n6 : Int) (tv : timeval) (af : sa_family)
    (v : carp_vhost_entry) : (carp_setrun_backup_arm n n6 tv af v).vhe_leader = v.vhe_leader := by
  unfold carp_setrun_backup_arm
  cases af
  · dsimp only
    split <;> split <;> rfl
  · rfl
  · rfl

theorem carp_setrun_body_leader (self : carp_softc → carp_softc)
    (hself : ∀ s, (self s).carp_vhosts.map (fun v => v.vhe_leader) =
      s.carp_vhosts.map (fun v => v.vhe_leader))
    (ifp : Option ifnet) (sc : carp_softc) (k : Nat) (af : sa_family) :
    (carp_setrun_body self ifp sc k af).carp_vhosts.map (fun v => v.vhe_leader) =
      sc.carp_vhosts.map (fun v => v.vhe_leader) := by
  unfold carp_setrun_body
  split
  · rfl
  · split
    · exact carp_set_state_all_leader _ _
    · dsimp only
      split
      · split
        · rw [hself, carp_set_state_leader]
        · rw [modify_vhe_leader _ _ _ (carp_setrun_backup_arm_leader _ _ _ _)]
          split <;> rfl
        · exact modify_vhe_leader _ _ _ (fun _ => rfl)
      · rfl

theorem carp_setrun_sc_leader (ifp : Option ifnet) (sc : carp_softc) (k : Nat)
    (af : sa_family) :
    (carp_setrun_sc ifp sc k af).carp_vhosts.map (fun v => v.vhe_leader) =
      sc.carp_vhosts.map (fun v => v.vhe_leader) :=
  carp_setrun_body_leader _
    (fun s => carp_setrun_body_leader _ (fun _ => rfl) ifp s k sa_family.AF_UNSPEC) ifp sc k af

theorem carp_setrun_all_leader (ifp : Option ifnet) (sc : carp_softc) (af : sa_family) :
    (carp_setrun_all ifp sc af).carp_vhosts.map (fun v => v.vhe_leader) =
      sc.carp_vhosts.map (fun v => v.vhe_leader) := by
  unfold carp_setrun_all
  generalize List.range sc.carp_vhosts.length = l
  induction l generalizing sc with
  | nil => rfl
  | cons k l ih => rw [List.foldl_cons, ih, carp_setrun_sc_leader]

theorem carp_set_vhe_enaddr_leader (sc : carp_softc) (v : carp_vhost_entry) :
    (carp_set_vhe_enaddr sc v).vhe_leader = v.vhe_leader := by
  unfold carp_set_vhe_enaddr
  split <;> rfl

theorem carp_set_enaddr_leader (in6_ifattach_linklocal : carp_softc → List ifaddr)
    (ifp : Option ifnet) (sc : carp_softc) :
    (carp_set_enaddr in6_ifattach_linklocal ifp sc).carp_vhosts.map (fun v => v.vhe_leader) =
      sc.carp_vhosts.map (fun v => v.vhe_leader) := by
  have hmap : (sc.carp_vhosts.map (carp_set_vhe_enaddr sc)).map (fun v => v.vhe_leader) =
      sc.carp_vhosts.map (fun v => v.vhe_leader) := by
    rw [List.map_map]
    congr 1
    funext v
    exact carp_set_vhe_enaddr_leader sc v
  unfold carp_set_enaddr
  dsimp only
  repeat' split
  all_goals first
    | exact hmap
    | (rw [carp_setrun_all_leader, carp_set_state_all_leader]; exact hmap)

theorem carp_vhids_ioctl_single_leader (in6_ifattach_linklocal : carp_softc → List ifaddr)
    (within : Nat → Bool) (ifp : Option ifnet) (cif : List carp_softc) (mallocs : List Bool)
    (sc : carp_softc) (carpr : carpreq) (e : Int) (sc1 : carp_softc) (carpr1 : carpreq)
    (hsc : single_leader sc.carp_vhosts = true)
    (h : carp_vhids_ioctl in6_ifattach_linklocal within ifp cif mallocs sc carpr =
      some (e, sc1, carpr1)) :
    single_leader sc1.carp_vhosts = true := by
  unfold carp_vhids_ioctl at h
  split at h
  · exact absurd h (by simp)
  · split at h
    · simp only [Option.some.injEq, Prod.mk.injEq] at h
      rw [← h.2.1]; exact hsc
    · split at h
      · exact absurd h (by simp)
      · simp only [Option.some.injEq, Prod.mk.injEq] at h
        rw [← h.2.1]; exact hsc
      · dsimp only at h
        split at h
        · exact absurd h (by simp)
        · rename_i e2 sc2 ms2 hsort
          have h2 := carp_vhids_ioctl_sort_single_leader _ _ _ _ e2 sc2 ms2 (by rfl) hsort
          split at h
          · simp only [Option.some.injEq, Prod.mk.injEq] at h
            rw [← h.2.1]; exact h2
          · simp only [Option.some.injEq, Prod.mk.injEq] at h
            rw [← h.2.1, single_leader_congr (carp_set_state_all_leader _ _),
              single_leader_congr (carp_set_enaddr_leader _ _ _)]
            exact h2

theorem vhost_call_run_single_leader (sc : carp_softc) (c : vhost_call) (sc1 : carp_softc)
    (hsc : single_leader sc.carp_vhosts = true) (h : vhost_call_run sc c = some sc1) :
    single_leader sc1.carp_vhosts = true := by
  cases c with
  | new_vhost v s ok =>
    simp only [vhost_call_run, Option.some.injEq] at h
    rw [← h]
    exact carp_new_vhost_single_leader sc v s ok hsc
  | destroy_vhosts =>
    simp only [vhost_call_run, Option.some.injEq] at h
    rw [← h]
    rfl
  | vhids_ioctl in6 within ifp cif mallocs carpr =>
    simp only [vhost_call_run] at h
    split at h
    · exact absurd h (by simp)
    · rename_i r hr
      split at h
      · simp only [Option.some.injEq] at h
        rw [← h]
        exact carp_vhids_ioctl_single_leader in6 within ifp cif mallocs sc carpr r.1 r.2.1 r.2.2
          hsc hr
      · exact absurd h (by simp)

theorem single_leader_spec (l : List carp_vhost_entry) (h : single_leader l = true)
    (hne : l ≠ []) :
    l.countP (fun v => v.vhe_leader) = 1 ∧ l.head?.map (fun v => v.vhe_leader) = some true := by
  cases l with
  | nil => exact absurd rfl hne
  | cons a l =>
    simp only [single_leader, Bool.and_eq_true, List.all_eq_true, Bool.not_eq_true'] at h
    refine ⟨?_, by simp [h.1]⟩
    have h0 : l.countP (fun v => v.vhe_leader) = 0 := by
      rw [List.countP_eq_zero]
      intro v hv
      simp [h.2 v hv]
    rw [List.countP_cons_of_pos _ _ h.1, h0]

/-- C24 (single leader): starting from a coordinator whose entry list is empty
(as at creation) or has its leader flag on the first entry alone, after every
sequence of `carp_new_vhost` calls (whatever they return),
`carp_destroy_vhosts` calls and `carp_vhids_ioctl` calls that return 0, a
non-empty entry list has exactly one entry with `vhe_leader` set, and it is
the first of the list. -/
theorem vhost_calls_single_leader (sc : carp_softc) (calls : List vhost_call)
    (sc1 : carp_softc) (hsc : single_leader sc.carp_vhosts = true)
    (h : vhost_calls_run sc calls = some sc1) (hne : sc1.carp_vhosts ≠ []) :
    sc1.carp_vhosts.countP (fun v => v.vhe_leader) = 1 ∧
    sc1.carp_vhosts.head?.map (fun v => v.vhe_leader) = some true := by
  have hinv : single_leader sc1.carp_vhosts = true := by
    induction calls generalizing sc with
    | nil =>
      simp only [vhost_calls_run, Option.some.injEq] at h
      rw [← h]; exact hsc
    | cons c rest ih =>
      simp only [vhost_calls_run] at h
      split at h
      · exact absurd h (by simp)
      · rename_i sc2 hc
        exact ih sc2 (vhost_call_run_single_leader sc c sc2 hsc hc) h
  exact single_leader_spec _ hinv hne


set_option maxRecDepth 100000 in
/-- The instance of C24 at `ex_sc` and the calls `ex_vhost_calls`: the list
ends as vhid 3 (leader) followed by vhid 7. -/
theorem vhost_calls_single_leader_witness :
    ((vhost_calls_run ex_sc ex_vhost_calls).map
      (fun s => s.carp_vhosts.map (fun v => (v.vhid, v.vhe_leader)))) =
        some [(3, true), (7, false)] ∧
    ((vhost_calls_run ex_sc ex_vhost_calls).getD ex_sc).carp_vhosts.countP
      (fun v => v.vhe_leader) = 1 ∧
    ((vhost_calls_run ex_sc ex_vhost_calls).getD ex_sc).carp_vhosts.head?.map
      (fun v => v.vhe_leader) = some true :=
  ⟨by decide,
   vhost_calls_single_leader ex_sc ex_vhost_calls
    ((vhost_calls_run ex_sc ex_vhost_calls).getD ex_sc) (by decide) (by decide) (by decide)⟩

/-! ## Theorems: the get request -/

theorem carp_ioctl_SIOCGVH_loop_some (l : List carp_vhost_entry) (i : Nat) (carpr : carpreq)
    (hv : i + l.length ≤ carpr.carpr_vhids.length)
    (hs : i + l.length ≤ carpr.carpr_advskews.length)
    (ht : i + l.length ≤ carpr.carpr_states.length) :
    ∃ r, carp_ioctl_SIOCGVH_loop l i carpr = some r ∧ r.carpr_key = carpr.carpr_key := by
  induction l generalizing i carpr with
  | nil => exact ⟨carpr, rfl, rfl⟩
  | cons v l ih =>
    simp only [List.length_cons] at hv hs ht
    unfold carp_ioctl_SIOCGVH_loop
    rw [if_pos ⟨by omega, by omega, by omega⟩]
    obtain ⟨r, hr, hk⟩ := ih (i + 1)
      { carpr with carpr_vhids := carpr.carpr_vhids.set i (v.vhid % 256).toNat,
                   carpr_advskews := carpr.carpr_advskews.set i (v.advskew % 256).toNat,
                   carpr_states := carpr.carpr_states.set i (carp_state_val v.state) }
      (by simp only [List.length_set]; omega) (by simp only [List.length_set]; omega)
      (by simp only [List.length_set]; omega)
    exact ⟨r, hr, hk⟩

/-- C25 (key confidentiality on read): for every coordinator with at most
`CARP_MAXNODES` entries the case `SIOCGVH` builds a reply; when `suser(p)` is
not 0 every key byte of the reply is zero and the reply is the same whatever
the coordinator's `sc_key`; when `suser(p)` is 0 the reply's key is the
stored key (its `CARP_KEY_LEN` bytes). -/
theorem carp_ioctl_SIOCGVH_key (ifp0 : Option ifnet) (suser : Int) (sc : carp_softc)
    (hn : sc.carp_vhosts.length ≤ CARP_MAXNODES) :
    ∃ reply, carp_ioctl_SIOCGVH ifp0 suser sc = some reply ∧
      (suser ≠ 0 → reply.carpr_key = List.replicate CARP_KEY_LEN 0 ∧
        ∀ key, carp_ioctl_SIOCGVH ifp0 suser { sc with sc_key := key } = some reply) ∧
      (suser = 0 → sc.sc_key.length = CARP_KEY_LEN → reply.carpr_key = sc.sc_key) := by
  obtain ⟨r, hr, hk⟩ := carp_ioctl_SIOCGVH_loop_some sc.carp_vhosts 0
    (match ifp0 with
      | some ifp0 => { carpreq_zero with
          carpr_carpdev := strlcpy carpreq_zero.carpr_carpdev ifp0.if_xname IFNAMSIZ }
      | none => carpreq_zero)
    (by cases ifp0 <;> simpa [carpreq_zero] using hn)
    (by cases ifp0 <;> simpa [carpreq_zero] using hn)
    (by cases ifp0 <;> simpa [carpreq_zero] using hn)
  have hk0 : r.carpr_key = List.replicate CARP_KEY_LEN 0 := by
    rw [hk]
    cases ifp0 <;> rfl
  by_cases hsu : suser = 0
  · refine ⟨{ r with carpr_advbase := sc.sc_advbase, carpr_balancing := sc.sc_balancing,
                     carpr_key := sc.sc_key.take r.carpr_key.length ++
                       r.carpr_key.drop sc.sc_key.length,
                     carpr_peer := sc.sc_peer }, ?_, fun h => absurd hsu h, fun _ hlen => ?_⟩
    · unfold carp_ioctl_SIOCGVH
      simp only [hr, hsu, if_true]
    · simp only [hk0, List.length_replicate]
      rw [← hlen, List.take_length, List.drop_replicate, Nat.sub_self]
      simp
  · refine ⟨{ r with carpr_advbase := sc.sc_advbase, carpr_balancing := sc.sc_balancing,
                     carpr_peer := sc.sc_peer }, ?_, fun _ => ⟨hk0, fun key => ?_⟩,
      fun h => absurd h hsu⟩
    · unfold carp_ioctl_SIOCGVH
      simp only [hr, hsu, if_false]
    · unfold carp_ioctl_SIOCGVH
      simp only [hr, hsu, if_false]

set_option maxRecDepth 100000 in
/-- The instance of C25 at `ex_sc_key` for an unprivileged caller (`suser(p)`
returns `EPERM` = 1): the reply exists and its key is twenty zero bytes. -/
theorem carp_ioctl_SIOCGVH_key_witness :
    (carp_ioctl_SIOCGVH (some ex_ifnet) 1 ex_sc_key).map (fun r => r.carpr_key) =
      some (List.replicate 20 0) ∧
    (carp_ioctl_SIOCGVH (some ex_ifnet) 0 ex_sc_key).map (fun r => r.carpr_key) =
      some (List.range' 1 20) ∧
    ∃ reply, carp_ioctl_SIOCGVH (some ex_ifnet) 1 ex_sc_key = some reply ∧
      ((1 : Int) ≠ 0 → reply.carpr_key = List.replicate CARP_KEY_LEN 0 ∧
        ∀ key, carp_ioctl_SIOCGVH (some ex_ifnet) 1 { ex_sc_key with sc_key := key } =
          some reply) ∧
      ((1 : Int) = 0 → ex_sc_key.sc_key.length = CARP_KEY_LEN →
        reply.carpr_key = ex_sc_key.sc_key) :=
  ⟨by decide, by decide, carp_ioctl_SIOCGVH_key (some ex_ifnet) 1 ex_sc_key (by decide)⟩

/-! ## Theorems: the NAT64 round trip -/

theorem length_eq_four {α : Type} (l : List α) (h : l.length = 4) :
    ∃ a b c d, l = [a, b, c, d] := by
  rcases l with _ | ⟨a, _ | ⟨b, _ | ⟨c, _ | ⟨d, _ | ⟨e, t⟩⟩⟩⟩⟩
  all_goals first
    | exact ⟨_, _, _, _, rfl⟩
    | simp at h

theorem length_eq_sixteen {α : Type} (l : List α) (h : l.length = 16) :
    ∃ a0 a1 a2 a3 a4 a5 a6 a7 a8 a9 a10 a11 a12 a13 a14 a15,
      l = [a0, a1, a2, a3, a4, a5, a6, a7, a8, a9, a10, a11, a12, a13, a14, a15] := by
  obtain ⟨a0, a1, a2, a3, h1⟩ := length_eq_four (l.take 4) (by simp [h])
  obtain ⟨a4, a5, a6, a7, h2⟩ := length_eq_four ((l.drop 4).take 4) (by simp [h])
  obtain ⟨a8, a9, a10, a11, h3⟩ := length_eq_four ((l.drop 8).take 4) (by simp [h])
  obtain ⟨a12, a13, a14, a15, h4⟩ := length_eq_four (l.drop 12) (by simp [h])
  refine ⟨a0, a1, a2, a3, a4, a5, a6, a7, a8, a9, a10, a11, a12, a13, a14, a15, ?_⟩
  have e1 : l = l.take 4 ++ l.drop 4 := (List.take_append_drop 4 l).symm
  have e2 : l.drop 4 = (l.drop 4).take 4 ++ l.drop 8 := by
    have := (List.take_append_drop 4 (l.drop 4)).symm
    simp only [List.drop_drop] at this
    exact this
  have e3 : l.drop 8 = (l.drop 8).take 4 ++ l.drop 12 := by
    have := (List.take_append_drop 4 (l.drop 8)).symm
    simp only [List.drop_drop] at this
    exact this
  rw [e1, e2, e3, h1, h2, h3, h4]
  rfl


/-- C30, amended (NAT64 round trip): for every IPv4 address a, every 128-bit
prefix p and every prefix length L in 32, 40, 48, 56, 64, 96,
`inet_nat64_inet6` returns 0 and leaves a result whose octet 8 is zero and
whose other octets among the first L/8 are those of p, and `inet_nat64_inet`
on that result with the same p and L returns 0 and yields a. -/
theorem inet_nat64_round_trip (be : Bool) (a p d0 d1 : List Nat) (L : Nat)
    (ha : a.length = 4) (hp : p.length = 16) (hd0 : d0.length = 16) (hd1 : d1.length = 4)
    (hL : L = 32 ∨ L = 40 ∨ L = 48 ∨ L = 56 ∨ L = 64 ∨ L = 96) :
    ∃ r, inet_nat64_inet6 be (some a) (some d0) (some p) L = some (0, some r) ∧
      r[8]? = some 0 ∧ (∀ k, k < L / 8 → k ≠ 8 → r[k]? = p[k]?) ∧
      inet_nat64_inet be (some r) (some d1) (some p) L = some (0, some a) := by
  obtain ⟨a0, a1, a2, a3, rfl⟩ := length_eq_four a ha
  obtain ⟨x0, x1, x2, x3, rfl⟩ := length_eq_four d1 hd1
  obtain ⟨p0, p1, p2, p3, p4, p5, p6, p7, p8, p9, p10, p11, p12, p13, p14, p15, rfl⟩ :=
    length_eq_sixteen p hp
  obtain ⟨y0, y1, y2, y3, y4, y5, y6, y7, y8, y9, y10, y11, y12, y13, y14, y15, rfl⟩ :=
    length_eq_sixteen d0 hd0
  rcases hL with rfl | rfl | rfl | rfl | rfl | rfl
  · refine ⟨[p0, p1, p2, p3, a0, a1, a2, a3, 0, p9, p10, p11, p12, p13, p14, p15],
      rfl, rfl, ?_, rfl⟩
    intro k hk h8
    interval_cases k <;> rfl
  · refine ⟨[p0, p1, p2, p3, p4, a0, a1, a2, 0, a3, p10, p11, p12, p13, p14, p15],
      rfl, rfl, ?_, rfl⟩
    intro k hk h8
    interval_cases k <;> rfl
  · refine ⟨[p0, p1, p2, p3, p4, p5, a0, a1, 0, a2, a3, p11, p12, p13, p14, p15],
      rfl, rfl, ?_, rfl⟩
    intro k hk h8
    interval_cases k <;> rfl
  · refine ⟨[p0, p1, p2, p3, p4, p5, p6, a0, 0, a1, a2, a3, p12, p13, p14, p15],
      rfl, rfl, ?_, rfl⟩
    intro k hk h8
    interval_cases k <;> rfl
  · refine ⟨[p0, p1, p2, p3, p4, p5, p6, p7, 0, a0, a1, a2, a3, p13, p14, p15],
      rfl, rfl, ?_, rfl⟩
    intro k hk h8
    interval_cases k <;> rfl
  · refine ⟨[p0, p1, p2, p3, p4, p5, p6, p7, 0, p9, p10, p11, a0, a1, a2, a3],
      rfl, rfl, ?_, rfl⟩
    intro k hk h8
    interval_cases k <;> first | rfl | exact absurd rfl h8

/-- C30 as stated fails: with L = 96 octet 8 lies among the first L/8 = 12
octets; for the prefix `ex_pfx`, whose octet 8 is 255, `inet_nat64_inet6`
returns 0 and a result whose octet 8 is 0, not that of the prefix. -/
theorem inet_nat64_round_trip_counterexample :
    ex_pfx[8]? = some 255 ∧ 8 < 96 / 8 ∧
    inet_nat64_inet6 true (some ex_inet) (some (List.replicate 16 0)) (some ex_pfx) 96 =
      some (0, some [32, 1, 13, 184, 1, 34, 3, 68, 0, 0, 0, 0, 192, 0, 2, 33]) := by
  decide

/-- The instance of the amended C30 at the address `ex_inet`, the prefix
`ex_pfx` and L = 96. -/
theorem inet_nat64_round_trip_witness :
    ∃ r, inet_nat64_inet6 true (some ex_inet) (some (List.replicate 16 0)) (some ex_pfx) 96 =
        some (0, some r) ∧
      r[8]? = some 0 ∧ (∀ k, k < 96 / 8 → k ≠ 8 → r[k]? = ex_pfx[k]?) ∧
      inet_nat64_inet true (some r) (some [0, 0, 0, 0]) (some ex_pfx) 96 =
        some (0, some ex_inet) :=
  inet_nat64_round_trip true ex_inet ex_pfx (List.replicate 16 0) [0, 0, 0, 0] 96
    rfl rfl rfl rfl (by decide)

end Carp
